import Mathlib

/-! # MicroSymphony: arbitrated shared FRAM and per-node mailboxes

A shallow embedding of

* `src/Applications/mailbox.c` (descriptor layout, `mailbox_send_msg`,
  `mailbox_send_bulk`, `mailbox_recv_msg`), with the constants of
  `src/IPC/SPI_Arbitrar_5969/mailbox.h` and `fram.h`;
* `src/IPC/SPI_Arbitrar_5969/main.c` (the arbiter);
* `src/IPC/SPI_Worker_5969/main.c` (the per-node lock client).

Machine integers are natural numbers; every place where the C code can wrap
carries an explicit reduction (`u8`, `u16`, `u32`).  The MSP430 is a 16-bit
little-endian target: `uint16_t` arithmetic is performed modulo `2^16`.
-/

namespace MicroSymphony

/-! ## Machine integers -/

/-- Truncation to `uint8_t`. -/
def u8 (x : Nat) : Nat := x % 256

/-- Truncation to `uint16_t`. -/
def u16 (x : Nat) : Nat := x % 65536

/-- Truncation to `uint32_t`. -/
def u32 (x : Nat) : Nat := x % 4294967296

/-! ## Storage medium (`fram.h`, `fram.c`)

The chip is a byte-addressable store.  `fram_send_addr` transmits the three low
address bytes, the chip auto-increments.  Besides the contents we record every
read and write command issued, as `(address, length)`. -/

/-- The shared FRAM: contents plus the commands issued so far (newest first). -/
structure Fram where
  mem : Nat → Nat
  wlog : List (Nat × Nat)
  rlog : List (Nat × Nat)

/-- The address that reaches the chip: `fram_send_addr` sends bits 23..0. -/
def fram_send_addr (addr : Nat) : Nat := addr % 16777216

/-- Model of `fram_write_bytes(addr, src, len)`: WREN, WRITE, address, then the
`len` bytes of `src`. -/
def fram_write_bytes (fr : Fram) (addr : Nat) (src : Nat → Nat) (len : Nat) : Fram :=
  { mem := fun a =>
      if fram_send_addr addr ≤ a ∧ a < fram_send_addr addr + len
      then u8 (src (a - fram_send_addr addr)) else fr.mem a
    wlog := (addr, len) :: fr.wlog
    rlog := fr.rlog }

/-- Model of `fram_read_bytes(addr, dst, len)`: returns immediately when
`len == 0`, otherwise fills `dst[0..len)`. -/
def fram_read_bytes (fr : Fram) (addr : Nat) (dst : Nat → Nat) (len : Nat) :
    Fram × (Nat → Nat) :=
  if len = 0 then (fr, dst)
  else
    ({ fr with rlog := (addr, len) :: fr.rlog },
     fun i => if i < len then u8 (fr.mem (fram_send_addr addr + i)) else dst i)

/-! ## Layout constants (`mailbox.h`, `fram.h`) -/

def FRAM_NOTIF_BOX_ADDR : Nat := 0x00010
def MAILBOX_NUM_NODES : Nat := 4
def NODE_BOX_SIZE : Nat := 0x5000
def NODE1_BASE : Nat := 0x01000
def NODE2_BASE : Nat := 0x06000
def NODE3_BASE : Nat := 0x0B000
def NODE4_BASE : Nat := 0x10000
def NODE_DESC_OFFSET : Nat := 0x0000
def NODE_DATA_OFFSET : Nat := 0x0100
def NODE_BOX_DATA_SIZE : Nat := 0x4F00
def MSG_SLOT_SIZE : Nat := 64
def MSG_SLOT_PAYLOAD_MAX : Nat := MSG_SLOT_SIZE - 4

/-- Modelled from the spec: the header declaring `MSG_FLAG_BULK` is not among the
sources; the data model says "bit0 set => this slot begins a bulk message". -/
def MSG_FLAG_BULK : Nat := 1

/-- Modelled from the spec: `sizeof(bulk_header_t)`; the type is declared in a
header that is not among the sources.  The spec gives `header_size(4)` and
`mailbox_recv_msg` documents the layout `src_id, flags, total_len LSB, MSB`. -/
def BULK_HEADER_SIZE : Nat := 4

/-- The descriptor `node_box_desc_t`. -/
structure node_box_desc_t where
  base : Nat
  size : Nat
  head : Nat
  tail : Nat
  used : Nat
  msg_size : Nat
  reserved0 : Nat
  reserved1 : Nat
deriving DecidableEq

/-- The value of `sizeof(node_box_desc_t)`: one `uint32_t` and seven `uint16_t`. -/
def DESC_SIZE : Nat := 18

/-- Little-endian 16-bit field at byte offset `i` of a buffer. -/
def le16 (b : Nat → Nat) (i : Nat) : Nat := b i + 256 * b (i + 1)

/-- Little-endian 32-bit field at byte offset `i` of a buffer. -/
def le32 (b : Nat → Nat) (i : Nat) : Nat :=
  b i + 256 * b (i + 1) + 65536 * b (i + 2) + 16777216 * b (i + 3)

/-- The in-memory image of a descriptor, as the byte buffer `(const uint8_t *)&d`. -/
def desc_bytes (d : node_box_desc_t) : Nat → Nat
  | 0 => d.base % 256
  | 1 => d.base / 256 % 256
  | 2 => d.base / 65536 % 256
  | 3 => d.base / 16777216 % 256
  | 4 => d.size % 256
  | 5 => d.size / 256 % 256
  | 6 => d.head % 256
  | 7 => d.head / 256 % 256
  | 8 => d.tail % 256
  | 9 => d.tail / 256 % 256
  | 10 => d.used % 256
  | 11 => d.used / 256 % 256
  | 12 => d.msg_size % 256
  | 13 => d.msg_size / 256 % 256
  | 14 => d.reserved0 % 256
  | 15 => d.reserved0 / 256 % 256
  | 16 => d.reserved1 % 256
  | 17 => d.reserved1 / 256 % 256
  | _ => 0

/-- The descriptor held by a buffer filled through `(uint8_t *)&d`. -/
def desc_of_bytes (b : Nat → Nat) : node_box_desc_t :=
  { base := le32 b 0
    size := le16 b 4
    head := le16 b 6
    tail := le16 b 8
    used := le16 b 10
    msg_size := le16 b 12
    reserved0 := le16 b 14
    reserved1 := le16 b 16 }

/-! ## Layout helpers (`mailbox.c`) -/

def mailbox_node_box_base (node_index : Nat) : Nat :=
  match node_index with
  | 0 => NODE1_BASE
  | 1 => NODE2_BASE
  | 2 => NODE3_BASE
  | 3 => NODE4_BASE
  | _ => NODE1_BASE

def mailbox_node_desc_addr (node_index : Nat) : Nat :=
  mailbox_node_box_base node_index + NODE_DESC_OFFSET

def mailbox_node_data_base (node_index : Nat) : Nat :=
  mailbox_node_box_base node_index + NODE_DATA_OFFSET

/-! ## Descriptor init -/

def mailbox_init_one_node (fr : Fram) (node_index : Nat) : Fram :=
  let d : node_box_desc_t :=
    { base := mailbox_node_data_base node_index
      size := u16 NODE_BOX_DATA_SIZE
      head := 0
      tail := 0
      used := 0
      msg_size := MSG_SLOT_SIZE
      reserved0 := 0
      reserved1 := 0 }
  fram_write_bytes fr (mailbox_node_desc_addr node_index) (desc_bytes d) DESC_SIZE

/-- The loop `for (i = 0; i < MAILBOX_NUM_NODES; i++) mailbox_init_one_node(i)`,
with `n` iterations left. -/
def mailbox_init_loop : Nat → Nat → Fram → Fram
  | 0, _, fr => fr
  | n + 1, i, fr => mailbox_init_loop n (i + 1) (mailbox_init_one_node fr i)

def mailbox_init_layout (fr : Fram) : Fram :=
  let fr := mailbox_init_loop MAILBOX_NUM_NODES 0 fr
  fram_write_bytes fr FRAM_NOTIF_BOX_ADDR (fun _ => 0) 1

/-! ## Internal helpers -/

def mailbox_slot_count (d : node_box_desc_t) : Nat :=
  let msize := d.msg_size
  if msize = 0 then 0 else u16 (d.size / msize)

/-- The four header bytes built by `mailbox_write_one_slot`. -/
def slot_header (src_id len : Nat) : Nat → Nat
  | 0 => src_id
  | 1 => 0
  | 2 => len
  | 3 => 0
  | _ => 0

def mailbox_write_one_slot (fr : Fram) (slot_addr src_id len : Nat) (payload : Nat → Nat) :
    Fram :=
  let fr := fram_write_bytes fr slot_addr (slot_header src_id len) 4
  if len ≠ 0 then fram_write_bytes fr (u32 (slot_addr + 4)) payload len else fr

/-! ## Public send/recv -/

/-- Model of `mailbox_send_msg`; the result is the new store and the return value.
The `uart0_println` diagnostics are not modelled. -/
def mailbox_send_msg (fr : Fram) (dest_index src_id : Nat) (data : Nat → Nat) (len : Nat) :
    Fram × Nat :=
  if dest_index ≥ MAILBOX_NUM_NODES then (fr, 0)
  else if len = 0 then (fr, 0)
  else if len > MSG_SLOT_PAYLOAD_MAX then (fr, 0)
  else
    let desc_addr := mailbox_node_desc_addr dest_index
    let r := fram_read_bytes fr desc_addr (fun _ => 0) DESC_SIZE
    let fr := r.1
    let d := desc_of_bytes r.2
    let slot_count := mailbox_slot_count d
    if slot_count = 0 then (fr, 0)
    else if d.used ≥ slot_count then (fr, 0)
    else
      let slot_index := d.tail
      let slot_addr := u32 (d.base + u32 (slot_index * d.msg_size))
      let fr := mailbox_write_one_slot fr slot_addr src_id len data
      let slot_index := u16 (slot_index + 1)
      let slot_index := if slot_index ≥ slot_count then 0 else slot_index
      let d := { d with tail := slot_index, used := u16 (d.used + 1) }
      let fr := fram_write_bytes fr desc_addr (desc_bytes d) DESC_SIZE
      (fr, 1)

/-- Model of `mailbox_write_bytes_ring`.  The C loop does not terminate when
`ring_size == 0`, so the model takes fuel (one unit per loop test). -/
def mailbox_write_bytes_ring :
    Nat → Fram → Nat → Nat → Nat → (Nat → Nat) → Nat → Option (Fram × Nat)
  | 0, _, _, _, _, _, _ => none
  | fuel + 1, fr, base, ring_size, offset, p, remaining =>
    if remaining > 0 then
      let chunk := u32 (ring_size + 4294967296 - offset)
      let chunk := if chunk > remaining then remaining else chunk
      let fr := fram_write_bytes fr (u32 (base + offset)) p chunk
      let p := fun i => p (i + chunk)
      let remaining := remaining - chunk
      let offset := u32 (offset + chunk)
      let offset := if offset ≥ ring_size then 0 else offset
      mailbox_write_bytes_ring fuel fr base ring_size offset p remaining
    else some (fr, offset)

/-- The four bytes of a `bulk_header_t` as laid out in memory. -/
def bulk_header_bytes (src_id flags total_len : Nat) : Nat → Nat
  | 0 => src_id
  | 1 => flags
  | 2 => total_len % 256
  | 3 => total_len / 256 % 256
  | _ => 0

/-- Model of `mailbox_send_bulk`; `none` only when the fuel runs out. -/
def mailbox_send_bulk (fuel : Nat) (fr : Fram) (dest_index src_id : Nat) (data : Nat → Nat)
    (total_len : Nat) : Option (Fram × Nat) :=
  if dest_index ≥ MAILBOX_NUM_NODES then some (fr, 0)
  else if total_len = 0 then some (fr, 0)
  else if total_len > 0xFFFF then some (fr, 0)
  else
    let desc_addr := mailbox_node_desc_addr dest_index
    let r := fram_read_bytes fr desc_addr (fun _ => 0) DESC_SIZE
    let fr := r.1
    let d := desc_of_bytes r.2
    let slot_count := mailbox_slot_count d
    if slot_count = 0 then some (fr, 0)
    else if d.msg_size = 0 then some (fr, 0)
    else
      let ring_size := d.size
      if d.used ≥ slot_count then some (fr, 0)
      else
        let free_slots := u16 (slot_count + 65536 - d.used)
        let bytes_to_write := BULK_HEADER_SIZE + total_len
        let used_slots := u16 ((bytes_to_write + d.msg_size - 1) / d.msg_size)
        if used_slots = 0 then some (fr, 0)
        else if used_slots > free_slots then some (fr, 0)
        else if bytes_to_write > ring_size then some (fr, 0)
        else
          let write_pos := u32 (d.tail * d.msg_size)
          match mailbox_write_bytes_ring fuel fr d.base ring_size write_pos
              (bulk_header_bytes src_id MSG_FLAG_BULK total_len) BULK_HEADER_SIZE with
          | none => none
          | some (fr, write_pos) =>
            match mailbox_write_bytes_ring fuel fr d.base ring_size write_pos data total_len with
            | none => none
            | some (fr, _) =>
              let used := u16 (d.used + used_slots)
              let used := if used > slot_count then slot_count else used
              let tail := u16 (d.tail + used_slots)
              let tail := if tail ≥ slot_count then u16 (tail + 65536 - slot_count) else tail
              let d := { d with used := used, tail := tail }
              let fr := fram_write_bytes fr desc_addr (desc_bytes d) DESC_SIZE
              some (fr, 1)

/-- Model of `mailbox_read_bytes_ring`; `dst` is the caller's buffer and `k` the
index `p - dst` reached so far. -/
def mailbox_read_bytes_ring :
    Nat → Fram → Nat → Nat → Nat → (Nat → Nat) → Nat → Nat → Option (Fram × (Nat → Nat) × Nat)
  | 0, _, _, _, _, _, _, _ => none
  | fuel + 1, fr, base, ring_size, offset, dst, k, remaining =>
    if remaining > 0 then
      let chunk := u32 (ring_size + 4294967296 - offset)
      let chunk := if chunk > remaining then remaining else chunk
      let r := fram_read_bytes fr (u32 (base + offset)) (fun i => dst (k + i)) chunk
      let dst := fun j => if k ≤ j ∧ j < k + chunk then r.2 (j - k) else dst j
      let remaining := remaining - chunk
      let offset := u32 (offset + chunk)
      let offset := if offset ≥ ring_size then 0 else offset
      mailbox_read_bytes_ring fuel r.1 base ring_size offset dst (k + chunk) remaining
    else some (fr, dst, offset)

/-- The loop `for (i = 0; i < len; i++) data_out[i] = slot.payload[i]`, with `n`
iterations left and loop index `i`. -/
def copy_payload (payload : Nat → Nat) : Nat → Nat → (Nat → Nat) → (Nat → Nat)
  | 0, _, out => out
  | n + 1, i, out => copy_payload payload n (i + 1) (fun j => if j = i then payload i else out j)

/-- What `mailbox_recv_msg` leaves behind: its return value and the three output
parameters. -/
structure RecvOut where
  ret : Nat
  src_id_out : Nat
  len_out : Nat
  data_out : Nat → Nat

/-- Model of `mailbox_recv_msg`.  The output parameters are passed in with their
current contents and returned; `none` only when the fuel runs out. -/
def mailbox_recv_msg (fuel : Nat) (fr : Fram) (node_index : Nat) (src_id_out len_out : Nat)
    (data_out : Nat → Nat) : Option (Fram × RecvOut) :=
  if node_index ≥ MAILBOX_NUM_NODES then some (fr, ⟨0, src_id_out, len_out, data_out⟩)
  else
    let desc_addr := mailbox_node_desc_addr node_index
    let r := fram_read_bytes fr desc_addr (fun _ => 0) DESC_SIZE
    let fr := r.1
    let d := desc_of_bytes r.2
    let slot_count := mailbox_slot_count d
    if slot_count = 0 then some (fr, ⟨0, src_id_out, len_out, data_out⟩)
    else if d.used = 0 then some (fr, ⟨0, src_id_out, len_out, data_out⟩)
    else
      let ring_size := d.size
      let slot_index := d.head
      let slot_addr := u32 (d.base + u32 (slot_index * d.msg_size))
      let rs := fram_read_bytes fr slot_addr (fun _ => 0) MSG_SLOT_SIZE
      let fr := rs.1
      let slot := rs.2
      let src_id_out := slot 0
      if slot 1 &&& MSG_FLAG_BULK = 0 then
        let len := slot 2
        let len := if len > MSG_SLOT_PAYLOAD_MAX then 0 else len
        let len_out := len
        let data_out := copy_payload (fun i => slot (4 + i)) len 0 data_out
        let slot_index := u16 (slot_index + 1)
        let slot_index := if slot_index ≥ slot_count then 0 else slot_index
        let d := { d with head := slot_index, used := if d.used > 0 then d.used - 1 else d.used }
        let fr := fram_write_bytes fr desc_addr (desc_bytes d) DESC_SIZE
        some (fr, ⟨1, src_id_out, len_out, data_out⟩)
      else
        let total_len := slot 2 ||| u16 (slot 3 <<< 8)
        if total_len = 0 then
          let len_out := 0
          let slot_index := u16 (slot_index + 1)
          let slot_index := if slot_index ≥ slot_count then 0 else slot_index
          let d := { d with head := slot_index, used := if d.used > 0 then d.used - 1 else d.used }
          let fr := fram_write_bytes fr desc_addr (desc_bytes d) DESC_SIZE
          some (fr, ⟨0, src_id_out, len_out, data_out⟩)
        else
          let bytes_total := BULK_HEADER_SIZE + total_len
          if bytes_total > ring_size then
            let len_out := 0
            let d := { d with used := 0, head := 0 }
            let fr := fram_write_bytes fr desc_addr (desc_bytes d) DESC_SIZE
            some (fr, ⟨0, src_id_out, len_out, data_out⟩)
          else
            let start_offset := u32 (slot_index * d.msg_size)
            let payload_pos := u32 (start_offset + BULK_HEADER_SIZE)
            let payload_pos := if payload_pos ≥ ring_size then payload_pos - ring_size
              else payload_pos
            match mailbox_read_bytes_ring fuel fr d.base ring_size payload_pos data_out 0
                total_len with
            | none => none
            | some (fr, data_out, _) =>
              let len_out := total_len
              let used_slots := u16 ((bytes_total + d.msg_size - 1) / d.msg_size)
              let slot_index := u16 (slot_index + used_slots)
              let slot_index := if slot_index ≥ slot_count
                then u16 (slot_index + 65536 - slot_count) else slot_index
              let d := { d with head := slot_index,
                                used := if d.used ≥ used_slots then u16 (d.used - used_slots)
                                        else 0 }
              let fr := fram_write_bytes fr desc_addr (desc_bytes d) DESC_SIZE
              some (fr, ⟨1, src_id_out, len_out, data_out⟩)

/-! ## Arbiter (`SPI_Arbitrar_5969/main.c`) -/

def NUM_NODES : Nat := 3
def NODE1_ID : Nat := 1
def NODE2_ID : Nat := 2
def NODE3_ID : Nat := 3

/-- The globals of the arbiter, and the Grant pulses it has driven so far (newest
first), which stand for the pin activity of `gnt_pulse_node`. -/
structure Arbiter where
  g_lock_holder : Nat
  g_req_event_mask : Nat
  g_queue : Nat → Nat
  g_q_len : Nat
  g_need_schedule : Nat
  pulses : List Nat

def index_to_node_id (idx : Nat) : Nat :=
  if idx = 0 then NODE1_ID
  else if idx = 1 then NODE2_ID
  else if idx = 2 then NODE3_ID
  else 0

/-- The loop of `queue_contains`, with `n` iterations left and loop index `i`. -/
def queue_contains_loop (q : Nat → Nat) (node_id : Nat) : Nat → Nat → Nat
  | 0, _ => 0
  | n + 1, i => if q i = node_id then 1 else queue_contains_loop q node_id n (i + 1)

def queue_contains (a : Arbiter) (node_id : Nat) : Nat :=
  queue_contains_loop a.g_queue node_id a.g_q_len 0

def queue_push (a : Arbiter) (node_id : Nat) : Arbiter :=
  if a.g_q_len ≥ NUM_NODES then a
  else if queue_contains a node_id ≠ 0 then a
  else
    { a with
      g_queue := fun k => if k = a.g_q_len then node_id else a.g_queue k
      g_q_len := u8 (a.g_q_len + 1) }

/-- The shifting loop of `queue_pop`, with `n` iterations left and loop index `i`. -/
def queue_pop_loop : Nat → Nat → (Nat → Nat) → (Nat → Nat)
  | 0, _, q => q
  | n + 1, i, q => queue_pop_loop n (i + 1) (fun k => if k = i - 1 then q i else q k)

/-- Model of `queue_pop`: the new state and the returned node id (0 when empty). -/
def queue_pop (a : Arbiter) : Arbiter × Nat :=
  if a.g_q_len = 0 then (a, 0)
  else
    let first := a.g_queue 0
    ({ a with
       g_queue := queue_pop_loop (a.g_q_len - 1) 1 a.g_queue
       g_q_len := a.g_q_len - 1 }, first)

/-- The compacting loop of `queue_remove`, with `n` iterations left, read index `i`
and write index `j`; returns the array and the final `j`. -/
def queue_remove_loop (node_id : Nat) : Nat → Nat → Nat → (Nat → Nat) → (Nat → Nat) × Nat
  | 0, _, j, q => (q, j)
  | n + 1, i, j, q =>
    if q i ≠ node_id then
      queue_remove_loop node_id n (i + 1) (j + 1) (fun k => if k = j then q i else q k)
    else queue_remove_loop node_id n (i + 1) j q

def queue_remove (a : Arbiter) (node_id : Nat) : Arbiter :=
  let r := queue_remove_loop node_id a.g_q_len 0 0 a.g_queue
  { a with g_queue := r.1, g_q_len := r.2 }

/-- Model of `gnt_pulse_node`: one pulse on the Grant line of node 1, 2 or 3, nothing
for any other id. -/
def gnt_pulse_node (a : Arbiter) (node_id : Nat) : Arbiter :=
  if node_id = NODE1_ID ∨ node_id = NODE2_ID ∨ node_id = NODE3_ID
  then { a with pulses := node_id :: a.pulses } else a

def arbiter_schedule (a : Arbiter) : Arbiter :=
  if a.g_lock_holder ≠ 0 then a
  else
    let r := queue_pop a
    let next := r.2
    if next = 0 then r.1
    else gnt_pulse_node { r.1 with g_lock_holder := next } next

/-- How the arbiter classifies one Request edge of node `node_id`: the `if`/`else` in
the loop body of `arbiter_process_req_events`. -/
def classify_edge (a : Arbiter) (node_id : Nat) : Arbiter :=
  if a.g_lock_holder = node_id then { a with g_lock_holder := 0, g_need_schedule := 1 }
  else { queue_push a node_id with g_need_schedule := 1 }

/-- The body of the loop of `arbiter_process_req_events` for one value of `bit`. -/
def process_req_body (events bit : Nat) (a : Arbiter) : Arbiter :=
  if events &&& (1 <<< bit) = 0 then a
  else
    let node_id := index_to_node_id bit
    if node_id = 0 then a
    else classify_edge a node_id

/-- The loop of `arbiter_process_req_events` over `bit`, with `n` iterations left. -/
def process_req_loop (events : Nat) : Nat → Nat → Arbiter → Arbiter
  | 0, _, a => a
  | n + 1, bit, a => process_req_loop events n (bit + 1) (process_req_body events bit a)

def arbiter_process_req_events (a : Arbiter) : Arbiter :=
  if a.g_req_event_mask = 0 then a
  else
    let events := a.g_req_event_mask
    process_req_loop events NUM_NODES 0 { a with g_req_event_mask := 0 }

/-- The loop of `arbiter_check_notifications` over `idx`, with `n` iterations left. -/
def notify_loop (notif : Nat) : Nat → Nat → Nat → Arbiter → Arbiter
  | 0, _, _, a => a
  | n + 1, idx, mask, a =>
    let a :=
      if notif &&& mask ≠ 0 then
        let node_id := index_to_node_id idx
        if node_id ≠ 0 ∧ queue_contains a node_id = 0 then gnt_pulse_node a node_id else a
      else a
    notify_loop notif n (idx + 1) (u8 (mask <<< 1)) a

def arbiter_check_notifications (a : Arbiter) (fr : Fram) : Arbiter × Fram :=
  if a.g_lock_holder ≠ 0 then (a, fr)
  else
    let r := fram_read_bytes fr FRAM_NOTIF_BOX_ADDR (fun _ => 0) 1
    let notif := r.2 0
    if notif = 0 then (a, r.1)
    else
      let a := notify_loop notif NUM_NODES 0 1 a
      (a, fram_write_bytes r.1 FRAM_NOTIF_BOX_ADDR (fun _ => 0) 1)

/-- The reset branch shared by the three Grant-line cases of the port ISRs. -/
def reset_pulse (a : Arbiter) (node_id : Nat) : Arbiter :=
  let a := queue_remove a node_id
  if a.g_lock_holder = node_id then { a with g_lock_holder := 0, g_need_schedule := 1 } else a

/-- Model of the arbiter's `PORT1_ISR`, for the interrupt vector value `iv`. -/
def PORT1_ISR (a : Arbiter) (iv : Nat) : Arbiter :=
  if iv = 0x06 then { a with g_req_event_mask := u8 (a.g_req_event_mask ||| (1 <<< 1)) }
  else if iv = 0x08 then reset_pulse a NODE1_ID
  else if iv = 0x0A then { a with g_req_event_mask := u8 (a.g_req_event_mask ||| (1 <<< 0)) }
  else a

/-- Model of the arbiter's `PORT3_ISR`, for the interrupt vector value `iv`. -/
def PORT3_ISR (a : Arbiter) (iv : Nat) : Arbiter :=
  if iv = 0x02 then reset_pulse a NODE2_ID
  else if iv = 0x0C then { a with g_req_event_mask := u8 (a.g_req_event_mask ||| (1 <<< 2)) }
  else if iv = 0x0E then reset_pulse a NODE3_ID
  else a

/-- The arbiter's globals as `main` sets them before entering its loop. -/
def arbiter_init : Arbiter :=
  { g_lock_holder := 0, g_req_event_mask := 0, g_queue := fun _ => 0, g_q_len := 0,
    g_need_schedule := 0, pulses := [] }

/-- The scheduling statement of the main loop:
`if (g_need_schedule != 0) { g_need_schedule = 0; arbiter_schedule(); }`. -/
def main_schedule (a : Arbiter) : Arbiter :=
  if a.g_need_schedule ≠ 0 then arbiter_schedule { a with g_need_schedule := 0 } else a

/-- The wait queue: the entries `g_queue[0 .. g_q_len)`. -/
def wait_queue (a : Arbiter) : List Nat := (List.range a.g_q_len).map a.g_queue

/-- The arbiter-side interrupt raised by a Request pulse of node `n`
(REQ1 = P1.4, REQ2 = P1.2, REQ3 = P3.5). -/
def req_edge (a : Arbiter) (n : Nat) : Arbiter :=
  if n = 1 then PORT1_ISR a 0x0A
  else if n = 2 then PORT1_ISR a 0x06
  else if n = 3 then PORT3_ISR a 0x0C
  else a

/-- The arbiter-side interrupt raised by a reset pulse of node `n` on its Grant line
(GNT1 = P1.3, GNT2 = P3.0, GNT3 = P3.6). -/
def reset_edge (a : Arbiter) (n : Nat) : Arbiter :=
  if n = 1 then PORT1_ISR a 0x08
  else if n = 2 then PORT3_ISR a 0x02
  else if n = 3 then PORT3_ISR a 0x0E
  else a

/-- One step of the arbiter in which a port handler, or one of the three statements of
the main loop, runs from its start to its end with no interrupt taken inside it.  The
main loop runs `arbiter_process_req_events` and `arbiter_schedule` with interrupts
enabled, so these are not all the steps of the code: `CodeStep` adds steps in which a
port handler runs inside `queue_pop` or `queue_push`. -/
inductive ArbiterStep (a : Arbiter) : Arbiter → Prop where
  | port1 (iv : Nat) : ArbiterStep a (PORT1_ISR a iv)
  | port3 (iv : Nat) : ArbiterStep a (PORT3_ISR a iv)
  | drain : ArbiterStep a (arbiter_process_req_events a)
  | schedule : ArbiterStep a (main_schedule a)
  | notify (fr : Fram) : ArbiterStep a (arbiter_check_notifications a fr).1

/-- The arbiter states that occur in a run from the initial state in which no
interrupt is taken inside a handler or a statement of the main loop. -/
inductive Reachable : Arbiter → Prop where
  | init : Reachable arbiter_init
  | step {a b : Arbiter} : Reachable a → ArbiterStep a b → Reachable b

/-- The invariant of the arbiter state. -/
structure ArbInv (a : Arbiter) : Prop where
  len_le : a.g_q_len ≤ 3
  ids : ∀ n, n ∈ wait_queue a → 1 ≤ n ∧ n ≤ 3
  nodup : (wait_queue a).Nodup
  holder_le : a.g_lock_holder ≤ 3
  holder_not_queued : a.g_lock_holder ∉ wait_queue a

inductive lock_state_t where
  | LOCK_IDLE
  | LOCK_WAIT_GRANT
  | LOCK_HELD
deriving DecidableEq, Repr

/-- The globals of a worker node, and the number of pulses it has driven on its
Request line and (for the start-up reset) on its Grant line. -/
structure Worker where
  g_lock_state : lock_state_t
  g_mail_flag : Nat
  req_pulses : Nat
  reset_pulses : Nat
deriving DecidableEq

def NODE_GNT_IV : Nat := 0x08

def node_pulse_req_line (w : Worker) : Worker := { w with req_pulses := w.req_pulses + 1 }

def node_pulse_reset_on_gnt (w : Worker) : Worker :=
  { w with reset_pulses := w.reset_pulses + 1, g_lock_state := lock_state_t.LOCK_IDLE }

/-- Model of `lock_acquire` up to its wait loop: the early return when the lock is
held, otherwise the state change and the Request pulse.  The loop
`while (g_lock_state != LOCK_HELD)` that follows only sleeps until the Grant-edge
handler has set `LOCK_HELD`. -/
def lock_acquire (w : Worker) : Worker :=
  if w.g_lock_state = lock_state_t.LOCK_HELD then w
  else node_pulse_req_line { w with g_lock_state := lock_state_t.LOCK_WAIT_GRANT }

def lock_release (w : Worker) : Worker :=
  if w.g_lock_state ≠ lock_state_t.LOCK_HELD then w
  else { node_pulse_req_line w with g_lock_state := lock_state_t.LOCK_IDLE }

/-- Model of the worker's `PORT1_ISR`, for the interrupt vector value `iv`. -/
def worker_PORT1_ISR (w : Worker) (iv : Nat) : Worker :=
  if iv = NODE_GNT_IV then
    if w.g_lock_state = lock_state_t.LOCK_WAIT_GRANT
    then { w with g_lock_state := lock_state_t.LOCK_HELD }
    else { w with g_mail_flag := 1 }
  else w

/-! ## The arbiter and the worker nodes together

The Request line of node `n` raises `req_edge` on the arbiter, the reset pulse of node
`n` raises `reset_edge`, and a Grant pulse of the arbiter to node `n` raises the
worker's `PORT1_ISR` with `NODE_GNT_IV` on node `n`.  Every handler and every
statement of the arbiter's main loop is taken as one atomic step. -/

/-- The arbiter, the worker nodes (by node id) and the shared store. -/
structure System where
  arb : Arbiter
  node : Nat → Worker
  fram : Fram

/-- The events of the combined system. -/
inductive SysEvent where
  | acquire (n : Nat)
  | release (n : Nat)
  | restart (n : Nat)
  | drain
  | schedule
  | notify

/-- A worker as its static initialisers leave it. -/
def worker_init : Worker :=
  { g_lock_state := lock_state_t.LOCK_IDLE, g_mail_flag := 0, req_pulses := 0, reset_pulses := 0 }

/-- Deliver the Grant pulses `ps` (oldest last) to the nodes they are addressed to. -/
def deliver_grants (node : Nat → Worker) : List Nat → (Nat → Worker)
  | [] => node
  | n :: ps =>
    let node := deliver_grants node ps
    fun k => if k = n then worker_PORT1_ISR (node n) NODE_GNT_IV else node k

/-- One event of the combined system.  A node that is inside the wait loop of
`lock_acquire` (state `LOCK_WAIT_GRANT`) makes no further call until it is granted or
restarted. -/
def sys_step (s : System) : SysEvent → System
  | SysEvent.acquire n =>
    if (s.node n).g_lock_state = lock_state_t.LOCK_WAIT_GRANT then s
    else
      let w := lock_acquire (s.node n)
      { s with
        node := fun k => if k = n then w else s.node k
        arb := if w.req_pulses = (s.node n).req_pulses then s.arb else req_edge s.arb n }
  | SysEvent.release n =>
    if (s.node n).g_lock_state = lock_state_t.LOCK_WAIT_GRANT then s
    else
      let w := lock_release (s.node n)
      { s with
        node := fun k => if k = n then w else s.node k
        arb := if w.req_pulses = (s.node n).req_pulses then s.arb else req_edge s.arb n }
  | SysEvent.restart n =>
    let w := node_pulse_reset_on_gnt
      { worker_init with req_pulses := (s.node n).req_pulses,
                         reset_pulses := (s.node n).reset_pulses }
    { s with node := fun k => if k = n then w else s.node k, arb := reset_edge s.arb n }
  | SysEvent.drain => { s with arb := arbiter_process_req_events s.arb }
  | SysEvent.schedule =>
    let a := main_schedule { s.arb with pulses := [] }
    { s with arb := { a with pulses := a.pulses ++ s.arb.pulses },
             node := deliver_grants s.node a.pulses }
  | SysEvent.notify =>
    let r := arbiter_check_notifications { s.arb with pulses := [] } s.fram
    { arb := { r.1 with pulses := r.1.pulses ++ s.arb.pulses },
      node := deliver_grants s.node r.1.pulses,
      fram := r.2 }

/-- A run of the combined system. -/
def sys_run (s : System) (es : List SysEvent) : System := es.foldl sys_step s

/-- The system after start-up, with the mail-pending byte of the store holding
`notif`. -/
def sys_init (notif : Nat) : System :=
  { arb := arbiter_init
    node := fun _ => worker_init
    fram := ⟨fun a => if a = FRAM_NOTIF_BOX_ADDR then notif else 0, [], []⟩ }

/-! ## Views used in the statements -/

/-- The descriptor of box `idx` as any mailbox operation reads it. -/
def read_desc (fr : Fram) (idx : Nat) : node_box_desc_t :=
  desc_of_bytes (fram_read_bytes fr (mailbox_node_desc_addr idx) (fun _ => 0) DESC_SIZE).2

/-- Byte of the ring of descriptor `d` at byte position `pos`, taken modulo the
ring size. -/
def ring_byte (fr : Fram) (d : node_box_desc_t) (pos : Nat) : Nat :=
  u8 (fr.mem (d.base + pos % d.size))

/-- A well-formed box: slot size 64, ring size a whole number of slots, indices
in range, and the ring `[base, base + size)` lying inside the 24-bit address
space of the chip and away from the descriptor of the box. -/
structure WellFormed (idx : Nat) (d : node_box_desc_t) : Prop where
  msg_size_eq : d.msg_size = 64
  size_eq : d.size = mailbox_slot_count d * 64
  head_lt : d.head < mailbox_slot_count d
  tail_lt : d.tail < mailbox_slot_count d
  used_le : d.used ≤ mailbox_slot_count d
  ring_in_chip : d.base + d.size ≤ 16777216
  ring_off_desc : d.base + d.size ≤ mailbox_node_desc_addr idx ∨
    mailbox_node_desc_addr idx + DESC_SIZE ≤ d.base

/-- Every field of a descriptor read from the store is in the range of its C type. -/
structure DescRange (d : node_box_desc_t) : Prop where
  base : d.base < 4294967296
  size : d.size < 65536
  head : d.head < 65536
  tail : d.tail < 65536
  used : d.used < 65536
  msg_size : d.msg_size < 65536
  reserved0 : d.reserved0 < 65536
  reserved1 : d.reserved1 < 65536

/-- A message as the caller hands it to a send operation: `bulk` selects
`mailbox_send_bulk`, otherwise `mailbox_send_msg`. -/
structure Msg where
  bulk : Bool
  src_id : Nat
  len : Nat
  data : Nat → Nat

/-- The four header bytes the send operation builds for the message. -/
def Msg.header (m : Msg) : Nat → Nat :=
  if m.bulk then bulk_header_bytes m.src_id MSG_FLAG_BULK m.len else slot_header m.src_id m.len

/-- Byte `i` of the record (header, then payload) of a message. -/
def Msg.stream (m : Msg) (i : Nat) : Nat :=
  if i < 4 then m.header i else m.data (i - 4)

/-- The number of slots the record of a message occupies. -/
def Msg.slots (m : Msg) : Nat := if m.bulk then (4 + m.len + 63) / 64 else 1

/-- Arguments in the range of their C types and a length the operation accepts. -/
structure Msg.Valid (m : Msg) : Prop where
  src_lt : m.src_id < 256
  len_pos : 1 ≤ m.len
  len_le : if m.bulk then m.len ≤ 65535 else m.len ≤ 60
  data_lt : ∀ i, i < m.len → m.data i < 256

/-- What a successful send leaves behind: the descriptor with `tail` and `used`
advanced by `k` slots, the `n` record bytes in the ring from byte position
`tail * 64` on (wrapping at the ring size), and nothing else changed outside the
descriptor. -/
structure SendPost (fr fr' : Fram) (idx : Nat) (stream : Nat → Nat) (n k : Nat) : Prop where
  desc : read_desc fr' idx =
    { read_desc fr idx with
      tail := ((read_desc fr idx).tail + k) % mailbox_slot_count (read_desc fr idx)
      used := (read_desc fr idx).used + k }
  written : ∀ i, i < n →
    fr'.mem ((read_desc fr idx).base + ((read_desc fr idx).tail * 64 + i) % (read_desc fr idx).size)
      = u8 (stream i)
  frame : ∀ x,
    (∀ i, i < n →
      x ≠ (read_desc fr idx).base + ((read_desc fr idx).tail * 64 + i) % (read_desc fr idx).size) →
    (x < mailbox_node_desc_addr idx ∨ mailbox_node_desc_addr idx + DESC_SIZE ≤ x) →
    fr'.mem x = fr.mem x

/-- What a receive that consumes `k` slots leaves behind: the descriptor with
`head` advanced and `used` reduced by `k`, nothing changed outside the descriptor. -/
structure RecvPost (fr fr' : Fram) (idx : Nat) (k : Nat) : Prop where
  desc : read_desc fr' idx =
    { read_desc fr idx with
      head := ((read_desc fr idx).head + k) % mailbox_slot_count (read_desc fr idx)
      used := (read_desc fr idx).used - k }
  frame : ∀ x,
    (x < mailbox_node_desc_addr idx ∨ mailbox_node_desc_addr idx + DESC_SIZE ≤ x) →
    fr'.mem x = fr.mem x

/-- The caller's view of a successful receive of message `m` into a buffer that
held `out0` before the call. -/
structure Delivered (out : RecvOut) (m : Msg) (out0 : Nat → Nat) : Prop where
  ret : out.ret = 1
  src : out.src_id_out = m.src_id
  len : out.len_out = m.len
  data : ∀ i, i < m.len → out.data_out i = m.data i
  rest : ∀ i, m.len ≤ i → out.data_out i = out0 i

/-- The records of the messages `ms`, in order, lie in the ring of `d` from byte
position `pos` on, each starting on the slot boundary after its predecessor. -/
def Stored (fr : Fram) (d : node_box_desc_t) : Nat → List Msg → Prop
  | _, [] => True
  | pos, m :: ms =>
    (∀ i, i < 4 + m.len → ring_byte fr d (pos + i) = m.stream i) ∧
      Stored fr d (pos + 64 * m.slots) ms

/-- The number of slots the records of `ms` occupy together. -/
def total_slots : List Msg → Nat
  | [] => 0
  | m :: ms => m.slots + total_slots ms

/-- Box `idx` is well formed and holds exactly the messages `ms`, oldest first:
`used` counts their slots, `tail` is `head + used` modulo the slot count, and their
records are stored from the head slot on. -/
structure Queue (fr : Fram) (idx : Nat) (ms : List Msg) : Prop where
  wf : WellFormed idx (read_desc fr idx)
  used_eq : (read_desc fr idx).used = total_slots ms
  tail_eq : (read_desc fr idx).tail =
    ((read_desc fr idx).head + (read_desc fr idx).used) % mailbox_slot_count (read_desc fr idx)
  stored : Stored fr (read_desc fr idx) ((read_desc fr idx).head * 64) ms
  valid : ∀ m, m ∈ ms → m.Valid

/-- A caller that sends the messages of a list to box `dest`, one call of
`mailbox_send_msg` each, and collects the return values. -/
def send_all (fr : Fram) (dest : Nat) : List Msg → Fram × List Nat
  | [] => (fr, [])
  | m :: ms =>
    let r := mailbox_send_msg fr dest m.src_id m.data m.len
    let r' := send_all r.1 dest ms
    (r'.1, r.2 :: r'.2)

/-- A caller that calls `mailbox_recv_msg` on box `node` `n` times in a row, reusing
its three output variables as `process_incoming_messages` does, and collects what
each call left in them. -/
def recv_n (fuel : Nat) (node : Nat) :
    Nat → Fram → Nat → Nat → (Nat → Nat) → Option (Fram × List RecvOut)
  | 0, fr, _, _, _ => some (fr, [])
  | n + 1, fr, s0, l0, out0 =>
    match mailbox_recv_msg fuel fr node s0 l0 out0 with
    | none => none
    | some (fr', out) =>
      match recv_n fuel node n fr' out.src_id_out out.len_out out.data_out with
      | none => none
      | some (fr'', outs) => some (fr'', out :: outs)

/-- The message a receive call returned: return value 1, the sender, the length
and the payload bytes of `m`. -/
def Returned (out : RecvOut) (m : Msg) : Prop :=
  out.ret = 1 ∧ out.src_id_out = m.src_id ∧ out.len_out = m.len ∧
    ∀ i, i < m.len → out.data_out i = m.data i

/-- Byte `i` of the head slot of box `idx`: the byte that `mailbox_recv_msg` reads from
the chip at `d.base + d.head * d.msg_size + i`. -/
def head_slot (fr : Fram) (idx : Nat) (i : Nat) : Nat :=
  u8 (fr.mem (fram_send_addr (u32 ((read_desc fr idx).base
    + u32 ((read_desc fr idx).head * (read_desc fr idx).msg_size))) + i))

/-- A store for the corrupt-bulk-header case: box 0 holds one record, sent by
`mailbox_send_msg`, whose flags and length bytes were then overwritten with `0xFF`. -/
def corrupt_bulk_store : Fram :=
  fram_write_bytes
    (mailbox_send_msg (mailbox_init_layout ⟨fun _ => 0, [], []⟩) 0 2 (fun _ => 7) 1).1
    0x1101 (fun _ => 255) 3

/-- A store for the corrupt-normal-record case: box 1 holds two records sent by
`mailbox_send_msg`; the length byte of the first was then overwritten with 200. -/
def corrupt_normal_store : Fram :=
  fram_write_bytes
    (mailbox_send_msg
      (mailbox_send_msg (mailbox_init_layout ⟨fun _ => 0, [], []⟩) 1 2 (fun _ => 7) 1).1
      1 3 (fun _ => 9) 2).1
    0x6102 (fun _ => 200) 1

/-- The layout of box `j` that `mailbox_init_layout` sets up and the bounds on its
indices: the ring starts at `mailbox_node_data_base j`, `size = NODE_BOX_DATA_SIZE`,
`msg_size = MSG_SLOT_SIZE`, `head` and `tail` are slot indices and `used` is at most the
slot count. -/
structure BoxLayout (fr : Fram) (j : Nat) : Prop where
  base_eq : (read_desc fr j).base = mailbox_node_data_base j
  size_eq : (read_desc fr j).size = NODE_BOX_DATA_SIZE
  msg_size_eq : (read_desc fr j).msg_size = MSG_SLOT_SIZE
  head_lt : (read_desc fr j).head < mailbox_slot_count (read_desc fr j)
  tail_lt : (read_desc fr j).tail < mailbox_slot_count (read_desc fr j)
  used_le : (read_desc fr j).used ≤ mailbox_slot_count (read_desc fr j)

/-- What a mailbox operation on box `idx` leaves behind, whichever branch it takes: a
well-formed descriptor with `base`, `size` and `msg_size` as before, and every byte
outside the descriptor and the ring of the box as before. -/
structure OpPost (fr fr' : Fram) (idx : Nat) : Prop where
  wf : WellFormed idx (read_desc fr' idx)
  base_eq : (read_desc fr' idx).base = (read_desc fr idx).base
  size_eq : (read_desc fr' idx).size = (read_desc fr idx).size
  msg_size_eq : (read_desc fr' idx).msg_size = (read_desc fr idx).msg_size
  frame : ∀ x,
    (x < mailbox_node_desc_addr idx ∨ mailbox_node_desc_addr idx + DESC_SIZE ≤ x) →
    (x < (read_desc fr idx).base ∨ (read_desc fr idx).base + (read_desc fr idx).size ≤ x) →
    fr'.mem x = fr.mem x

/-- The mail-pending byte as a one-byte read at `FRAM_NOTIF_BOX_ADDR` returns it. -/
def notif_byte (fr : Fram) : Nat := u8 (fr.mem FRAM_NOTIF_BOX_ADDR)

/-! ## Operations of the lock client -/

/-- The statement `g_mail_flag = 0u` of `process_incoming_messages`. -/
def clear_mail_flag (w : Worker) : Worker := { w with g_mail_flag := 0 }

/-- The pieces of the worker's code that write `g_lock_state` or `g_mail_flag`:
`lock_acquire`, `lock_release`, `node_pulse_reset_on_gnt`, the clearing of the mail flag
in `process_incoming_messages`, and `PORT1_ISR` with an interrupt vector value. -/
inductive WorkerOp where
  | acquire
  | release
  | reset
  | clear_mail
  | port1 (iv : Nat)

/-- One operation of the lock client. -/
def worker_step (w : Worker) : WorkerOp → Worker
  | WorkerOp.acquire => lock_acquire w
  | WorkerOp.release => lock_release w
  | WorkerOp.reset => node_pulse_reset_on_gnt w
  | WorkerOp.clear_mail => clear_mail_flag w
  | WorkerOp.port1 iv => worker_PORT1_ISR w iv

/-- A caller that sends one bulk message to box `dest` and then receives once from the
same box: the return value of the send, and what the receive left in its outputs and in
the descriptor of the box. -/
def send_bulk_then_recv (fuel : Nat) (fr : Fram) (dest src_id : Nat) (data : Nat → Nat)
    (total_len s0 l0 : Nat) (out0 : Nat → Nat) : Option (Nat × RecvOut × node_box_desc_t) :=
  match mailbox_send_bulk fuel fr dest src_id data total_len with
  | none => none
  | some (fr1, r) =>
    match mailbox_recv_msg fuel fr1 dest s0 l0 out0 with
    | none => none
    | some (fr2, out) => some (r, out, read_desc fr2 dest)

/-- Box 0 after two calls of `mailbox_send_msg`: the first record has one payload byte. -/
def stale_store_a : Fram :=
  (mailbox_send_msg
    (mailbox_send_msg (mailbox_init_layout ⟨fun _ => 0, [], []⟩) 0 2 (fun _ => 7) 1).1
    0 3 (fun _ => 9) 1).1

/-- The store `stale_store_a` with one ring byte of box 0 changed: the length byte of the
first record is 2. -/
def stale_store_b : Fram := fram_write_bytes stale_store_a 0x1102 (fun _ => 2) 1

/-- Address `x` lies in the descriptor of box `idx`. -/
def InDesc (idx x : Nat) : Prop :=
  mailbox_node_desc_addr idx ≤ x ∧ x < mailbox_node_desc_addr idx + DESC_SIZE

/-- Address `x` lies in one of the `k` slots of the ring of `d` that start at slot `t`,
counted modulo the slot count, at slot address `base + slot * msg_size`. -/
def InSlots (d : node_box_desc_t) (t k x : Nat) : Prop :=
  ∃ j, j < k ∧ ∃ o, o < d.msg_size ∧
    x = d.base + ((t + j) % mailbox_slot_count d) * d.msg_size + o

/-- Stated from the claim: the nodes that have a Request edge pending in `mask`, in
ascending node order. -/
def pending_nodes (mask : Nat) : List Nat :=
  [1, 2, 3].filter (fun n => decide (mask &&& (1 <<< (n - 1)) ≠ 0))

/-- Stated from the claim: classify one Request edge for each node of a list, one at a
time, in the order of the list. -/
def classify_each (a : Arbiter) (nodes : List Nat) : Arbiter := nodes.foldl classify_edge a

/-- A caller that receives once from box `idx`, then sends one normal message to the box
and receives again: the outputs of the first receive, the descriptor it left, the return
value of the send, and the outputs of the second receive. -/
def recv_then_send_recv (fuel : Nat) (fr : Fram) (idx src_id : Nat) (data : Nat → Nat)
    (len : Nat) : Option (RecvOut × node_box_desc_t × Nat × RecvOut) :=
  match mailbox_recv_msg fuel fr idx 0 0 (fun _ => 0) with
  | none => none
  | some (fr1, o1) =>
    match mailbox_recv_msg fuel (mailbox_send_msg fr1 idx src_id data len).1 idx 0 0
        (fun _ => 0) with
    | none => none
    | some (_, o2) => some (o1, read_desc fr1 idx, (mailbox_send_msg fr1 idx src_id data len).2, o2)

/-- Address `x` lies in the region of box `j`: `NODE_BOX_SIZE` bytes from the base of the
box. -/
def InBox (j x : Nat) : Prop :=
  mailbox_node_box_base j ≤ x ∧ x < mailbox_node_box_base j + NODE_BOX_SIZE

/-- The ring of the descriptor of box `d` lies in the data region of box `d`. -/
def RingInBox (fr : Fram) (d : Nat) : Prop :=
  mailbox_node_data_base d ≤ (read_desc fr d).base ∧
  (read_desc fr d).base + (read_desc fr d).size ≤ mailbox_node_data_base d + NODE_BOX_DATA_SIZE

/-- A caller that sends message `m` with the function its kind selects:
`mailbox_send_bulk` for a bulk message, `mailbox_send_msg` otherwise. -/
def send_one (fuel : Nat) (fr : Fram) (dest : Nat) (m : Msg) : Option (Fram × Nat) :=
  if m.bulk then mailbox_send_bulk fuel fr dest m.src_id m.data m.len
  else some (mailbox_send_msg fr dest m.src_id m.data m.len)

/-- A caller that sends the messages of a list to box `dest`, one call each, normal and
bulk messages in the order of the list, and collects the return values. -/
def send_seq (fuel : Nat) (fr : Fram) (dest : Nat) : List Msg → Option (Fram × List Nat)
  | [] => some (fr, [])
  | m :: ms =>
    match send_one fuel fr dest m with
    | none => none
    | some (fr1, r) =>
      match send_seq fuel fr1 dest ms with
      | none => none
      | some (fr2, rs) => some (fr2, r :: rs)

/-- A store for the zero-length bulk header case: box 2 holds two records sent by
`mailbox_send_msg`; flags, length and reserved byte of the first were then overwritten
with 1, 0, 0. -/
def zero_bulk_store : Fram :=
  fram_write_bytes
    (mailbox_send_msg
      (mailbox_send_msg (mailbox_init_layout ⟨fun _ => 0, [], []⟩) 2 1 (fun _ => 7) 1).1
      2 3 (fun _ => 9) 2).1
    0xB101 (fun i => if i = 0 then 1 else 0) 3

/-! ## Port interrupts taken inside the main-loop functions

`main` runs `arbiter_process_req_events` and `arbiter_schedule` with interrupts
enabled; only the copy of `g_req_event_mask` (lines 282-285) and
`arbiter_check_notifications` (lines 467-468) run with interrupts disabled.  A port
handler can therefore run between two statements of `queue_pop` or `queue_push`. -/

/-- Model of `queue_pop` when a port interrupt is taken after the shifting loop
(lines 123-126) and before `g_q_len--` (line 127); `isr` is the handler that runs.
The decrement is on the `uint8_t` global, so it wraps from 0 to 255. -/
def queue_pop_irq (isr : Arbiter → Arbiter) (a : Arbiter) : Arbiter × Nat :=
  if a.g_q_len = 0 then (a, 0)
  else
    let first := a.g_queue 0
    let a := isr { a with g_queue := queue_pop_loop (a.g_q_len - 1) 1 a.g_queue }
    ({ a with g_q_len := u8 (a.g_q_len + 256 - 1) }, first)

/-- Model of `arbiter_schedule` when a port interrupt is taken inside its call of
`queue_pop`. -/
def arbiter_schedule_irq (isr : Arbiter → Arbiter) (a : Arbiter) : Arbiter :=
  if a.g_lock_holder ≠ 0 then a
  else
    let r := queue_pop_irq isr a
    let next := r.2
    if next = 0 then r.1
    else gnt_pulse_node { r.1 with g_lock_holder := next } next

/-- The scheduling statement of the main loop when a port interrupt is taken inside
`queue_pop`. -/
def main_schedule_irq (isr : Arbiter → Arbiter) (a : Arbiter) : Arbiter :=
  if a.g_need_schedule ≠ 0 then arbiter_schedule_irq isr { a with g_need_schedule := 0 } else a

/-- Model of `queue_push` when a port interrupt is taken after the store
`g_queue[g_q_len] = node_id` (line 110) and before `g_q_len++` (line 111); `isr` is the
handler that runs. -/
def queue_push_irq (isr : Arbiter → Arbiter) (a : Arbiter) (node_id : Nat) : Arbiter :=
  if a.g_q_len ≥ NUM_NODES then a
  else if queue_contains a node_id ≠ 0 then a
  else
    let a := isr { a with g_queue := fun k => if k = a.g_q_len then node_id else a.g_queue k }
    { a with g_q_len := u8 (a.g_q_len + 1) }

/-- The `if`/`else` in the loop body of `arbiter_process_req_events` when a port
interrupt is taken inside its call of `queue_push`. -/
def classify_edge_irq (isr : Arbiter → Arbiter) (a : Arbiter) (node_id : Nat) : Arbiter :=
  if a.g_lock_holder = node_id then { a with g_lock_holder := 0, g_need_schedule := 1 }
  else { queue_push_irq isr a node_id with g_need_schedule := 1 }

/-- The body of the loop of `arbiter_process_req_events` for one value of `bit`, when a
port interrupt is taken inside its call of `queue_push`. -/
def process_req_body_irq (isr : Arbiter → Arbiter) (events bit : Nat) (a : Arbiter) : Arbiter :=
  if events &&& (1 <<< bit) = 0 then a
  else
    let node_id := index_to_node_id bit
    if node_id = 0 then a
    else classify_edge_irq isr a node_id

/-- The loop of `arbiter_process_req_events` over `bit`, with `n` iterations left, when
the port interrupt is taken in the iteration `bit = k`. -/
def process_req_loop_irq (isr : Arbiter → Arbiter) (k events : Nat) :
    Nat → Nat → Arbiter → Arbiter
  | 0, _, a => a
  | n + 1, bit, a =>
    process_req_loop_irq isr k events n (bit + 1)
      (if bit = k then process_req_body_irq isr events bit a else process_req_body events bit a)

/-- Model of `arbiter_process_req_events` when a port interrupt is taken inside the
`queue_push` of the loop iteration `bit = k`. -/
def arbiter_process_req_events_irq (isr : Arbiter → Arbiter) (k : Nat) (a : Arbiter) :
    Arbiter :=
  if a.g_req_event_mask = 0 then a
  else
    let events := a.g_req_event_mask
    process_req_loop_irq isr k events NUM_NODES 0 { a with g_req_event_mask := 0 }

/-- One step of the arbiter as `main.c` can run it: a step of `ArbiterStep`, or the
scheduling statement with a port interrupt taken inside `queue_pop`, or the drain with
a port interrupt taken inside the `queue_push` of loop iteration `bit`. -/
inductive CodeStep (a : Arbiter) : Arbiter → Prop where
  | whole {b : Arbiter} : ArbiterStep a b → CodeStep a b
  | schedule_port1 (iv : Nat) : CodeStep a (main_schedule_irq (fun s => PORT1_ISR s iv) a)
  | schedule_port3 (iv : Nat) : CodeStep a (main_schedule_irq (fun s => PORT3_ISR s iv) a)
  | drain_port1 (bit iv : Nat) :
      CodeStep a (arbiter_process_req_events_irq (fun s => PORT1_ISR s iv) bit a)
  | drain_port3 (bit iv : Nat) :
      CodeStep a (arbiter_process_req_events_irq (fun s => PORT3_ISR s iv) bit a)

/-- The arbiter states that occur in a run of such steps from the initial state. -/
inductive CodeReachable : Arbiter → Prop where
  | init : CodeReachable arbiter_init
  | step {a b : Arbiter} : CodeReachable a → CodeStep a b → CodeReachable b

/-- A run of the arbiter: nodes 1 and 2 request and the arbiter drains both edges; both
nodes wait and no node holds the lock. -/
def race_pop_start : Arbiter :=
  arbiter_process_req_events (req_edge (req_edge arbiter_init 1) 2)

/-- The state of the arbiter inside `queue_pop`, called by the scheduling statement in
`race_pop_start`, after the shifting loop and the handler of node 2's reset pulse
(P3.0, vector `0x02`), before `g_q_len--`. -/
def race_pop_mid : Arbiter :=
  PORT3_ISR { race_pop_start with
    g_need_schedule := 0
    g_queue := queue_pop_loop (race_pop_start.g_q_len - 1) 1 race_pop_start.g_queue } 0x02

/-- The run continued: the scheduling statement runs in `race_pop_start`, and the
reset pulse of node 2 is taken inside `queue_pop` before `g_q_len--`. -/
def race_pop_end : Arbiter :=
  main_schedule_irq (fun s => PORT3_ISR s 0x02) race_pop_start

/-- A run of the arbiter: node 1 requests and is granted, node 2 requests and is
queued, then node 3 requests; its edge is pending. -/
def race_push_start : Arbiter :=
  req_edge (arbiter_process_req_events (req_edge
    (main_schedule (arbiter_process_req_events (req_edge arbiter_init 1))) 2)) 3

/-- The run continued: the drain runs in `race_push_start`, and the reset pulse of
node 2 is taken inside `queue_push(3)` between lines 110 and 111. -/
def race_push_end : Arbiter :=
  arbiter_process_req_events_irq (fun s => PORT3_ISR s 0x02) 2 race_push_start

/-- The state of the arbiter inside `queue_push(3)`, called by the drain in
`race_push_start`, after the store `g_queue[g_q_len] = 3` and the handler of node 2's
reset pulse (P3.0, vector `0x02`), before `g_q_len++`. -/
def race_push_mid : Arbiter :=
  PORT3_ISR { race_push_start with
    g_req_event_mask := 0
    g_queue := fun k => if k = race_push_start.g_q_len then 3 else race_push_start.g_queue k }
    0x02

/-- The run `race_pop_end` continued: node 3 requests; its edge is pending. -/
def race_pop_request : Arbiter := req_edge race_pop_end 3

/-! # Theorems -/

/-! ## Basic facts about the store -/

theorem fram_write_bytes_mem (fr : Fram) (a : Nat) (src : Nat → Nat) (n x : Nat) :
    (fram_write_bytes fr a src n).mem x =
      if fram_send_addr a ≤ x ∧ x < fram_send_addr a + n
      then u8 (src (x - fram_send_addr a)) else fr.mem x := rfl

theorem fram_write_bytes_wlog (fr : Fram) (a : Nat) (src : Nat → Nat) (n : Nat) :
    (fram_write_bytes fr a src n).wlog = (a, n) :: fr.wlog := rfl

theorem fram_read_bytes_mem (fr : Fram) (a : Nat) (dst : Nat → Nat) (n : Nat) :
    (fram_read_bytes fr a dst n).1.mem = fr.mem := by
  unfold fram_read_bytes; split <;> rfl

theorem fram_read_bytes_wlog (fr : Fram) (a : Nat) (dst : Nat → Nat) (n : Nat) :
    (fram_read_bytes fr a dst n).1.wlog = fr.wlog := by
  unfold fram_read_bytes; split <;> rfl

theorem fram_read_bytes_buf (fr : Fram) (a : Nat) (dst : Nat → Nat) (n i : Nat) :
    (fram_read_bytes fr a dst n).2 i =
      if i < n then u8 (fr.mem (fram_send_addr a + i)) else dst i := by
  unfold fram_read_bytes
  split
  · next h => subst h; simp
  · rfl

theorem u8_lt (x : Nat) : u8 x < 256 := Nat.mod_lt _ (by decide)

theorem u8_of_lt {x : Nat} (h : x < 256) : u8 x = x := Nat.mod_eq_of_lt h

theorem u8_u8 (x : Nat) : u8 (u8 x) = u8 x := u8_of_lt (u8_lt x)

theorem desc_addr_cases (idx : Nat) :
    mailbox_node_desc_addr idx = 0x1000 ∨ mailbox_node_desc_addr idx = 0x6000 ∨
    mailbox_node_desc_addr idx = 0xB000 ∨ mailbox_node_desc_addr idx = 0x10000 := by
  unfold mailbox_node_desc_addr mailbox_node_box_base NODE_DESC_OFFSET NODE1_BASE NODE2_BASE
    NODE3_BASE NODE4_BASE
  split <;> simp

theorem send_addr_desc (idx : Nat) :
    fram_send_addr (mailbox_node_desc_addr idx) = mailbox_node_desc_addr idx := by
  unfold fram_send_addr
  rcases desc_addr_cases idx with h | h | h | h <;> rw [h]

theorem desc_of_bytes_range (b : Nat → Nat) (hb : ∀ i, b i < 256) :
    DescRange (desc_of_bytes b) := by
  have h0 := hb 0; have h1 := hb 1; have h2 := hb 2; have h3 := hb 3
  have h4 := hb 4; have h5 := hb 5; have h6 := hb 6; have h7 := hb 7
  have h8 := hb 8; have h9 := hb 9; have h10 := hb 10; have h11 := hb 11
  have h12 := hb 12; have h13 := hb 13; have h14 := hb 14; have h15 := hb 15
  have h16 := hb 16; have h17 := hb 17
  constructor <;> simp only [desc_of_bytes, le16, le32, Nat.reduceAdd] <;> omega

theorem read_desc_range (fr : Fram) (idx : Nat) : DescRange (read_desc fr idx) := by
  apply desc_of_bytes_range
  intro i
  rw [fram_read_bytes_buf]
  split
  · exact u8_lt _
  · decide

theorem desc_of_bytes_desc_bytes (d : node_box_desc_t) (h : DescRange d) (b : Nat → Nat)
    (hb : ∀ i, i < 18 → b i = desc_bytes d i) : desc_of_bytes b = d := by
  obtain ⟨h1, h2, h3, h4, h5, h6, h7, h8⟩ := h
  cases d
  simp only [desc_of_bytes, le16, le32, node_box_desc_t.mk.injEq, Nat.reduceAdd]
  simp only [hb 0 (by decide), hb 1 (by decide), hb 2 (by decide), hb 3 (by decide),
    hb 4 (by decide), hb 5 (by decide), hb 6 (by decide), hb 7 (by decide), hb 8 (by decide),
    hb 9 (by decide), hb 10 (by decide), hb 11 (by decide), hb 12 (by decide),
    hb 13 (by decide), hb 14 (by decide), hb 15 (by decide), hb 16 (by decide),
    hb 17 (by decide), desc_bytes]
  simp only at h1 h2 h3 h4 h5 h6 h7 h8
  refine ⟨?_, ?_, ?_, ?_, ?_, ?_, ?_, ?_⟩ <;> omega

theorem desc_bytes_lt (d : node_box_desc_t) (i : Nat) : desc_bytes d i < 256 := by
  unfold desc_bytes
  split <;> first | exact Nat.mod_lt _ (by decide) | decide

/-- Reading back a descriptor that was just written. -/
theorem read_desc_write (fr : Fram) (idx : Nat) (d : node_box_desc_t) (h : DescRange d) :
    read_desc (fram_write_bytes fr (mailbox_node_desc_addr idx) (desc_bytes d) DESC_SIZE) idx
      = d := by
  apply desc_of_bytes_desc_bytes d h
  intro i hi
  rw [fram_read_bytes_buf, fram_write_bytes_mem, send_addr_desc]
  simp only [DESC_SIZE, hi, if_true]
  rw [if_pos ⟨by omega, by omega⟩, Nat.add_sub_cancel_left, u8_u8, u8_of_lt (desc_bytes_lt d i)]

/-- The descriptor read depends only on its eighteen bytes. -/
theorem read_desc_congr (fr fr' : Fram) (idx : Nat)
    (h : ∀ i, i < 18 → fr'.mem (mailbox_node_desc_addr idx + i)
      = fr.mem (mailbox_node_desc_addr idx + i)) :
    read_desc fr' idx = read_desc fr idx := by
  unfold read_desc
  congr 1
  funext i
  rw [fram_read_bytes_buf, fram_read_bytes_buf, send_addr_desc]
  split
  · next hi => rw [h i (by simpa [DESC_SIZE] using hi)]
  · rfl

/-! ## The ring read and write loops -/

theorem u32_of_lt {x : Nat} (h : x < 4294967296) : u32 x = x := Nat.mod_eq_of_lt h
theorem u16_of_lt {x : Nat} (h : x < 65536) : u16 x = x := Nat.mod_eq_of_lt h
theorem send_addr_of_lt {x : Nat} (h : x < 16777216) : fram_send_addr x = x := Nat.mod_eq_of_lt h

theorem mod_wrap {a rs : Nat} (h : a < 2 * rs) : a % rs = if a < rs then a else a - rs := by
  split
  · next h1 => exact Nat.mod_eq_of_lt h1
  · next h1 =>
    rw [Nat.mod_eq_sub_mod (by omega)]
    exact Nat.mod_eq_of_lt (by omega)

theorem write_ring_zero (fuel : Nat) (fr : Fram) (base rs off : Nat) (p : Nat → Nat) :
    mailbox_write_bytes_ring (fuel + 1) fr base rs off p 0 = some (fr, off) := by
  simp [mailbox_write_bytes_ring]

/-- One pass of the ring write that does not reach the end of the ring. -/
theorem write_ring_flat (fuel : Nat) (fr : Fram) (base rs off : Nat) (p : Nat → Nat) (len : Nat)
    (hoff : off < rs) (hlen : 0 < len) (hfit : off + len ≤ rs) (hrs : rs < 4294967296) :
    mailbox_write_bytes_ring (fuel + 2) fr base rs off p len =
      some (fram_write_bytes fr (u32 (base + off)) p len,
        if off + len < rs then off + len else 0) := by
  have hc : u32 (rs + 4294967296 - off) = rs - off := by
    unfold u32; omega
  have hchunk : (if u32 (rs + 4294967296 - off) > len then len else u32 (rs + 4294967296 - off))
      = len := by
    rw [hc]; split <;> omega
  rw [mailbox_write_bytes_ring]
  simp only [hlen, if_true, gt_iff_lt, hchunk, Nat.sub_self, ge_iff_le]
  rw [write_ring_zero, u32_of_lt (x := off + len) (by omega)]
  congr 2
  split <;> split <;> first | rfl | omega

/-- A ring write that runs past the end of the ring and continues at offset 0. -/
theorem write_ring_wrap (fuel : Nat) (fr : Fram) (base rs off : Nat) (p : Nat → Nat) (len : Nat)
    (hoff : off < rs) (hlen : len ≤ rs) (hfit : rs < off + len) (hrs : rs < 4294967296) :
    mailbox_write_bytes_ring (fuel + 3) fr base rs off p len =
      some (fram_write_bytes (fram_write_bytes fr (u32 (base + off)) p (rs - off))
              (u32 (base + 0)) (fun i => p (i + (rs - off))) (len - (rs - off)),
            off + len - rs) := by
  have hc : u32 (rs + 4294967296 - off) = rs - off := by
    unfold u32; omega
  have hchunk : (if u32 (rs + 4294967296 - off) > len then len else u32 (rs + 4294967296 - off))
      = rs - off := by
    rw [hc]; split <;> omega
  rw [mailbox_write_bytes_ring]
  simp only [show len > 0 by omega, if_true, hchunk, ge_iff_le]
  rw [u32_of_lt (x := off + (rs - off)) (by omega), if_pos (by omega)]
  have h := write_ring_flat fuel (fram_write_bytes fr (u32 (base + off)) p (rs - off)) base rs 0
    (fun i => p (i + (rs - off))) (len - (rs - off)) (by omega) (by omega) (by omega) hrs
  rw [h]
  simp only [Nat.zero_add]
  congr 2
  split <;> omega

/-- Closed form of `mailbox_write_bytes_ring` inside a ring: byte `i` of the source lands
at ring offset `(off + i) % rs`, every other byte of the store is untouched. -/
theorem write_ring_spec (fuel : Nat) (hfuel : 3 ≤ fuel) (fr : Fram) (base rs off : Nat)
    (p : Nat → Nat) (len : Nat)
    (hoff : off < rs) (hlen : len ≤ rs) (hchip : base + rs ≤ 16777216) :
    ∃ fr', mailbox_write_bytes_ring fuel fr base rs off p len = some (fr', (off + len) % rs) ∧
      (∀ i, i < len → fr'.mem (base + (off + i) % rs) = u8 (p i)) ∧
      (∀ x, (∀ i, i < len → x ≠ base + (off + i) % rs) → fr'.mem x = fr.mem x) ∧
      fr'.rlog = fr.rlog := by
  obtain ⟨f, rfl⟩ : ∃ f, fuel = f + 3 := ⟨fuel - 3, by omega⟩
  rcases Nat.eq_zero_or_pos len with h0 | hpos
  · subst h0
    refine ⟨fr, ?_, ?_, ?_, rfl⟩
    · rw [write_ring_zero, Nat.add_zero, Nat.mod_eq_of_lt hoff]
    · intro i hi; omega
    · intro x _; rfl
  rcases Nat.lt_or_ge rs (off + len) with hw | hnw
  · refine ⟨fram_write_bytes (fram_write_bytes fr (base + off) p (rs - off)) base
      (fun i => p (i + (rs - off))) (len - (rs - off)), ?_, ?_, ?_, rfl⟩
    · rw [write_ring_wrap f fr base rs off p len hoff hlen hw (by omega),
        mod_wrap (by omega), if_neg (by omega), u32_of_lt (x := base + off) (by omega),
        u32_of_lt (x := base + 0) (by omega)]
      rfl
    · intro i hi
      rw [mod_wrap (by omega)]
      simp only [fram_write_bytes_mem]
      rw [send_addr_of_lt (x := base) (by omega), send_addr_of_lt (x := base + off) (by omega)]
      split
      · next h1 =>
        rw [if_neg (by omega), if_pos (by omega)]
        congr 1; congr 1; omega
      · next h1 =>
        rw [if_pos (by omega)]
        congr 1; congr 1; omega
    · intro x hx
      simp only [fram_write_bytes_mem]
      rw [send_addr_of_lt (x := base) (by omega), send_addr_of_lt (x := base + off) (by omega)]
      rw [if_neg, if_neg]
      · intro ⟨h1, h2⟩
        have := hx (x - (base + off)) (by omega)
        rw [mod_wrap (by omega), if_pos (by omega)] at this
        omega
      · intro ⟨h1, h2⟩
        have := hx (x - base + (rs - off)) (by omega)
        rw [mod_wrap (by omega), if_neg (by omega)] at this
        omega
  · refine ⟨fram_write_bytes fr (base + off) p len, ?_, ?_, ?_, rfl⟩
    · rw [write_ring_flat (f + 1) fr base rs off p len hoff hpos hnw (by omega),
        mod_wrap (by omega), u32_of_lt (x := base + off) (by omega)]
      congr 2
      split <;> omega
    · intro i hi
      rw [mod_wrap (by omega), if_pos (by omega)]
      simp only [fram_write_bytes_mem]
      rw [send_addr_of_lt (x := base + off) (by omega), if_pos (by omega)]
      congr 1; congr 1; omega
    · intro x hx
      simp only [fram_write_bytes_mem]
      rw [send_addr_of_lt (x := base + off) (by omega), if_neg]
      intro ⟨h1, h2⟩
      have := hx (x - (base + off)) (by omega)
      rw [mod_wrap (by omega), if_pos (by omega)] at this
      omega

theorem read_ring_zero (fuel : Nat) (fr : Fram) (base rs off : Nat) (dst : Nat → Nat) (k : Nat) :
    mailbox_read_bytes_ring (fuel + 1) fr base rs off dst k 0 = some (fr, dst, off) := by
  simp [mailbox_read_bytes_ring]

/-- One pass of the ring read that does not reach the end of the ring. -/
theorem read_ring_flat (fuel : Nat) (fr : Fram) (base rs off : Nat) (dst : Nat → Nat)
    (k len : Nat)
    (hoff : off < rs) (hlen : 0 < len) (hfit : off + len ≤ rs) (hchip : base + rs ≤ 16777216) :
    ∃ fr' dst', mailbox_read_bytes_ring (fuel + 2) fr base rs off dst k len =
        some (fr', dst', if off + len < rs then off + len else 0) ∧
      fr'.mem = fr.mem ∧ fr'.wlog = fr.wlog ∧
      (∀ i, i < len → dst' (k + i) = u8 (fr.mem (base + off + i))) ∧
      (∀ j, (j < k ∨ k + len ≤ j) → dst' j = dst j) := by
  have hc : u32 (rs + 4294967296 - off) = rs - off := by
    unfold u32; omega
  have hchunk : (if u32 (rs + 4294967296 - off) > len then len else u32 (rs + 4294967296 - off))
      = len := by
    rw [hc]; split <;> omega
  rw [mailbox_read_bytes_ring]
  simp only [hlen, if_true, gt_iff_lt, hchunk, Nat.sub_self, ge_iff_le]
  rw [read_ring_zero, u32_of_lt (x := base + off) (by omega), u32_of_lt (x := off + len) (by omega)]
  refine ⟨(fram_read_bytes fr (base + off) (fun i => dst (k + i)) len).1,
    fun j => if k ≤ j ∧ j < k + len
      then (fram_read_bytes fr (base + off) (fun i => dst (k + i)) len).2 (j - k) else dst j,
    ?_, fram_read_bytes_mem _ _ _ _, fram_read_bytes_wlog _ _ _ _, ?_, ?_⟩
  · congr 3
    split <;> split <;> first | rfl | omega
  · intro i hi
    simp only
    rw [if_pos (by omega), fram_read_bytes_buf, if_pos (by omega),
      send_addr_of_lt (x := base + off) (by omega)]
    congr 3; omega
  · intro j hj
    simp only
    rw [if_neg (by omega)]

/-- Closed form of `mailbox_read_bytes_ring` inside a ring: `dst[k + i]` receives the
byte at ring offset `(off + i) % rs`; the store contents are not changed. -/
theorem read_ring_spec (fuel : Nat) (hfuel : 3 ≤ fuel) (fr : Fram) (base rs off : Nat)
    (dst : Nat → Nat) (k len : Nat)
    (hoff : off < rs) (hlen : len ≤ rs) (hchip : base + rs ≤ 16777216) :
    ∃ fr' dst', mailbox_read_bytes_ring fuel fr base rs off dst k len =
        some (fr', dst', (off + len) % rs) ∧
      fr'.mem = fr.mem ∧ fr'.wlog = fr.wlog ∧
      (∀ i, i < len → dst' (k + i) = u8 (fr.mem (base + (off + i) % rs))) ∧
      (∀ j, (j < k ∨ k + len ≤ j) → dst' j = dst j) := by
  obtain ⟨f, rfl⟩ : ∃ f, fuel = f + 3 := ⟨fuel - 3, by omega⟩
  rcases Nat.eq_zero_or_pos len with h0 | hpos
  · subst h0
    refine ⟨fr, dst, ?_, rfl, rfl, ?_, ?_⟩
    · rw [read_ring_zero, Nat.add_zero, Nat.mod_eq_of_lt hoff]
    · intro i hi; omega
    · intro j _; rfl
  rcases Nat.lt_or_ge rs (off + len) with hw | hnw
  · have hc : u32 (rs + 4294967296 - off) = rs - off := by
      unfold u32; omega
    have hchunk : (if u32 (rs + 4294967296 - off) > len then len
        else u32 (rs + 4294967296 - off)) = rs - off := by
      rw [hc]; split <;> omega
    rw [mailbox_read_bytes_ring]
    simp only [show len > 0 by omega, if_true, hchunk, ge_iff_le]
    rw [u32_of_lt (x := base + off) (by omega), u32_of_lt (x := off + (rs - off)) (by omega),
      if_pos (by omega)]
    clear hchunk hc
    obtain ⟨fr', dst', he, hm, hwl, hd1, hd2⟩ := read_ring_flat f
      (fram_read_bytes fr (base + off) (fun i => dst (k + i)) (rs - off)).1 base rs 0
      (fun j => if k ≤ j ∧ j < k + (rs - off)
        then (fram_read_bytes fr (base + off) (fun i => dst (k + i)) (rs - off)).2 (j - k)
        else dst j)
      (k + (rs - off)) (len - (rs - off)) (by omega) (by omega) (by omega) hchip
    refine ⟨fr', dst', ?_, ?_, ?_, ?_, ?_⟩
    · rw [he, mod_wrap (by omega), if_neg (show ¬ off + len < rs by omega),
        if_pos (show 0 + (len - (rs - off)) < rs by omega)]
      congr 3
      omega
    · rw [hm, fram_read_bytes_mem]
    · rw [hwl, fram_read_bytes_wlog]
    · intro i hi
      rw [mod_wrap (by omega)]
      split
      · next h1 =>
        rw [hd2 (k + i) (by omega), if_pos (by omega), fram_read_bytes_buf,
          if_pos (show k + i - k < rs - off by omega),
          send_addr_of_lt (x := base + off) (by omega)]
        congr 2; omega
      · next h1 =>
        have := hd1 (i - (rs - off)) (by omega)
        rw [fram_read_bytes_mem] at this
        rw [show k + i = k + (rs - off) + (i - (rs - off)) by omega, this]
        congr 3; omega
    · intro j hj
      rw [hd2 j (by omega), if_neg (by omega)]
  · obtain ⟨fr', dst', he, hm, hwl, hd1, hd2⟩ :=
      read_ring_flat (f + 1) fr base rs off dst k len hoff hpos hnw hchip
    refine ⟨fr', dst', ?_, hm, hwl, ?_, hd2⟩
    · rw [he, mod_wrap (by omega)]
      congr 3
      split <;> omega
    · intro i hi
      rw [hd1 i hi, mod_wrap (by omega), if_pos (by omega), Nat.add_assoc]

theorem wrap_lt (rs x : Nat) (h : 0 < rs) : (if rs ≤ x then 0 else x) < rs := by
  split <;> omega

/-- Inside the ring the write loop returns within three loop tests. -/
theorem write_ring_inside (fuel : Nat) (hfuel : 3 ≤ fuel) (fr : Fram) (base rs off : Nat)
    (p : Nat → Nat) (len : Nat) (hoff : off < rs) (hlen : len ≤ rs) (hrs : rs < 4294967296) :
    ∃ fr' off', mailbox_write_bytes_ring fuel fr base rs off p len = some (fr', off') ∧
      off' < rs := by
  obtain ⟨f, rfl⟩ : ∃ f, fuel = f + 3 := ⟨fuel - 3, by omega⟩
  rcases Nat.eq_zero_or_pos len with h0 | hpos
  · subst h0
    exact ⟨fr, off, write_ring_zero _ _ _ _ _ _, hoff⟩
  rcases Nat.lt_or_ge rs (off + len) with hw | hnw
  · exact ⟨_, _, write_ring_wrap f fr base rs off p len hoff hlen hw hrs, by omega⟩
  · exact ⟨_, _, write_ring_flat (f + 1) fr base rs off p len hoff hpos hnw hrs,
      by split <;> omega⟩

/-- Whatever the start offset, the write loop returns within four loop tests when the
ring is not empty and the data fit into it. -/
theorem write_ring_total (fuel : Nat) (hfuel : 4 ≤ fuel) (fr : Fram) (base rs off : Nat)
    (p : Nat → Nat) (len : Nat) (hrs0 : 0 < rs) (hlen : len ≤ rs) (hrs : rs < 4294967296) :
    ∃ fr' off', mailbox_write_bytes_ring fuel fr base rs off p len = some (fr', off') ∧
      (0 < len → off' < rs) := by
  rcases Nat.lt_or_ge off rs with hin | hout
  · obtain ⟨fr', off', h1, h2⟩ := write_ring_inside fuel (by omega) fr base rs off p len hin hlen
      hrs
    exact ⟨fr', off', h1, fun _ => h2⟩
  obtain ⟨f, rfl⟩ : ∃ f, fuel = f + 4 := ⟨fuel - 4, by omega⟩
  rcases Nat.eq_zero_or_pos len with h0 | hpos
  · subst h0
    exact ⟨fr, off, write_ring_zero _ _ _ _ _ _, fun h => by omega⟩
  rw [mailbox_write_bytes_ring]
  simp only [hpos, if_true, gt_iff_lt, ge_iff_le]
  obtain ⟨fr', off', h1, h2⟩ := write_ring_inside (f + 3) (by omega)
    (fram_write_bytes fr (u32 (base + off)) p
      (if len < u32 (rs + 4294967296 - off) then len else u32 (rs + 4294967296 - off)))
    base rs
    (if rs ≤ u32 (off + if len < u32 (rs + 4294967296 - off) then len
        else u32 (rs + 4294967296 - off)) then 0
      else u32 (off + if len < u32 (rs + 4294967296 - off) then len
        else u32 (rs + 4294967296 - off)))
    (fun i => p (i + if len < u32 (rs + 4294967296 - off) then len
      else u32 (rs + 4294967296 - off)))
    (len - if len < u32 (rs + 4294967296 - off) then len else u32 (rs + 4294967296 - off))
    (wrap_lt _ _ hrs0) (by omega) hrs
  exact ⟨fr', off', h1, fun _ => h2⟩

/-! ## `mailbox_send_msg` -/


theorem WellFormed.slot_count_pos {idx : Nat} {d : node_box_desc_t} (wf : WellFormed idx d) :
    0 < mailbox_slot_count d := by
  have := wf.head_lt; omega

theorem WellFormed.slot_count_lt {idx : Nat} {d : node_box_desc_t} (wf : WellFormed idx d)
    (hr : DescRange d) : mailbox_slot_count d < 1024 := by
  have h1 := wf.size_eq
  have h2 := hr.size
  omega

/-- The success path of `mailbox_send_msg`, as the three writes it performs. -/
theorem mailbox_send_msg_ok (fr : Fram) (dest src_id : Nat) (data : Nat → Nat) (len : Nat)
    (hd : dest < 4) (hl : 1 ≤ len) (hl2 : len ≤ 60)
    (wf : WellFormed dest (read_desc fr dest))
    (hu : (read_desc fr dest).used < mailbox_slot_count (read_desc fr dest)) :
    mailbox_send_msg fr dest src_id data len =
      (fram_write_bytes
        (fram_write_bytes
          (fram_write_bytes
            (fram_read_bytes fr (mailbox_node_desc_addr dest) (fun _ => 0) DESC_SIZE).1
            ((read_desc fr dest).base + (read_desc fr dest).tail * 64) (slot_header src_id len) 4)
          ((read_desc fr dest).base + (read_desc fr dest).tail * 64 + 4) data len)
        (mailbox_node_desc_addr dest)
        (desc_bytes { read_desc fr dest with
          tail := if (read_desc fr dest).tail + 1 ≥ mailbox_slot_count (read_desc fr dest)
                  then 0 else (read_desc fr dest).tail + 1
          used := (read_desc fr dest).used + 1 })
        DESC_SIZE, 1) := by
  have hr := read_desc_range fr dest
  have hsc := wf.slot_count_lt hr
  have hpos := wf.slot_count_pos
  have hms := wf.msg_size_eq
  have hsz := wf.size_eq
  have hchip := wf.ring_in_chip
  have htl := wf.tail_lt
  have hul := wf.used_le
  unfold mailbox_send_msg
  simp only [MAILBOX_NUM_NODES, MSG_SLOT_PAYLOAD_MAX, MSG_SLOT_SIZE]
  rw [if_neg (by omega), if_neg (by omega), if_neg (by omega)]
  show (if mailbox_slot_count (read_desc fr dest) = 0 then _ else _) = _
  rw [if_neg (by omega)]
  show (if (read_desc fr dest).used ≥ mailbox_slot_count (read_desc fr dest) then _ else _) = _
  rw [if_neg (by omega)]
  show (fram_write_bytes (mailbox_write_one_slot _ (u32 ((read_desc fr dest).base + u32 ((read_desc fr dest).tail * (read_desc fr dest).msg_size))) src_id len data) _ (desc_bytes { read_desc fr dest with tail := if u16 ((read_desc fr dest).tail + 1) ≥ mailbox_slot_count (read_desc fr dest) then 0 else u16 ((read_desc fr dest).tail + 1), used := u16 ((read_desc fr dest).used + 1) }) _, 1) = _
  rw [hms, u32_of_lt (x := (read_desc fr dest).tail * 64) (by omega), u32_of_lt (by omega),
    u16_of_lt (x := (read_desc fr dest).tail + 1) (by omega),
    u16_of_lt (x := (read_desc fr dest).used + 1) (by omega)]
  unfold mailbox_write_one_slot
  rw [if_pos (by omega), u32_of_lt (by omega)]
  simp only [hms]

theorem WellFormed.desc_range_tail {idx : Nat} {d : node_box_desc_t} (wf : WellFormed idx d)
    (hr : DescRange d) (t u : Nat) (ht : t < mailbox_slot_count d) (hu : u ≤ mailbox_slot_count d) :
    DescRange { d with tail := t, used := u } := by
  have := wf.slot_count_lt hr
  obtain ⟨h1, h2, h3, h4, h5, h6, h7, h8⟩ := hr
  exact ⟨h1, h2, h3, by simp only; omega, by simp only; omega, h6, h7, h8⟩

/-- Postcondition of a successful `mailbox_send_msg`. -/
theorem mailbox_send_msg_post (fr : Fram) (dest src_id : Nat) (data : Nat → Nat) (len : Nat)
    (hd : dest < 4) (hl : 1 ≤ len) (hl2 : len ≤ 60)
    (wf : WellFormed dest (read_desc fr dest))
    (hu : (read_desc fr dest).used < mailbox_slot_count (read_desc fr dest)) :
    (mailbox_send_msg fr dest src_id data len).2 = 1 ∧
    SendPost fr (mailbox_send_msg fr dest src_id data len).1 dest
      (fun i => if i < 4 then slot_header src_id len i else data (i - 4)) (4 + len) 1 := by
  have hok := mailbox_send_msg_ok fr dest src_id data len hd hl hl2 wf hu
  have hr := read_desc_range fr dest
  have hsc := wf.slot_count_lt hr
  have hsz := wf.size_eq
  have hchip := wf.ring_in_chip
  have htl := wf.tail_lt
  have hoff := wf.ring_off_desc
  have hpos : ∀ i, i < 4 + len →
      ((read_desc fr dest).tail * 64 + i) % (read_desc fr dest).size
        = (read_desc fr dest).tail * 64 + i := fun i hi => Nat.mod_eq_of_lt (by omega)
  rw [hok]
  refine ⟨rfl, ?_, ?_, ?_⟩
  · simp only
    rw [read_desc_write]
    · congr 1
      rw [mod_wrap (by omega)]
      split <;> split <;> omega
    · apply wf.desc_range_tail hr
      · split <;> omega
      · omega
  · intro i hi
    rw [hpos i hi]
    simp only [fram_write_bytes_mem, fram_read_bytes_mem, send_addr_desc, DESC_SIZE]
    rw [send_addr_of_lt (x := (read_desc fr dest).base + (read_desc fr dest).tail * 64) (by omega),
      send_addr_of_lt (x := (read_desc fr dest).base + (read_desc fr dest).tail * 64 + 4)
        (by omega)]
    simp only [DESC_SIZE] at hoff
    rw [if_neg (by omega)]
    by_cases h4 : i < 4
    · rw [if_neg (by omega), if_pos (by omega), if_pos h4]
      congr 2; omega
    · rw [if_pos (by omega), if_neg h4]
      congr 2; omega
  · intro x hx hxd
    simp only [fram_write_bytes_mem, fram_read_bytes_mem, send_addr_desc]
    rw [send_addr_of_lt (x := (read_desc fr dest).base + (read_desc fr dest).tail * 64) (by omega),
      send_addr_of_lt (x := (read_desc fr dest).base + (read_desc fr dest).tail * 64 + 4)
        (by omega)]
    have hout : x < (read_desc fr dest).base + (read_desc fr dest).tail * 64 ∨
        (read_desc fr dest).base + (read_desc fr dest).tail * 64 + (4 + len) ≤ x := by
      by_contra hc
      have := hx (x - ((read_desc fr dest).base + (read_desc fr dest).tail * 64)) (by omega)
      rw [hpos _ (by omega)] at this
      omega
    rw [if_neg (by omega), if_neg (by omega), if_neg (by omega)]

/-! ## `mailbox_send_bulk` -/

theorem mod_add_inj {a j j' n : Nat} (hj : j < n) (hj' : j' < n)
    (h : (a + j) % n = (a + j') % n) : j = j' := by
  have h1 : j ≡ j' [MOD n] := Nat.ModEq.add_left_cancel' a h
  have h2 : j % n = j' % n := h1
  rwa [Nat.mod_eq_of_lt hj, Nat.mod_eq_of_lt hj'] at h2

theorem slots_bound (len : Nat) : 4 + len ≤ 64 * ((4 + len + 63) / 64) := by omega

/-- Postcondition of a successful `mailbox_send_bulk`. -/
theorem mailbox_send_bulk_post (fuel : Nat) (hfuel : 3 ≤ fuel) (fr : Fram) (dest src_id : Nat)
    (data : Nat → Nat) (total_len : Nat)
    (hd : dest < 4) (hl : 1 ≤ total_len) (hl2 : total_len ≤ 65535)
    (wf : WellFormed dest (read_desc fr dest))
    (hu : (read_desc fr dest).used + (4 + total_len + 63) / 64
      ≤ mailbox_slot_count (read_desc fr dest)) :
    ∃ fr', mailbox_send_bulk fuel fr dest src_id data total_len = some (fr', 1) ∧
      SendPost fr fr' dest
        (fun i => if i < 4 then bulk_header_bytes src_id MSG_FLAG_BULK total_len i
          else data (i - 4))
        (4 + total_len) ((4 + total_len + 63) / 64) := by
  have hr := read_desc_range fr dest
  have hsc := wf.slot_count_lt hr
  have hpos := wf.slot_count_pos
  have hms := wf.msg_size_eq
  have hsz := wf.size_eq
  have hchip := wf.ring_in_chip
  have htl := wf.tail_lt
  have hul := wf.used_le
  have hoff := wf.ring_off_desc
  have hk := slots_bound total_len
  -- the two ring writes
  obtain ⟨fr2, he2, hw2, hf2, -⟩ := write_ring_spec fuel hfuel
    (fram_read_bytes fr (mailbox_node_desc_addr dest) (fun _ => 0) DESC_SIZE).1
    (read_desc fr dest).base (read_desc fr dest).size ((read_desc fr dest).tail * 64)
    (bulk_header_bytes src_id MSG_FLAG_BULK total_len) 4 (by omega) (by omega) hchip
  obtain ⟨fr3, he3, hw3, hf3, -⟩ := write_ring_spec fuel hfuel fr2
    (read_desc fr dest).base (read_desc fr dest).size
    (((read_desc fr dest).tail * 64 + 4) % (read_desc fr dest).size)
    data total_len (Nat.mod_lt _ (by omega)) (by omega) hchip
  rw [fram_read_bytes_mem] at hf2
  refine ⟨fram_write_bytes fr3 (mailbox_node_desc_addr dest)
    (desc_bytes { read_desc fr dest with
      tail := ((read_desc fr dest).tail + (4 + total_len + 63) / 64)
        % mailbox_slot_count (read_desc fr dest)
      used := (read_desc fr dest).used + (4 + total_len + 63) / 64 }) DESC_SIZE, ?_, ?_, ?_, ?_⟩
  · have hrd : desc_of_bytes
        (fram_read_bytes fr (mailbox_node_desc_addr dest) (fun _ => 0) DESC_SIZE).2
        = read_desc fr dest := rfl
    have hus : u16 ((4 + total_len + 64 - 1) / 64) = (4 + total_len + 63) / 64 := by
      unfold u16; omega
    have hfree : u16 (mailbox_slot_count (read_desc fr dest) + 65536 - (read_desc fr dest).used)
        = mailbox_slot_count (read_desc fr dest) - (read_desc fr dest).used := by
      unfold u16; omega
    unfold mailbox_send_bulk
    simp only [MAILBOX_NUM_NODES, BULK_HEADER_SIZE, hrd, hms, hus, hfree]
    rw [if_neg (show ¬ dest ≥ 4 by omega), if_neg (show ¬ total_len = 0 by omega),
      if_neg (show ¬ total_len > 65535 by omega),
      if_neg (show ¬ mailbox_slot_count (read_desc fr dest) = 0 by omega),
      if_neg (show ¬ 64 = 0 by decide),
      if_neg (show ¬ (read_desc fr dest).used ≥ mailbox_slot_count (read_desc fr dest) by omega),
      if_neg (show ¬ (4 + total_len + 63) / 64 = 0 by omega),
      if_neg (show ¬ (4 + total_len + 63) / 64 >
        mailbox_slot_count (read_desc fr dest) - (read_desc fr dest).used by omega),
      if_neg (show ¬ 4 + total_len > (read_desc fr dest).size by omega),
      u32_of_lt (x := (read_desc fr dest).tail * 64) (by omega), he2]
    simp only [he3]
    rw [u16_of_lt (x := (read_desc fr dest).used + (4 + total_len + 63) / 64) (by omega),
      u16_of_lt (x := (read_desc fr dest).tail + (4 + total_len + 63) / 64) (by omega),
      if_neg (show ¬ (read_desc fr dest).used + (4 + total_len + 63) / 64 >
        mailbox_slot_count (read_desc fr dest) by omega)]
    have htail : (if (read_desc fr dest).tail + (4 + total_len + 63) / 64 ≥
          mailbox_slot_count (read_desc fr dest)
        then u16 ((read_desc fr dest).tail + (4 + total_len + 63) / 64 + 65536 -
          mailbox_slot_count (read_desc fr dest))
        else (read_desc fr dest).tail + (4 + total_len + 63) / 64)
        = ((read_desc fr dest).tail + (4 + total_len + 63) / 64)
          % mailbox_slot_count (read_desc fr dest) := by
      rw [mod_wrap (by omega)]
      unfold u16
      split <;> split <;> omega
    rw [htail]
  · rw [read_desc_write]
    apply wf.desc_range_tail hr
    · exact Nat.mod_lt _ hpos
    · omega
  · intro i hi
    simp only [fram_write_bytes_mem, send_addr_desc, DESC_SIZE]
    simp only [DESC_SIZE] at hoff
    have hlt : ((read_desc fr dest).tail * 64 + i) % (read_desc fr dest).size
        < (read_desc fr dest).size := Nat.mod_lt _ (by omega)
    rw [if_neg (by omega)]
    by_cases h4 : i < 4
    · rw [if_pos h4, hf3, hw2 i h4]
      intro j hj hc
      rw [Nat.mod_add_mod, Nat.add_assoc] at hc
      have hc' : ((read_desc fr dest).tail * 64 + i) % (read_desc fr dest).size
          = ((read_desc fr dest).tail * 64 + (4 + j)) % (read_desc fr dest).size := by omega
      have := mod_add_inj (show i < (read_desc fr dest).size by omega)
        (show 4 + j < (read_desc fr dest).size by omega) hc'
      omega
    · rw [if_neg h4]
      have := hw3 (i - 4) (by omega)
      rw [Nat.mod_add_mod, Nat.add_assoc, show 4 + (i - 4) = i by omega] at this
      exact this
  · intro x hx hxd
    simp only [fram_write_bytes_mem, send_addr_desc]
    rw [if_neg (by omega), hf3, hf2]
    · intro i hi
      exact hx i (by omega)
    · intro j hj
      have := hx (4 + j) (by omega)
      rw [Nat.mod_add_mod, Nat.add_assoc]
      exact this

theorem ceil_div_pos (x ms : Nat) (hx : 1 ≤ x) (hms : 0 < ms) : 1 ≤ (x + ms - 1) / ms := by
  rw [Nat.le_div_iff_mul_le hms]; omega

theorem ceil_div_le (x ms : Nat) (hx : 1 ≤ x) (hms : 0 < ms) : (x + ms - 1) / ms ≤ x := by
  apply Nat.div_le_of_le_mul
  obtain ⟨a, rfl⟩ : ∃ a, ms = a + 1 := ⟨ms - 1, by omega⟩
  obtain ⟨b, rfl⟩ : ∃ b, x = b + 1 := ⟨x - 1, by omega⟩
  have : (a + 1) * (b + 1) = a * b + a + b + 1 := by ring
  rw [this]
  omega

/-- The outcome of `mailbox_send_bulk` on a descriptor with `msg_size > 0`,
`size = slot_count * msg_size` and `used ≤ slot_count`: with fuel 4 it returns, it
returns 0 exactly in the four listed cases, and a call returning 0 wrote nothing. -/
theorem mailbox_send_bulk_outcome (fuel : Nat) (hfuel : 4 ≤ fuel) (fr : Fram)
    (dest src_id : Nat) (data : Nat → Nat) (total_len : Nat)
    (hms : 0 < (read_desc fr dest).msg_size)
    (hsz : (read_desc fr dest).size
      = mailbox_slot_count (read_desc fr dest) * (read_desc fr dest).msg_size)
    (hu : (read_desc fr dest).used ≤ mailbox_slot_count (read_desc fr dest)) :
    ∃ fr' r, mailbox_send_bulk fuel fr dest src_id data total_len = some (fr', r) ∧
      (r = 0 ↔ (4 ≤ dest ∨ total_len = 0 ∨
        (4 + total_len + (read_desc fr dest).msg_size - 1) / (read_desc fr dest).msg_size
          > mailbox_slot_count (read_desc fr dest) - (read_desc fr dest).used ∨
        4 + total_len > (read_desc fr dest).size)) ∧
      (r = 0 → fr'.mem = fr.mem ∧ fr'.wlog = fr.wlog) ∧
      (r ≠ 0 → r = 1) := by
  have hr := read_desc_range fr dest
  have hrs := hr.size
  have hsc16 : mailbox_slot_count (read_desc fr dest) < 65536 := by
    unfold mailbox_slot_count
    simp only
    split
    · omega
    · exact Nat.mod_lt _ (by decide)
  have hrd : desc_of_bytes
      (fram_read_bytes fr (mailbox_node_desc_addr dest) (fun _ => 0) DESC_SIZE).2
      = read_desc fr dest := rfl
  unfold mailbox_send_bulk
  simp only [MAILBOX_NUM_NODES, BULK_HEADER_SIZE, hrd]
  by_cases h1 : dest ≥ 4
  · rw [if_pos h1]
    exact ⟨fr, 0, rfl, by simp; omega, fun _ => ⟨rfl, rfl⟩, fun h => absurd rfl h⟩
  rw [if_neg h1]
  by_cases h2 : total_len = 0
  · rw [if_pos h2]
    exact ⟨fr, 0, rfl, by simp [h2], fun _ => ⟨rfl, rfl⟩, fun h => absurd rfl h⟩
  rw [if_neg h2]
  by_cases h3 : total_len > 65535
  · rw [if_pos h3]
    exact ⟨fr, 0, rfl, by simp only [true_iff]; omega, fun _ => ⟨rfl, rfl⟩,
      fun h => absurd rfl h⟩
  rw [if_neg h3]
  have hfail : ∀ c : Prop, c →
      ∃ fr' r, some ((fram_read_bytes fr (mailbox_node_desc_addr dest) (fun _ => 0)
          DESC_SIZE).1, 0) = some (fr', r) ∧ (r = 0 ↔ c) ∧
        (r = 0 → fr'.mem = fr.mem ∧ fr'.wlog = fr.wlog) ∧ (r ≠ 0 → r = 1) :=
    fun c hc => ⟨_, 0, rfl, by simp [hc],
      fun _ => ⟨fram_read_bytes_mem _ _ _ _, fram_read_bytes_wlog _ _ _ _⟩,
      fun h => absurd rfl h⟩
  have hceil1 := ceil_div_pos (4 + total_len) _ (by omega) hms
  have hceil2 := ceil_div_le (4 + total_len) _ (by omega) hms
  by_cases h4 : mailbox_slot_count (read_desc fr dest) = 0
  · rw [if_pos h4]
    apply hfail
    rw [h4, Nat.zero_mul] at hsz
    omega
  rw [if_neg h4, if_neg (show ¬ (read_desc fr dest).msg_size = 0 by omega)]
  by_cases h6 : (read_desc fr dest).used ≥ mailbox_slot_count (read_desc fr dest)
  · rw [if_pos h6]
    apply hfail
    omega
  rw [if_neg h6]
  have hfree : u16 (mailbox_slot_count (read_desc fr dest) + 65536 - (read_desc fr dest).used)
      = mailbox_slot_count (read_desc fr dest) - (read_desc fr dest).used := by
    unfold u16; omega
  rw [hfree]
  have hmodle : u16 ((4 + total_len + (read_desc fr dest).msg_size - 1)
      / (read_desc fr dest).msg_size)
      ≤ (4 + total_len + (read_desc fr dest).msg_size - 1) / (read_desc fr dest).msg_size :=
    Nat.mod_le _ _
  by_cases h7 : u16 ((4 + total_len + (read_desc fr dest).msg_size - 1)
      / (read_desc fr dest).msg_size) = 0
  · rw [if_pos h7]
    apply hfail
    unfold u16 at h7
    omega
  rw [if_neg h7]
  by_cases h8 : u16 ((4 + total_len + (read_desc fr dest).msg_size - 1)
      / (read_desc fr dest).msg_size)
      > mailbox_slot_count (read_desc fr dest) - (read_desc fr dest).used
  · rw [if_pos h8]
    apply hfail
    omega
  rw [if_neg h8]
  by_cases h9 : 4 + total_len > (read_desc fr dest).size
  · rw [if_pos h9]
    apply hfail
    omega
  rw [if_neg h9]
  have hus : u16 ((4 + total_len + (read_desc fr dest).msg_size - 1)
      / (read_desc fr dest).msg_size)
      = (4 + total_len + (read_desc fr dest).msg_size - 1) / (read_desc fr dest).msg_size := by
    unfold u16; omega
  obtain ⟨fr2, off2, he2, -⟩ := write_ring_total fuel hfuel
    (fram_read_bytes fr (mailbox_node_desc_addr dest) (fun _ => 0) DESC_SIZE).1
    (read_desc fr dest).base (read_desc fr dest).size
    (u32 ((read_desc fr dest).tail * (read_desc fr dest).msg_size))
    (bulk_header_bytes src_id MSG_FLAG_BULK total_len) 4 (by omega) (by omega) (by omega)
  obtain ⟨fr3, off3, he3, -⟩ := write_ring_total fuel hfuel fr2
    (read_desc fr dest).base (read_desc fr dest).size off2
    data total_len (by omega) (by omega) (by omega)
  rw [he2]
  simp only [he3]
  refine ⟨_, 1, rfl, ?_, fun h => absurd h (by decide), fun _ => rfl⟩
  simp only [one_ne_zero, false_iff]
  rw [hus] at h8
  omega

/-! ## `mailbox_recv_msg` -/

theorem copy_payload_eq (payload : Nat → Nat) (n i : Nat) (out : Nat → Nat) (j : Nat) :
    copy_payload payload n i out j = if i ≤ j ∧ j < i + n then payload j else out j := by
  induction n generalizing i out with
  | zero => rw [copy_payload, if_neg (by omega)]
  | succ n ih =>
    rw [copy_payload, ih]
    by_cases h1 : i + 1 ≤ j ∧ j < i + 1 + n
    · rw [if_pos h1, if_pos (by omega)]
    · rw [if_neg h1]
      by_cases h2 : j = i
      · rw [if_pos h2, if_pos (by omega), h2]
      · rw [if_neg h2, if_neg (by omega)]

theorem WellFormed.desc_range_head {idx : Nat} {d : node_box_desc_t} (wf : WellFormed idx d)
    (hr : DescRange d) (t u : Nat) (ht : t < mailbox_slot_count d) (hu : u ≤ mailbox_slot_count d) :
    DescRange { d with head := t, used := u } := by
  have := wf.slot_count_lt hr
  obtain ⟨h1, h2, h3, h4, h5, h6, h7, h8⟩ := hr
  exact ⟨h1, h2, by simp only; omega, h4, by simp only; omega, h6, h7, h8⟩

/-- The slot buffer read by `mailbox_recv_msg` holds the ring bytes of the head slot. -/
theorem slot_read (fr : Fram) (idx : Nat) (d : node_box_desc_t) (wf : WellFormed idx d)
    (hr : DescRange d) (fr1 : Fram) (hm : fr1.mem = fr.mem) (i : Nat) (hi : i < 64) :
    (fram_read_bytes fr1 (d.base + d.head * 64) (fun _ => 0) 64).2 i
      = ring_byte fr d (d.head * 64 + i) := by
  have hsc := wf.slot_count_lt hr
  have hsz := wf.size_eq
  have hchip := wf.ring_in_chip
  have hhl := wf.head_lt
  rw [fram_read_bytes_buf, if_pos hi, send_addr_of_lt (by omega), hm]
  unfold ring_byte
  rw [Nat.mod_eq_of_lt (by omega), Nat.add_assoc]

/-- Writing the descriptor back leaves everything outside it untouched. -/
theorem desc_write_frame (fr : Fram) (idx : Nat) (b : Nat → Nat) (x : Nat)
    (hx : x < mailbox_node_desc_addr idx ∨ mailbox_node_desc_addr idx + DESC_SIZE ≤ x) :
    (fram_write_bytes fr (mailbox_node_desc_addr idx) b DESC_SIZE).mem x = fr.mem x := by
  rw [fram_write_bytes_mem, send_addr_desc, if_neg (by omega)]

/-- Receiving when the head slot holds the record of a normal message. -/
theorem mailbox_recv_msg_normal (fuel : Nat) (fr : Fram) (node s0 l0 : Nat) (out0 : Nat → Nat)
    (m : Msg) (hn : node < 4) (wf : WellFormed node (read_desc fr node))
    (hu : 0 < (read_desc fr node).used) (hb : m.bulk = false) (hv : m.Valid)
    (hs : ∀ i, i < 4 + m.len →
      ring_byte fr (read_desc fr node) ((read_desc fr node).head * 64 + i) = m.stream i) :
    ∃ fr' out, mailbox_recv_msg fuel fr node s0 l0 out0 = some (fr', out) ∧
      Delivered out m out0 ∧ RecvPost fr fr' node 1 := by
  have hr := read_desc_range fr node
  have hsc := wf.slot_count_lt hr
  have hpos := wf.slot_count_pos
  have hms := wf.msg_size_eq
  have hsz := wf.size_eq
  have hchip := wf.ring_in_chip
  have hhl := wf.head_lt
  have hul := wf.used_le
  have hlen : m.len ≤ 60 := by have := hv.len_le; rw [hb] at this; simpa using this
  have hrd : desc_of_bytes
      (fram_read_bytes fr (mailbox_node_desc_addr node) (fun _ => 0) DESC_SIZE).2
      = read_desc fr node := rfl
  have hslot : ∀ i, i < 64 →
      (fram_read_bytes (fram_read_bytes fr (mailbox_node_desc_addr node) (fun _ => 0) DESC_SIZE).1
        ((read_desc fr node).base + (read_desc fr node).head * 64) (fun _ => 0) 64).2 i
      = ring_byte fr (read_desc fr node) ((read_desc fr node).head * 64 + i) :=
    fun i hi => slot_read fr node _ wf hr _ (fram_read_bytes_mem _ _ _ _) i hi
  have hstream : ∀ i, i < 4 → m.stream i = slot_header m.src_id m.len i := by
    intro i hi; simp [Msg.stream, Msg.header, hi, hb]
  have h0 := hslot 0 (by omega)
  have h1 := hslot 1 (by omega)
  have h2 := hslot 2 (by omega)
  rw [hs 0 (by omega), hstream 0 (by omega)] at h0
  rw [hs 1 (by omega), hstream 1 (by omega)] at h1
  rw [hs 2 (by omega), hstream 2 (by omega)] at h2
  simp only [slot_header] at h0 h1 h2
  unfold mailbox_recv_msg
  simp only [MAILBOX_NUM_NODES, MSG_SLOT_SIZE, MSG_SLOT_PAYLOAD_MAX, hrd, hms]
  rw [if_neg (show ¬ node ≥ 4 by omega),
    if_neg (show ¬ mailbox_slot_count (read_desc fr node) = 0 by omega),
    if_neg (show ¬ (read_desc fr node).used = 0 by omega),
    u32_of_lt (x := (read_desc fr node).head * 64) (by omega), u32_of_lt (by omega)]
  simp only [h0, h1, h2]
  rw [if_pos (show 0 &&& MSG_FLAG_BULK = 0 by decide), if_neg (show ¬ m.len > 64 - 4 by omega),
    if_pos hu, u16_of_lt (x := (read_desc fr node).head + 1) (by omega)]
  refine ⟨_, _, rfl, ⟨rfl, rfl, rfl, ?_, ?_⟩, ⟨?_, ?_⟩⟩
  · intro i hi
    simp only
    rw [copy_payload_eq, if_pos (by omega), hslot (4 + i) (by omega), hs (4 + i) (by omega)]
    simp [Msg.stream]
  · intro i hi
    simp only
    rw [copy_payload_eq, if_neg (by omega)]
  · rw [read_desc_write]
    · congr 1
      · rw [mod_wrap (by omega)]
        split <;> split <;> omega
      · exact hms.symm
    · have := wf.desc_range_head hr
        (if (read_desc fr node).head + 1 ≥ mailbox_slot_count (read_desc fr node) then 0
          else (read_desc fr node).head + 1)
        ((read_desc fr node).used - 1) (by split <;> omega) (by omega)
      simpa only [hms] using this
  · intro x hx
    rw [desc_write_frame _ _ _ _ hx, fram_read_bytes_mem, fram_read_bytes_mem]

theorem total_len_decode (len : Nat) (h : len ≤ 65535) :
    len % 256 ||| u16 ((len / 256 % 256) <<< 8) = len := by
  have h1 : (len / 256 % 256) <<< 8 = 2 ^ 8 * (len / 256 % 256) := by
    rw [Nat.shiftLeft_eq, Nat.mul_comm]
  rw [h1, u16_of_lt (by omega), Nat.lor_comm,
    ← Nat.mul_add_lt_is_or (show len % 256 < 2 ^ 8 from Nat.mod_lt _ (by decide))]
  omega

/-- Receiving when the head slot starts the record of a bulk message. -/
theorem mailbox_recv_msg_bulk (fuel : Nat) (hfuel : 3 ≤ fuel) (fr : Fram) (node s0 l0 : Nat)
    (out0 : Nat → Nat)
    (m : Msg) (hn : node < 4) (wf : WellFormed node (read_desc fr node))
    (hu : m.slots ≤ (read_desc fr node).used) (hb : m.bulk = true) (hv : m.Valid)
    (hs : ∀ i, i < 4 + m.len →
      ring_byte fr (read_desc fr node) ((read_desc fr node).head * 64 + i) = m.stream i) :
    ∃ fr' out, mailbox_recv_msg fuel fr node s0 l0 out0 = some (fr', out) ∧
      Delivered out m out0 ∧ RecvPost fr fr' node m.slots := by
  have hr := read_desc_range fr node
  have hsc := wf.slot_count_lt hr
  have hpos := wf.slot_count_pos
  have hms := wf.msg_size_eq
  have hsz := wf.size_eq
  have hchip := wf.ring_in_chip
  have hhl := wf.head_lt
  have hul := wf.used_le
  have hlen : m.len ≤ 65535 := by have := hv.len_le; rw [hb] at this; simpa using this
  have hlen1 := hv.len_pos
  have hk : m.slots = (4 + m.len + 63) / 64 := by simp [Msg.slots, hb]
  rw [hk] at hu ⊢
  have hrd : desc_of_bytes
      (fram_read_bytes fr (mailbox_node_desc_addr node) (fun _ => 0) DESC_SIZE).2
      = read_desc fr node := rfl
  have hslot : ∀ i, i < 64 →
      (fram_read_bytes (fram_read_bytes fr (mailbox_node_desc_addr node) (fun _ => 0) DESC_SIZE).1
        ((read_desc fr node).base + (read_desc fr node).head * 64) (fun _ => 0) 64).2 i
      = ring_byte fr (read_desc fr node) ((read_desc fr node).head * 64 + i) :=
    fun i hi => slot_read fr node _ wf hr _ (fram_read_bytes_mem _ _ _ _) i hi
  have hstream : ∀ i, i < 4 →
      m.stream i = bulk_header_bytes m.src_id MSG_FLAG_BULK m.len i := by
    intro i hi; simp [Msg.stream, Msg.header, hi, hb]
  have h0 := hslot 0 (by omega)
  have h1 := hslot 1 (by omega)
  have h2 := hslot 2 (by omega)
  have h3 := hslot 3 (by omega)
  rw [hs 0 (by omega), hstream 0 (by omega)] at h0
  rw [hs 1 (by omega), hstream 1 (by omega)] at h1
  rw [hs 2 (by omega), hstream 2 (by omega)] at h2
  rw [hs 3 (by omega), hstream 3 (by omega)] at h3
  simp only [bulk_header_bytes] at h0 h1 h2 h3
  have hus : u16 ((4 + m.len + 64 - 1) / 64) = (4 + m.len + 63) / 64 := by
    unfold u16; omega
  obtain ⟨fr3, dst3, he3, hm3, -, hd3, hrest3⟩ := read_ring_spec fuel hfuel
    (fram_read_bytes (fram_read_bytes fr (mailbox_node_desc_addr node) (fun _ => 0) DESC_SIZE).1
        ((read_desc fr node).base + (read_desc fr node).head * 64) (fun _ => 0) 64).1
    (read_desc fr node).base (read_desc fr node).size ((read_desc fr node).head * 64 + 4)
    out0 0 m.len (by omega) (by omega) hchip
  rw [fram_read_bytes_mem, fram_read_bytes_mem] at hm3 hd3
  unfold mailbox_recv_msg
  simp only [MAILBOX_NUM_NODES, MSG_SLOT_SIZE, BULK_HEADER_SIZE, hrd, hms]
  rw [if_neg (show ¬ node ≥ 4 by omega),
    if_neg (show ¬ mailbox_slot_count (read_desc fr node) = 0 by omega),
    if_neg (show ¬ (read_desc fr node).used = 0 by omega),
    u32_of_lt (x := (read_desc fr node).head * 64) (by omega), u32_of_lt (by omega)]
  simp only [h0, h1, h2, h3, total_len_decode m.len hlen, hus]
  rw [if_neg (show ¬ MSG_FLAG_BULK &&& MSG_FLAG_BULK = 0 by decide),
    if_neg (show ¬ m.len = 0 by omega),
    if_neg (show ¬ 4 + m.len > (read_desc fr node).size by omega),
    u32_of_lt (x := (read_desc fr node).head * 64 + 4) (by omega),
    if_neg (show ¬ (read_desc fr node).head * 64 + 4 ≥ (read_desc fr node).size by omega), he3]
  simp only
  rw [if_pos (show (read_desc fr node).used ≥ (4 + m.len + 63) / 64 from hu),
    u16_of_lt (x := (read_desc fr node).head + (4 + m.len + 63) / 64) (by omega),
    u16_of_lt (x := (read_desc fr node).used - (4 + m.len + 63) / 64) (by omega)]
  have hhead : (if (read_desc fr node).head + (4 + m.len + 63) / 64 ≥
        mailbox_slot_count (read_desc fr node)
      then u16 ((read_desc fr node).head + (4 + m.len + 63) / 64 + 65536 -
        mailbox_slot_count (read_desc fr node))
      else (read_desc fr node).head + (4 + m.len + 63) / 64)
      = ((read_desc fr node).head + (4 + m.len + 63) / 64)
        % mailbox_slot_count (read_desc fr node) := by
    rw [mod_wrap (by omega)]
    unfold u16
    split <;> split <;> omega
  rw [hhead]
  refine ⟨_, _, rfl, ⟨rfl, rfl, rfl, ?_, ?_⟩, ⟨?_, ?_⟩⟩
  · intro i hi
    simp only
    have := hd3 i hi
    rw [Nat.zero_add] at this
    rw [this]
    have h4 := hs (4 + i) (by omega)
    unfold ring_byte at h4
    rw [show (read_desc fr node).head * 64 + 4 + i = (read_desc fr node).head * 64 + (4 + i)
      by omega, h4]
    simp [Msg.stream]
  · intro i hi
    simp only
    exact hrest3 i (by omega)
  · rw [read_desc_write]
    · congr 1
      exact hms.symm
    · have := wf.desc_range_head hr
        (((read_desc fr node).head + (4 + m.len + 63) / 64)
          % mailbox_slot_count (read_desc fr node))
        ((read_desc fr node).used - (4 + m.len + 63) / 64) (Nat.mod_lt _ hpos) (by omega)
      simpa only [hms] using this
  · intro x hx
    rw [desc_write_frame _ _ _ _ hx, hm3]

/-! ## The queue held by a box -/

theorem Msg.Valid.slots_pos {m : Msg} (_ : m.Valid) : 1 ≤ m.slots := by
  unfold Msg.slots; split <;> omega

theorem Msg.Valid.fits {m : Msg} (hv : m.Valid) : 4 + m.len ≤ 64 * m.slots := by
  have := hv.len_le
  unfold Msg.slots
  split
  · omega
  · next h => simp only [h] at this; simp at this; omega

theorem Msg.Valid.stream_lt {m : Msg} (hv : m.Valid) (i : Nat) (hi : i < 4 + m.len) :
    m.stream i < 256 := by
  have h1 := hv.src_lt
  have h2 := hv.len_le
  unfold Msg.stream
  split
  · next h4 =>
    unfold Msg.header
    split
    · unfold bulk_header_bytes MSG_FLAG_BULK
      split <;> omega
    · next hb =>
      simp only [hb] at h2
      simp at h2
      unfold slot_header
      split <;> omega
  · exact hv.data_lt _ (by omega)

theorem total_slots_append (ms : List Msg) (m : Msg) :
    total_slots (ms ++ [m]) = total_slots ms + m.slots := by
  induction ms with
  | nil => simp [total_slots]
  | cons a ms ih =>
    show total_slots (a :: (ms ++ [m])) = _
    simp only [total_slots, ih]; omega

theorem ring_byte_mod (fr : Fram) (d : node_box_desc_t) (p q : Nat)
    (h : p % d.size = q % d.size) : ring_byte fr d p = ring_byte fr d q := by
  unfold ring_byte; rw [h]

/-- `Stored` only looks at the position modulo the ring size. -/
theorem Stored.pos_mod {fr : Fram} {d : node_box_desc_t} {ms : List Msg} {p q : Nat}
    (h : p % d.size = q % d.size) (hs : Stored fr d p ms) : Stored fr d q ms := by
  induction ms generalizing p q with
  | nil => trivial
  | cons m ms ih =>
    obtain ⟨h1, h2⟩ := hs
    refine ⟨fun i hi => ?_, ih ?_ h2⟩
    · rw [← h1 i hi]
      apply ring_byte_mod
      rw [Nat.add_mod, ← h, ← Nat.add_mod]
    · rw [Nat.add_mod, h, ← Nat.add_mod]

/-- `Stored` only looks at the ring bytes of the slots the records occupy. -/
theorem Stored.congr {fr fr' : Fram} {d d' : node_box_desc_t} {ms : List Msg} {p : Nat}
    (hv : ∀ m, m ∈ ms → m.Valid)
    (h : ∀ i, i < 64 * total_slots ms → ring_byte fr' d' (p + i) = ring_byte fr d (p + i))
    (hs : Stored fr d p ms) : Stored fr' d' p ms := by
  induction ms generalizing p with
  | nil => trivial
  | cons m ms ih =>
    obtain ⟨h1, h2⟩ := hs
    have hfit := (hv m (List.mem_cons_self _ _)).fits
    simp only [total_slots] at h
    refine ⟨fun i hi => ?_, ih (fun a ha => hv a (List.mem_cons_of_mem _ ha)) ?_ h2⟩
    · rw [h i (by omega), h1 i hi]
    · intro i hi
      rw [Nat.add_assoc]
      exact h _ (by omega)

theorem Stored.append {fr : Fram} {d : node_box_desc_t} {ms : List Msg} {p : Nat} {m : Msg}
    (hs : Stored fr d p ms)
    (hm : ∀ i, i < 4 + m.len → ring_byte fr d (p + 64 * total_slots ms + i) = m.stream i) :
    Stored fr d p (ms ++ [m]) := by
  induction ms generalizing p with
  | nil =>
    refine ⟨fun i hi => ?_, trivial⟩
    have := hm i hi
    simpa [total_slots] using this
  | cons a ms ih =>
    obtain ⟨h1, h2⟩ := hs
    refine ⟨h1, ih h2 ?_⟩
    intro i hi
    have := hm i hi
    simp only [total_slots] at this
    rw [← this]
    congr 1
    omega

theorem slot_pos_mod (sc a : Nat) : (a % sc) * 64 % (sc * 64) = a * 64 % (sc * 64) := by
  rw [Nat.mul_mod_mul_right, Nat.mul_mod_mul_right, Nat.mod_mod]

/-- Any successful send (of either kind) appends its message to the queue. -/
theorem Queue.send {fr fr' : Fram} {idx : Nat} {ms : List Msg} {m : Msg}
    (q : Queue fr idx ms) (hv : m.Valid)
    (hroom : (read_desc fr idx).used + m.slots ≤ mailbox_slot_count (read_desc fr idx))
    (hp : SendPost fr fr' idx m.stream (4 + m.len) m.slots) :
    Queue fr' idx (ms ++ [m]) := by
  have wf := q.wf
  have hr := read_desc_range fr idx
  have hsc := wf.slot_count_lt hr
  have hpos := wf.slot_count_pos
  have hsz := wf.size_eq
  have hoff := wf.ring_off_desc
  have hfit := hv.fits
  have hd := hp.desc
  have hcount : mailbox_slot_count (read_desc fr' idx) = mailbox_slot_count (read_desc fr idx) := by
    rw [hd]; rfl
  have hbase : (read_desc fr' idx).base = (read_desc fr idx).base := by rw [hd]
  have hsize : (read_desc fr' idx).size = (read_desc fr idx).size := by rw [hd]
  have hhead : (read_desc fr' idx).head = (read_desc fr idx).head := by rw [hd]
  have hused : (read_desc fr' idx).used = (read_desc fr idx).used + m.slots := by rw [hd]
  have htail : (read_desc fr' idx).tail =
      ((read_desc fr idx).tail + m.slots) % mailbox_slot_count (read_desc fr idx) := by rw [hd]
  have hszpos : 0 < (read_desc fr idx).size := by omega
  -- the byte position of the tail slot, seen from the head
  have htpos : ∀ j, ((read_desc fr idx).tail * 64 + j) % (read_desc fr idx).size
      = ((read_desc fr idx).head * 64 + (64 * (read_desc fr idx).used + j))
        % (read_desc fr idx).size := by
    intro j
    rw [q.tail_eq, Nat.add_mod, hsz, slot_pos_mod, ← hsz, ← Nat.add_mod]
    congr 1
    rw [Nat.add_mul]
    omega
  refine ⟨⟨?_, ?_, ?_, ?_, ?_, ?_, ?_⟩, ?_, ?_, ?_, ?_⟩
  · rw [hd]; exact wf.msg_size_eq
  · rw [hcount, hsize]; exact hsz
  · rw [hcount, hhead]; exact wf.head_lt
  · rw [hcount, htail]; exact Nat.mod_lt _ hpos
  · rw [hcount, hused]; exact hroom
  · rw [hbase, hsize]; exact wf.ring_in_chip
  · rw [hbase, hsize]; exact hoff
  · rw [hused, total_slots_append, q.used_eq]
  · rw [hcount, htail, hhead, hused, q.tail_eq, Nat.mod_add_mod, Nat.add_assoc]
  · rw [hhead]
    apply Stored.append
    · apply Stored.congr q.valid _ q.stored
      intro i hi
      unfold ring_byte
      rw [hbase, hsize]
      congr 1
      apply hp.frame
      · intro j hj hc
        rw [htpos j] at hc
        have hc' : ((read_desc fr idx).head * 64 + i) % (read_desc fr idx).size
            = ((read_desc fr idx).head * 64 + (64 * (read_desc fr idx).used + j))
              % (read_desc fr idx).size := by omega
        have := mod_add_inj (by rw [← q.used_eq] at hi; omega) (by omega) hc'
        rw [← q.used_eq] at hi
        omega
      · have := Nat.mod_lt ((read_desc fr idx).head * 64 + i) hszpos
        omega
    · intro i hi
      unfold ring_byte
      rw [hbase, hsize, ← q.used_eq, Nat.add_assoc, ← htpos i, hp.written i hi, u8_u8,
        u8_of_lt (hv.stream_lt i hi)]
  · intro a ha
    rcases List.mem_append.mp ha with h | h
    · exact q.valid a h
    · rw [List.mem_singleton.mp h]; exact hv

/-- Any successful receive removes the oldest message from the queue. -/
theorem Queue.recv {fr fr' : Fram} {idx : Nat} {ms : List Msg} {m : Msg}
    (q : Queue fr idx (m :: ms)) (hp : RecvPost fr fr' idx m.slots) :
    Queue fr' idx ms := by
  have wf := q.wf
  have hr := read_desc_range fr idx
  have hsc := wf.slot_count_lt hr
  have hpos := wf.slot_count_pos
  have hsz := wf.size_eq
  have hoff := wf.ring_off_desc
  have hul := wf.used_le
  have hd := hp.desc
  have hue := q.used_eq
  simp only [total_slots] at hue
  have hcount : mailbox_slot_count (read_desc fr' idx) = mailbox_slot_count (read_desc fr idx) := by
    rw [hd]; rfl
  have hbase : (read_desc fr' idx).base = (read_desc fr idx).base := by rw [hd]
  have hsize : (read_desc fr' idx).size = (read_desc fr idx).size := by rw [hd]
  have htail : (read_desc fr' idx).tail = (read_desc fr idx).tail := by rw [hd]
  have hused : (read_desc fr' idx).used = (read_desc fr idx).used - m.slots := by rw [hd]
  have hhead : (read_desc fr' idx).head =
      ((read_desc fr idx).head + m.slots) % mailbox_slot_count (read_desc fr idx) := by rw [hd]
  have hszpos : 0 < (read_desc fr idx).size := by omega
  refine ⟨⟨?_, ?_, ?_, ?_, ?_, ?_, ?_⟩, ?_, ?_, ?_, ?_⟩
  · rw [hd]; exact wf.msg_size_eq
  · rw [hcount, hsize]; exact hsz
  · rw [hcount, hhead]; exact Nat.mod_lt _ hpos
  · rw [hcount, htail]; exact wf.tail_lt
  · rw [hcount, hused]; omega
  · rw [hbase, hsize]; exact wf.ring_in_chip
  · rw [hbase, hsize]; exact hoff
  · rw [hused, hue]; omega
  · rw [hcount, htail, hhead, hused, q.tail_eq, Nat.mod_add_mod]
    congr 1
    omega
  · have hs := q.stored.2
    have hs' : Stored fr' (read_desc fr' idx) ((read_desc fr idx).head * 64 + 64 * m.slots) ms := by
      apply Stored.congr (fun a ha => q.valid a (List.mem_cons_of_mem _ ha)) _ hs
      intro i _
      unfold ring_byte
      rw [hbase, hsize]
      congr 1
      apply hp.frame
      have := Nat.mod_lt ((read_desc fr idx).head * 64 + 64 * m.slots + i) hszpos
      omega
    apply Stored.pos_mod _ hs'
    rw [hsize, hhead, hsz, slot_pos_mod]
    congr 1
    rw [Nat.add_mul]
    omega
  · exact fun a ha => q.valid a (List.mem_cons_of_mem _ ha)

/-! ## `mailbox_init_layout` -/

/-- A write that stays clear of the descriptor of box `idx` does not change it. -/
theorem read_desc_write_other (fr : Fram) (a : Nat) (b : Nat → Nat) (n idx : Nat)
    (h : fram_send_addr a + n ≤ mailbox_node_desc_addr idx ∨
      mailbox_node_desc_addr idx + DESC_SIZE ≤ fram_send_addr a) :
    read_desc (fram_write_bytes fr a b n) idx = read_desc fr idx := by
  apply read_desc_congr
  intro i hi
  simp only [DESC_SIZE] at h
  rw [fram_write_bytes_mem, if_neg (by omega)]

theorem init_desc_range (idx : Nat) (h : idx < 4) :
    DescRange { base := mailbox_node_data_base idx, size := u16 NODE_BOX_DATA_SIZE, head := 0,
                tail := 0, used := 0, msg_size := MSG_SLOT_SIZE, reserved0 := 0,
                reserved1 := 0 } := by
  interval_cases idx <;> exact ⟨by decide, by decide, by decide, by decide, by decide, by decide,
    by decide, by decide⟩

/-- The descriptor `mailbox_init_layout` leaves in box `idx`. -/
theorem read_desc_init (fr : Fram) (idx : Nat) (h : idx < 4) :
    read_desc (mailbox_init_layout fr) idx =
      { base := mailbox_node_data_base idx, size := 0x4F00, head := 0, tail := 0, used := 0,
        msg_size := 64, reserved0 := 0, reserved1 := 0 } := by
  have hinit : mailbox_init_layout fr = fram_write_bytes (mailbox_init_one_node
      (mailbox_init_one_node (mailbox_init_one_node (mailbox_init_one_node fr 0) 1) 2) 3)
      FRAM_NOTIF_BOX_ADDR (fun _ => 0) 1 := rfl
  rw [hinit, read_desc_write_other _ _ _ _ _ (by interval_cases idx <;> decide)]
  unfold mailbox_init_one_node
  interval_cases idx
  · rw [read_desc_write_other _ _ _ _ _ (by decide), read_desc_write_other _ _ _ _ _ (by decide),
      read_desc_write_other _ _ _ _ _ (by decide), read_desc_write _ _ _ (init_desc_range 0 h)]
    rfl
  · rw [read_desc_write_other _ _ _ _ _ (by decide), read_desc_write_other _ _ _ _ _ (by decide),
      read_desc_write _ _ _ (init_desc_range 1 h)]
    rfl
  · rw [read_desc_write_other _ _ _ _ _ (by decide), read_desc_write _ _ _ (init_desc_range 2 h)]
    rfl
  · rw [read_desc_write _ _ _ (init_desc_range 3 h)]
    rfl

/-- `mailbox_init_layout` leaves every box well formed and empty. -/
theorem init_queue (fr : Fram) (idx : Nat) (h : idx < 4) :
    Queue (mailbox_init_layout fr) idx [] := by
  have hd := read_desc_init fr idx h
  refine ⟨⟨?_, ?_, ?_, ?_, ?_, ?_, ?_⟩, ?_, ?_, trivial, fun a ha => by cases ha⟩
  all_goals rw [hd]
  all_goals interval_cases idx <;> decide

/-! ## Send and receive on the queue -/

theorem Queue.of_empty {fr : Fram} {idx : Nat} (wf : WellFormed idx (read_desc fr idx))
    (hu : (read_desc fr idx).used = 0) (hht : (read_desc fr idx).head = (read_desc fr idx).tail) :
    Queue fr idx [] := by
  refine ⟨wf, hu, ?_, trivial, fun a ha => by cases ha⟩
  rw [hu, Nat.add_zero, Nat.mod_eq_of_lt wf.head_lt, hht]

theorem Queue.empty_head_tail {fr : Fram} {idx : Nat} (q : Queue fr idx []) :
    (read_desc fr idx).used = 0 ∧ (read_desc fr idx).head = (read_desc fr idx).tail := by
  have hu := q.used_eq
  have ht := q.tail_eq
  simp only [total_slots] at hu
  rw [hu, Nat.add_zero, Nat.mod_eq_of_lt q.wf.head_lt] at ht
  exact ⟨hu, ht.symm⟩

theorem SendPost.slot_count_eq {fr fr' : Fram} {idx : Nat} {st : Nat → Nat} {n k : Nat}
    (hp : SendPost fr fr' idx st n k) :
    mailbox_slot_count (read_desc fr' idx) = mailbox_slot_count (read_desc fr idx) := by
  rw [hp.desc]; rfl

theorem total_slots_pos_le {m : Msg} {ms : List Msg} : m.slots ≤ total_slots (m :: ms) := by
  simp only [total_slots]; omega

/-- `mailbox_send_msg` on a box with a free slot appends the message. -/
theorem Queue.send_msg {fr : Fram} {idx : Nat} {ms : List Msg} (q : Queue fr idx ms)
    (hd : idx < 4) (m : Msg) (hb : m.bulk = false) (hv : m.Valid)
    (hroom : (read_desc fr idx).used < mailbox_slot_count (read_desc fr idx)) :
    (mailbox_send_msg fr idx m.src_id m.data m.len).2 = 1 ∧
      Queue (mailbox_send_msg fr idx m.src_id m.data m.len).1 idx (ms ++ [m]) ∧
      mailbox_slot_count (read_desc (mailbox_send_msg fr idx m.src_id m.data m.len).1 idx)
        = mailbox_slot_count (read_desc fr idx) := by
  have hlen : m.len ≤ 60 := by have := hv.len_le; rw [hb] at this; simpa using this
  obtain ⟨h1, h2⟩ := mailbox_send_msg_post fr idx m.src_id m.data m.len hd hv.len_pos hlen q.wf hroom
  have hslots : m.slots = 1 := by simp [Msg.slots, hb]
  have hstream : (fun i => if i < 4 then slot_header m.src_id m.len i else m.data (i - 4))
      = m.stream := by
    funext i; simp [Msg.stream, Msg.header, hb]
  rw [hstream, ← hslots] at h2
  exact ⟨h1, q.send hv (by omega) h2, h2.slot_count_eq⟩

/-- `mailbox_send_bulk` on a box with enough free slots appends the message. -/
theorem Queue.send_bulk {fr : Fram} {idx : Nat} {ms : List Msg} (q : Queue fr idx ms)
    (fuel : Nat) (hfuel : 3 ≤ fuel)
    (hd : idx < 4) (m : Msg) (hb : m.bulk = true) (hv : m.Valid)
    (hroom : (read_desc fr idx).used + m.slots ≤ mailbox_slot_count (read_desc fr idx)) :
    ∃ fr', mailbox_send_bulk fuel fr idx m.src_id m.data m.len = some (fr', 1) ∧
      Queue fr' idx (ms ++ [m]) ∧
      mailbox_slot_count (read_desc fr' idx) = mailbox_slot_count (read_desc fr idx) := by
  have hlen : m.len ≤ 65535 := by have := hv.len_le; rw [hb] at this; simpa using this
  have hslots : m.slots = (4 + m.len + 63) / 64 := by simp [Msg.slots, hb]
  obtain ⟨fr', h1, h2⟩ := mailbox_send_bulk_post fuel hfuel fr idx m.src_id m.data m.len hd
    hv.len_pos hlen q.wf (by rw [← hslots]; exact hroom)
  have hstream : (fun i => if i < 4 then bulk_header_bytes m.src_id MSG_FLAG_BULK m.len i
      else m.data (i - 4)) = m.stream := by
    funext i; simp [Msg.stream, Msg.header, hb]
  rw [hstream, ← hslots] at h2
  exact ⟨fr', h1, q.send hv hroom h2, h2.slot_count_eq⟩

/-- `mailbox_recv_msg` on a non-empty box delivers the oldest message and removes it. -/
theorem Queue.recv_msg {fr : Fram} {idx : Nat} {m : Msg} {ms : List Msg}
    (q : Queue fr idx (m :: ms)) (fuel : Nat) (hfuel : m.bulk = true → 3 ≤ fuel) (hd : idx < 4)
    (s0 l0 : Nat) (out0 : Nat → Nat) :
    ∃ fr' out, mailbox_recv_msg fuel fr idx s0 l0 out0 = some (fr', out) ∧
      Delivered out m out0 ∧ Queue fr' idx ms := by
  have hv := q.valid m (List.mem_cons_self _ _)
  have hu : m.slots ≤ (read_desc fr idx).used := by
    rw [q.used_eq]; exact total_slots_pos_le
  have hs := q.stored.1
  cases hb : m.bulk with
  | false =>
    obtain ⟨fr', out, h1, h2, h3⟩ := mailbox_recv_msg_normal fuel fr idx s0 l0 out0 m hd q.wf
      (by have := hv.slots_pos; omega) hb hv hs
    have hslots : m.slots = 1 := by simp [Msg.slots, hb]
    rw [← hslots] at h3
    exact ⟨fr', out, h1, h2, q.recv h3⟩
  | true =>
    obtain ⟨fr', out, h1, h2, h3⟩ := mailbox_recv_msg_bulk fuel (hfuel hb) fr idx s0 l0 out0 m hd
      q.wf hu hb hv hs
    exact ⟨fr', out, h1, h2, q.recv h3⟩

/-- `mailbox_recv_msg` on a box with `used == 0`: failure, outputs untouched, and
the only command issued to the store is the read of the descriptor. -/
theorem mailbox_recv_msg_empty (fuel : Nat) (fr : Fram) (node s0 l0 : Nat) (out0 : Nat → Nat)
    (hu : (read_desc fr node).used = 0) :
    ∃ fr', mailbox_recv_msg fuel fr node s0 l0 out0 = some (fr', ⟨0, s0, l0, out0⟩) ∧
      fr'.mem = fr.mem ∧ fr'.wlog = fr.wlog := by
  have hrd : desc_of_bytes
      (fram_read_bytes fr (mailbox_node_desc_addr node) (fun _ => 0) DESC_SIZE).2
      = read_desc fr node := rfl
  unfold mailbox_recv_msg
  simp only [hrd, hu]
  split
  · exact ⟨fr, rfl, rfl, rfl⟩
  · split
    · exact ⟨_, rfl, fram_read_bytes_mem _ _ _ _, fram_read_bytes_wlog _ _ _ _⟩
    · exact ⟨_, rfl, fram_read_bytes_mem _ _ _ _, fram_read_bytes_wlog _ _ _ _⟩


/-! ## Sequences of sends and receives -/

theorem total_slots_normal (ms : List Msg) (h : ∀ m, m ∈ ms → m.bulk = false) :
    total_slots ms = ms.length := by
  induction ms with
  | nil => rfl
  | cons a ms ih =>
    have ha : a.slots = 1 := by simp [Msg.slots, h a (List.mem_cons_self _ _)]
    simp only [total_slots, List.length_cons, ha,
      ih (fun m hm => h m (List.mem_cons_of_mem _ hm))]
    omega

/-- A run of `mailbox_send_msg` calls that fits the free slots: every call returns 1
and the messages are appended in call order. -/
theorem send_all_queue (idx : Nat) (hd : idx < 4) (msgs : List Msg) :
    ∀ (fr : Fram) (ms0 : List Msg), Queue fr idx ms0 →
      (∀ m, m ∈ msgs → m.bulk = false ∧ m.Valid) →
      (read_desc fr idx).used + msgs.length ≤ mailbox_slot_count (read_desc fr idx) →
      (send_all fr idx msgs).2 = List.replicate msgs.length 1 ∧
        Queue (send_all fr idx msgs).1 idx (ms0 ++ msgs) := by
  induction msgs with
  | nil =>
    intro fr ms0 q _ _
    exact ⟨rfl, by simpa [send_all] using q⟩
  | cons m ms ih =>
    intro fr ms0 q hv hroom
    simp only [List.length_cons] at hroom
    obtain ⟨hb, hvm⟩ := hv m (List.mem_cons_self _ _)
    obtain ⟨h1, q1, hsc⟩ := q.send_msg hd m hb hvm (by omega)
    have hu1 : (read_desc (mailbox_send_msg fr idx m.src_id m.data m.len).1 idx).used
        = (read_desc fr idx).used + 1 := by
      have hs : m.slots = 1 := by simp [Msg.slots, hb]
      rw [q1.used_eq, total_slots_append, q.used_eq, hs]
    obtain ⟨h2, q2⟩ := ih _ (ms0 ++ [m]) q1 (fun a ha => hv a (List.mem_cons_of_mem _ ha))
      (by rw [hsc, hu1]; omega)
    refine ⟨?_, ?_⟩
    · simp only [send_all, h1, h2, List.length_cons, List.replicate_succ]
    · simpa [send_all] using q2

/-- A run of `mailbox_recv_msg` calls, one per queued message: each call returns the
next message in queue order, and the box ends empty. -/
theorem recv_n_queue (fuel idx : Nat) (hd : idx < 4) (msgs : List Msg) :
    ∀ (fr : Fram) (s0 l0 : Nat) (out0 : Nat → Nat), Queue fr idx msgs →
      (∀ m, m ∈ msgs → m.bulk = true → 3 ≤ fuel) →
      ∃ fr' outs, recv_n fuel idx msgs.length fr s0 l0 out0 = some (fr', outs) ∧
        List.Forall₂ Returned outs msgs ∧ Queue fr' idx [] := by
  induction msgs with
  | nil =>
    intro fr s0 l0 out0 q _
    exact ⟨fr, [], rfl, List.Forall₂.nil, q⟩
  | cons m ms ih =>
    intro fr s0 l0 out0 q hf
    obtain ⟨fr1, out, h1, hdel, q1⟩ := q.recv_msg fuel (hf m (List.mem_cons_self _ _)) hd s0 l0 out0
    obtain ⟨fr2, outs, h2, hall, q2⟩ := ih fr1 out.src_id_out out.len_out out.data_out q1
      (fun a ha => hf a (List.mem_cons_of_mem _ ha))
    refine ⟨fr2, out :: outs, ?_, List.Forall₂.cons ⟨hdel.ret, hdel.src, hdel.len, hdel.data⟩ hall,
      q2⟩
    simp only [List.length_cons, recv_n, h1, h2]

/-! ## The arbiter's queue as a list -/

theorem wait_queue_length (a : Arbiter) : (wait_queue a).length = a.g_q_len := by
  simp [wait_queue]

theorem mem_wait_queue (a : Arbiter) (n : Nat) :
    n ∈ wait_queue a ↔ ∃ k, k < a.g_q_len ∧ a.g_queue k = n := by
  simp [wait_queue]

theorem queue_contains_loop_ne_zero (q : Nat → Nat) (node_id : Nat) (n i : Nat) :
    queue_contains_loop q node_id n i ≠ 0 ↔ ∃ k, i ≤ k ∧ k < i + n ∧ q k = node_id := by
  induction n generalizing i with
  | zero =>
    rw [queue_contains_loop]
    constructor
    · intro h; exact absurd rfl h
    · rintro ⟨k, h1, h2, -⟩; omega
  | succ n ih =>
    rw [queue_contains_loop]
    by_cases h : q i = node_id
    · rw [if_pos h]
      exact ⟨fun _ => ⟨i, by omega, by omega, h⟩, fun _ => by decide⟩
    · rw [if_neg h, ih]
      constructor
      · rintro ⟨k, h1, h2, h3⟩; exact ⟨k, by omega, by omega, h3⟩
      · rintro ⟨k, h1, h2, h3⟩
        refine ⟨k, ?_, by omega, h3⟩
        rcases Nat.eq_or_lt_of_le h1 with he | hl
        · subst he; exact absurd h3 h
        · omega

theorem queue_contains_ne_zero (a : Arbiter) (n : Nat) :
    queue_contains a n ≠ 0 ↔ n ∈ wait_queue a := by
  rw [queue_contains, queue_contains_loop_ne_zero, mem_wait_queue]
  constructor
  · rintro ⟨k, -, h2, h3⟩; exact ⟨k, by omega, h3⟩
  · rintro ⟨k, h2, h3⟩; exact ⟨k, by omega, by omega, h3⟩

theorem queue_contains_eq_zero (a : Arbiter) (n : Nat) :
    queue_contains a n = 0 ↔ n ∉ wait_queue a := by
  rw [← queue_contains_ne_zero]; exact not_not.symm

theorem wait_queue_congr (a b : Arbiter) (hl : b.g_q_len = a.g_q_len)
    (hq : ∀ k, k < a.g_q_len → b.g_queue k = a.g_queue k) : wait_queue b = wait_queue a := by
  unfold wait_queue
  rw [hl]
  apply List.map_congr_left
  intro k hk
  exact hq k (List.mem_range.mp hk)

theorem wait_queue_push (a : Arbiter) (n : Nat) :
    wait_queue (queue_push a n) =
      if a.g_q_len ≥ 3 ∨ n ∈ wait_queue a then wait_queue a else wait_queue a ++ [n] := by
  unfold queue_push NUM_NODES
  by_cases h1 : a.g_q_len ≥ 3
  · rw [if_pos h1, if_pos (Or.inl h1)]
  rw [if_neg h1]
  by_cases h2 : n ∈ wait_queue a
  · rw [if_pos ((queue_contains_ne_zero a n).mpr h2), if_pos (Or.inr h2)]
  rw [if_neg (fun h => h2 ((queue_contains_ne_zero a n).mp h)), if_neg (by tauto)]
  unfold wait_queue
  simp only
  rw [u8_of_lt (by omega), List.range_succ, List.map_append, List.map_singleton, if_pos rfl]
  congr 1
  apply List.map_congr_left
  intro k hk
  rw [if_neg (by have := List.mem_range.mp hk; omega)]

theorem queue_pop_loop_eq (n i : Nat) (q : Nat → Nat) (k : Nat) :
    queue_pop_loop n (i + 1) q k = if i ≤ k ∧ k < i + n then q (k + 1) else q k := by
  induction n generalizing i q with
  | zero => rw [queue_pop_loop, if_neg (by omega)]
  | succ n ih =>
    rw [queue_pop_loop, ih]
    simp only [Nat.add_sub_cancel]
    split_ifs <;> first | rfl | (exfalso; omega) | (congr 1; omega)

theorem wait_queue_pop (a : Arbiter) :
    wait_queue (queue_pop a).1 = (wait_queue a).tail ∧
      (queue_pop a).2 = (wait_queue a).headD 0 := by
  unfold queue_pop
  by_cases h : a.g_q_len = 0
  · rw [if_pos h]
    simp [wait_queue, h]
  rw [if_neg h]
  obtain ⟨m, hm⟩ : ∃ m, a.g_q_len = m + 1 := ⟨a.g_q_len - 1, by omega⟩
  unfold wait_queue
  simp only [hm, Nat.add_sub_cancel]
  rw [List.range_succ_eq_map, List.map_cons, List.tail_cons, List.headD_cons, List.map_map]
  refine ⟨?_, rfl⟩
  apply List.map_congr_left
  intro k hk
  rw [queue_pop_loop_eq _ 0, if_pos (by have := List.mem_range.mp hk; omega)]
  rfl

theorem queue_remove_loop_eq (node_id : Nat) (n i j : Nat) (q : Nat → Nat) (hj : j ≤ i) :
    (List.range (queue_remove_loop node_id n i j q).2).map (queue_remove_loop node_id n i j q).1
      = (List.range j).map q ++ ((List.range' i n).map q).filter (fun x => x ≠ node_id) := by
  induction n generalizing i j q with
  | zero => simp [queue_remove_loop]
  | succ n ih =>
    rw [queue_remove_loop]
    by_cases h : q i ≠ node_id
    · rw [if_pos h, ih _ _ _ (by omega)]
      rw [List.range'_succ, List.map_cons, List.filter_cons_of_pos (by simpa using h),
        List.range_succ, List.map_append, List.map_singleton, if_pos rfl, List.append_assoc,
        List.singleton_append]
      congr 1
      · apply List.map_congr_left
        intro k hk
        rw [if_neg (by have := List.mem_range.mp hk; omega)]
      · congr 2
        apply List.map_congr_left
        intro k hk
        rw [if_neg (by have := (List.mem_range'_1.mp hk).1; omega)]
    · rw [if_neg h, ih _ _ _ (by omega)]
      rw [List.range'_succ, List.map_cons, List.filter_cons_of_neg (by simpa using h)]

theorem wait_queue_remove (a : Arbiter) (n : Nat) :
    wait_queue (queue_remove a n) = (wait_queue a).filter (fun x => x ≠ n) := by
  unfold queue_remove wait_queue
  simp only
  rw [queue_remove_loop_eq _ _ _ _ _ (Nat.le_refl 0)]
  simp [List.range_eq_range']

/-! ## The arbiter invariant -/

theorem wait_queue_eq_of_fields {a b : Arbiter} (hq : b.g_queue = a.g_queue)
    (hl : b.g_q_len = a.g_q_len) : wait_queue b = wait_queue a := by
  unfold wait_queue; rw [hq, hl]

theorem gnt_pulse_node_fields (a : Arbiter) (n : Nat) :
    (gnt_pulse_node a n).g_lock_holder = a.g_lock_holder ∧
    (gnt_pulse_node a n).g_queue = a.g_queue ∧
    (gnt_pulse_node a n).g_q_len = a.g_q_len ∧
    (gnt_pulse_node a n).g_need_schedule = a.g_need_schedule ∧
    (gnt_pulse_node a n).g_req_event_mask = a.g_req_event_mask := by
  unfold gnt_pulse_node; split <;> exact ⟨rfl, rfl, rfl, rfl, rfl⟩

theorem queue_push_fields (a : Arbiter) (n : Nat) :
    (queue_push a n).g_lock_holder = a.g_lock_holder ∧
    (queue_push a n).g_need_schedule = a.g_need_schedule ∧
    (queue_push a n).g_req_event_mask = a.g_req_event_mask ∧
    (queue_push a n).pulses = a.pulses := by
  unfold queue_push; split
  · exact ⟨rfl, rfl, rfl, rfl⟩
  · split <;> exact ⟨rfl, rfl, rfl, rfl⟩

theorem queue_remove_fields (a : Arbiter) (n : Nat) :
    (queue_remove a n).g_lock_holder = a.g_lock_holder ∧
    (queue_remove a n).g_need_schedule = a.g_need_schedule ∧
    (queue_remove a n).g_req_event_mask = a.g_req_event_mask ∧
    (queue_remove a n).pulses = a.pulses := ⟨rfl, rfl, rfl, rfl⟩

theorem queue_pop_fields (a : Arbiter) :
    (queue_pop a).1.g_lock_holder = a.g_lock_holder ∧
    (queue_pop a).1.g_need_schedule = a.g_need_schedule ∧
    (queue_pop a).1.g_req_event_mask = a.g_req_event_mask ∧
    (queue_pop a).1.pulses = a.pulses := by
  unfold queue_pop; split <;> exact ⟨rfl, rfl, rfl, rfl⟩

theorem ArbInv.room {a : Arbiter} (inv : ArbInv a) (n : Nat) (h1 : 1 ≤ n) (h3 : n ≤ 3)
    (hn : n ∉ wait_queue a) : a.g_q_len < 3 := by
  by_contra hc
  have hlen : (wait_queue a).length = 3 := by
    rw [wait_queue_length]; have := inv.len_le; omega
  have hsub : wait_queue a ⊆ ([1, 2, 3] : List Nat).erase n := by
    intro x hx
    have := inv.ids x hx
    have hxn : x ≠ n := fun h => hn (h ▸ hx)
    rw [List.Nodup.mem_erase_iff (by decide)]
    refine ⟨hxn, ?_⟩
    simp only [List.mem_cons, List.mem_singleton, List.not_mem_nil, or_false]
    omega
  have hle := (List.subperm_of_subset inv.nodup hsub).length_le
  have h2 : (([1, 2, 3] : List Nat).erase n).length = 2 := by
    rw [List.length_erase_of_mem (by
      simp only [List.mem_cons, List.mem_singleton, List.not_mem_nil, or_false]; omega)]
    rfl
  omega

/-- The push of a node id that is not the holder keeps the invariant. -/
theorem ArbInv.push {a : Arbiter} (inv : ArbInv a) (n : Nat) (h1 : 1 ≤ n) (h3 : n ≤ 3)
    (hh : a.g_lock_holder ≠ n) : ArbInv (queue_push a n) := by
  have hw := wait_queue_push a n
  obtain ⟨f1, -, -, -⟩ := queue_push_fields a n
  by_cases hc : a.g_q_len ≥ 3 ∨ n ∈ wait_queue a
  · rw [if_pos hc] at hw
    refine ⟨?_, ?_, ?_, ?_, ?_⟩
    · rw [← wait_queue_length, hw, wait_queue_length]; exact inv.len_le
    · rw [hw]; exact inv.ids
    · rw [hw]; exact inv.nodup
    · rw [f1]; exact inv.holder_le
    · rw [hw, f1]; exact inv.holder_not_queued
  · rw [if_neg hc] at hw
    have hlen : a.g_q_len < 3 := by omega
    have hnot : n ∉ wait_queue a := fun h => hc (Or.inr h)
    refine ⟨?_, ?_, ?_, ?_, ?_⟩
    · rw [← wait_queue_length, hw, List.length_append, wait_queue_length]
      simp only [List.length_singleton]; omega
    · rw [hw]
      intro x hx
      rcases List.mem_append.mp hx with h | h
      · exact inv.ids x h
      · rw [List.mem_singleton.mp h]; exact ⟨h1, h3⟩
    · rw [hw]
      apply List.Nodup.append inv.nodup (List.nodup_singleton n)
      intro x hx hx'
      rw [List.mem_singleton.mp hx'] at hx
      exact hnot hx
    · rw [f1]; exact inv.holder_le
    · rw [hw, f1]
      intro h
      rcases List.mem_append.mp h with h | h
      · exact inv.holder_not_queued h
      · exact hh (List.mem_singleton.mp h)

/-- Clearing the holder keeps the invariant. -/
theorem ArbInv.clear_holder {a : Arbiter} (inv : ArbInv a) (need : Nat) :
    ArbInv { a with g_lock_holder := 0, g_need_schedule := need } := by
  refine ⟨inv.len_le, inv.ids, inv.nodup, Nat.zero_le _, ?_⟩
  intro h
  have := inv.ids 0 h
  omega

theorem ArbInv.of_same {a b : Arbiter} (inv : ArbInv a) (hq : b.g_queue = a.g_queue)
    (hl : b.g_q_len = a.g_q_len) (hh : b.g_lock_holder = a.g_lock_holder) : ArbInv b := by
  have hw := wait_queue_eq_of_fields hq hl
  refine ⟨by rw [hl]; exact inv.len_le, by rw [hw]; exact inv.ids, by rw [hw]; exact inv.nodup,
    by rw [hh]; exact inv.holder_le, by rw [hw, hh]; exact inv.holder_not_queued⟩

theorem ArbInv.reset {a : Arbiter} (inv : ArbInv a) (n : Nat) : ArbInv (reset_pulse a n) := by
  have hw := wait_queue_remove a n
  have hinv : ArbInv (queue_remove a n) := by
    refine ⟨?_, ?_, ?_, inv.holder_le, ?_⟩
    · rw [← wait_queue_length, hw]
      have := List.length_filter_le (fun x => decide (x ≠ n)) (wait_queue a)
      rw [wait_queue_length] at this
      have := inv.len_le
      omega
    · rw [hw]; intro x hx; exact inv.ids x (List.mem_of_mem_filter hx)
    · rw [hw]; exact inv.nodup.filter _
    · rw [hw]; intro h; exact inv.holder_not_queued (List.mem_of_mem_filter h)
  unfold reset_pulse
  simp only
  split
  · exact hinv.clear_holder 1
  · exact hinv

theorem ArbInv.schedule {a : Arbiter} (inv : ArbInv a) : ArbInv (arbiter_schedule a) := by
  unfold arbiter_schedule
  split
  · exact inv
  · next hh =>
    obtain ⟨hw, hr⟩ := wait_queue_pop a
    obtain ⟨f1, -, -, -⟩ := queue_pop_fields a
    have hlen : (queue_pop a).1.g_q_len ≤ 3 := by
      rw [← wait_queue_length, hw, List.length_tail, wait_queue_length]
      have := inv.len_le; omega
    have hids : ∀ n, n ∈ wait_queue (queue_pop a).1 → 1 ≤ n ∧ n ≤ 3 := by
      rw [hw]; intro x hx; exact inv.ids x (List.mem_of_mem_tail hx)
    have hnd : (wait_queue (queue_pop a).1).Nodup := by
      rw [hw]; exact inv.nodup.tail
    simp only
    split
    · refine ⟨hlen, hids, hnd, by rw [f1]; exact inv.holder_le, ?_⟩
      rw [f1]; intro h
      have := hids _ h
      have h0 : a.g_lock_holder = 0 := by simpa using hh
      omega
    · next hne =>
      obtain ⟨g1, g2, g3, -, -⟩ := gnt_pulse_node_fields
        { (queue_pop a).1 with g_lock_holder := (queue_pop a).2 } (queue_pop a).2
      have hwq : wait_queue (gnt_pulse_node
          { (queue_pop a).1 with g_lock_holder := (queue_pop a).2 } (queue_pop a).2)
          = wait_queue (queue_pop a).1 := wait_queue_eq_of_fields g2 g3
      cases hq : wait_queue a with
      | nil => rw [hr, hq] at hne; exact absurd rfl hne
      | cons f rest =>
        have hf : (queue_pop a).2 = f := by rw [hr, hq]; rfl
        have hfm := inv.ids f (by rw [hq]; exact List.mem_cons_self _ _)
        have hnd' := inv.nodup
        rw [hq] at hnd' hw
        refine ⟨by rw [g3]; exact hlen, by rw [hwq]; exact hids, by rw [hwq]; exact hnd, ?_, ?_⟩
        · rw [g1]; simp only [hf]; exact hfm.2
        · rw [g1, hwq, hw]; simp only [hf, List.tail_cons]
          exact (List.nodup_cons.mp hnd').1

theorem index_to_node_id_range (bit : Nat) (h : index_to_node_id bit ≠ 0) :
    1 ≤ index_to_node_id bit ∧ index_to_node_id bit ≤ 3 := by
  unfold index_to_node_id NODE1_ID NODE2_ID NODE3_ID at h ⊢
  split <;> [skip; split <;> [skip; split]] <;> simp_all

theorem ArbInv.classify {a : Arbiter} (inv : ArbInv a) (n : Nat) (h1 : 1 ≤ n) (h3 : n ≤ 3) :
    ArbInv (classify_edge a n) := by
  unfold classify_edge
  split
  · exact inv.clear_holder 1
  · next hh => exact (inv.push _ h1 h3 hh).of_same rfl rfl rfl

theorem ArbInv.process_body {a : Arbiter} (inv : ArbInv a) (events bit : Nat) :
    ArbInv (process_req_body events bit a) := by
  unfold process_req_body
  split
  · exact inv
  · simp only
    split
    · exact inv
    · next hid =>
      have := index_to_node_id_range bit hid
      exact inv.classify _ this.1 this.2

theorem ArbInv.process_loop {a : Arbiter} (inv : ArbInv a) (events n bit : Nat) :
    ArbInv (process_req_loop events n bit a) := by
  induction n generalizing bit a with
  | zero => exact inv
  | succ n ih =>
    rw [process_req_loop]
    exact ih (inv.process_body _ _) _

theorem ArbInv.drain {a : Arbiter} (inv : ArbInv a) : ArbInv (arbiter_process_req_events a) := by
  unfold arbiter_process_req_events
  split
  · exact inv
  · exact ArbInv.process_loop (a := { a with g_req_event_mask := 0 })
      (inv.of_same rfl rfl rfl) _ _ _

theorem notify_loop_fields (notif n idx mask : Nat) (a : Arbiter) :
    (notify_loop notif n idx mask a).g_lock_holder = a.g_lock_holder ∧
    (notify_loop notif n idx mask a).g_queue = a.g_queue ∧
    (notify_loop notif n idx mask a).g_q_len = a.g_q_len ∧
    (notify_loop notif n idx mask a).g_need_schedule = a.g_need_schedule ∧
    (notify_loop notif n idx mask a).g_req_event_mask = a.g_req_event_mask := by
  induction n generalizing idx mask a with
  | zero => exact ⟨rfl, rfl, rfl, rfl, rfl⟩
  | succ n ih =>
    rw [notify_loop]
    simp only
    obtain ⟨h1, h2, h3, h4, h5⟩ := ih (idx + 1) (u8 (mask <<< 1))
      (if notif &&& mask ≠ 0 then
        if index_to_node_id idx ≠ 0 ∧ queue_contains a (index_to_node_id idx) = 0
        then gnt_pulse_node a (index_to_node_id idx) else a
       else a)
    rw [h1, h2, h3, h4, h5]
    split
    · split
      · exact gnt_pulse_node_fields _ _
      · exact ⟨rfl, rfl, rfl, rfl, rfl⟩
    · exact ⟨rfl, rfl, rfl, rfl, rfl⟩

theorem check_notifications_fields (a : Arbiter) (fr : Fram) :
    (arbiter_check_notifications a fr).1.g_lock_holder = a.g_lock_holder ∧
    (arbiter_check_notifications a fr).1.g_queue = a.g_queue ∧
    (arbiter_check_notifications a fr).1.g_q_len = a.g_q_len ∧
    (arbiter_check_notifications a fr).1.g_need_schedule = a.g_need_schedule ∧
    (arbiter_check_notifications a fr).1.g_req_event_mask = a.g_req_event_mask := by
  unfold arbiter_check_notifications
  split
  · exact ⟨rfl, rfl, rfl, rfl, rfl⟩
  · simp only
    split
    · exact ⟨rfl, rfl, rfl, rfl, rfl⟩
    · exact notify_loop_fields _ _ _ _ _

theorem ArbInv.step {a b : Arbiter} (inv : ArbInv a) (h : ArbiterStep a b) : ArbInv b := by
  cases h with
  | port1 iv =>
    unfold PORT1_ISR
    split
    · exact inv.of_same rfl rfl rfl
    · split
      · exact inv.reset _
      · split
        · exact inv.of_same rfl rfl rfl
        · exact inv
  | port3 iv =>
    unfold PORT3_ISR
    split
    · exact inv.reset _
    · split
      · exact inv.of_same rfl rfl rfl
      · split
        · exact inv.reset _
        · exact inv
  | drain => exact inv.drain
  | schedule =>
    unfold main_schedule
    split
    · exact ArbInv.schedule (inv.of_same rfl rfl rfl)
    · exact inv
  | notify fr =>
    obtain ⟨h1, h2, h3, -, -⟩ := check_notifications_fields a fr
    exact inv.of_same h2 h3 h1

theorem arbiter_init_inv : ArbInv arbiter_init :=
  ⟨(by decide), (fun n h => by cases h), List.nodup_nil, (by decide), (fun h => by cases h)⟩

/-- Every reachable arbiter state satisfies the invariant. -/
theorem Reachable.inv {a : Arbiter} (h : Reachable a) : ArbInv a := by
  induction h with
  | init => exact arbiter_init_inv
  | step _ hs ih => exact ih.step hs

/-! ## Steps of the arbiter -/

theorem index_to_node_id_pred (n : Nat) (h1 : 1 ≤ n) (h3 : n ≤ 3) :
    index_to_node_id (n - 1) = n := by
  interval_cases n <;> rfl

theorem classify_edge_fields (a : Arbiter) (n : Nat) :
    (classify_edge a n).g_req_event_mask = a.g_req_event_mask ∧
    (classify_edge a n).pulses = a.pulses ∧
    ((classify_edge a n).g_lock_holder = a.g_lock_holder ∨
      (classify_edge a n).g_lock_holder = 0) ∧
    wait_queue a <+: wait_queue (classify_edge a n) := by
  unfold classify_edge
  split
  · exact ⟨rfl, rfl, Or.inr rfl, List.prefix_refl _⟩
  · obtain ⟨f1, -, f3, f4⟩ := queue_push_fields a n
    refine ⟨f3, f4, Or.inl f1, ?_⟩
    have : wait_queue { queue_push a n with g_need_schedule := 1 } = wait_queue (queue_push a n) :=
      wait_queue_eq_of_fields rfl rfl
    rw [this, wait_queue_push]
    split
    · exact List.prefix_refl _
    · exact List.prefix_append _ _

theorem process_body_fields (events bit : Nat) (a : Arbiter) :
    (process_req_body events bit a).g_req_event_mask = a.g_req_event_mask ∧
    (process_req_body events bit a).pulses = a.pulses ∧
    ((process_req_body events bit a).g_lock_holder = a.g_lock_holder ∨
      (process_req_body events bit a).g_lock_holder = 0) ∧
    wait_queue a <+: wait_queue (process_req_body events bit a) := by
  unfold process_req_body
  split
  · exact ⟨rfl, rfl, Or.inl rfl, List.prefix_refl _⟩
  · simp only
    split
    · exact ⟨rfl, rfl, Or.inl rfl, List.prefix_refl _⟩
    · exact classify_edge_fields _ _

theorem process_loop_fields (events n bit : Nat) (a : Arbiter) :
    (process_req_loop events n bit a).g_req_event_mask = a.g_req_event_mask ∧
    (process_req_loop events n bit a).pulses = a.pulses ∧
    ((process_req_loop events n bit a).g_lock_holder = a.g_lock_holder ∨
      (process_req_loop events n bit a).g_lock_holder = 0) ∧
    wait_queue a <+: wait_queue (process_req_loop events n bit a) := by
  induction n generalizing bit a with
  | zero => exact ⟨rfl, rfl, Or.inl rfl, List.prefix_refl _⟩
  | succ n ih =>
    rw [process_req_loop]
    obtain ⟨b1, b2, b3, b4⟩ := process_body_fields events bit a
    obtain ⟨l1, l2, l3, l4⟩ := ih (bit + 1) (process_req_body events bit a)
    refine ⟨by rw [l1, b1], by rw [l2, b2], ?_, b4.trans l4⟩
    rcases l3 with h | h
    · rw [h]; exact b3
    · exact Or.inr h

/-- A drain leaves no pending edge, drives no pulse, never names a new holder, and
only appends to the wait queue. -/
theorem drain_fields (a : Arbiter) :
    (arbiter_process_req_events a).g_req_event_mask = 0 ∧
    (arbiter_process_req_events a).pulses = a.pulses ∧
    ((arbiter_process_req_events a).g_lock_holder = a.g_lock_holder ∨
      (arbiter_process_req_events a).g_lock_holder = 0) ∧
    wait_queue a <+: wait_queue (arbiter_process_req_events a) := by
  unfold arbiter_process_req_events
  split
  · next h => exact ⟨h, rfl, Or.inl rfl, List.prefix_refl _⟩
  · obtain ⟨l1, l2, l3, l4⟩ := process_loop_fields a.g_req_event_mask NUM_NODES 0
      { a with g_req_event_mask := 0 }
    exact ⟨l1, l2, l3, l4⟩

/-- Classifying a Request edge of a node that is not the holder leaves it queued. -/
theorem classify_edge_mem {a : Arbiter} (inv : ArbInv a) (n : Nat) (h1 : 1 ≤ n) (h3 : n ≤ 3)
    (hh : a.g_lock_holder ≠ n) : n ∈ wait_queue (classify_edge a n) := by
  unfold classify_edge
  rw [if_neg hh]
  have : wait_queue { queue_push a n with g_need_schedule := 1 } = wait_queue (queue_push a n) :=
    wait_queue_eq_of_fields rfl rfl
  rw [this, wait_queue_push]
  by_cases hm : n ∈ wait_queue a
  · rw [if_pos (Or.inr hm)]; exact hm
  · have := inv.room n h1 h3 hm
    rw [if_neg (by intro h; rcases h with h | h <;> [omega; exact hm h])]
    exact List.mem_append_right _ (List.mem_singleton_self n)

theorem process_loop_mem {a : Arbiter} (inv : ArbInv a) (events cnt bit k n : Nat)
    (hk1 : bit ≤ k) (hk2 : k < bit + cnt) (hset : events &&& (1 <<< k) ≠ 0)
    (hid : index_to_node_id k = n) (hn : n ≠ 0) (hh : a.g_lock_holder ≠ n) :
    n ∈ wait_queue (process_req_loop events cnt bit a) := by
  induction cnt generalizing bit a with
  | zero => omega
  | succ cnt ih =>
    rw [process_req_loop]
    obtain ⟨-, -, b3, -⟩ := process_body_fields events bit a
    rcases Nat.eq_or_lt_of_le hk1 with he | hl
    · subst he
      have hr := index_to_node_id_range bit (by rw [hid]; exact hn)
      rw [hid] at hr
      have hb : process_req_body events bit a = classify_edge a n := by
        unfold process_req_body
        rw [if_neg hset]
        simp only [hid]
        rw [if_neg hn]
      have hm : n ∈ wait_queue (process_req_body events bit a) := by
        rw [hb]; exact classify_edge_mem inv n hr.1 hr.2 hh
      exact (process_loop_fields events cnt (bit + 1) _).2.2.2.subset hm
    · apply ih (inv.process_body events bit) (bit + 1) (by omega) (by omega)
      rcases b3 with h | h
      · rw [h]; exact hh
      · rw [h]; exact fun h0 => hn h0.symm

theorem Reachable.req_edge {a : Arbiter} (h : Reachable a) (n : Nat) : Reachable (req_edge a n) := by
  unfold MicroSymphony.req_edge
  split
  · exact h.step (ArbiterStep.port1 _)
  · split
    · exact h.step (ArbiterStep.port1 _)
    · split
      · exact h.step (ArbiterStep.port3 _)
      · exact h

theorem Reachable.reset_edge {a : Arbiter} (h : Reachable a) (n : Nat) :
    Reachable (reset_edge a n) := by
  unfold MicroSymphony.reset_edge
  split
  · exact h.step (ArbiterStep.port1 _)
  · split
    · exact h.step (ArbiterStep.port3 _)
    · split
      · exact h.step (ArbiterStep.port3 _)
      · exact h

theorem head_slot_lt (fr : Fram) (idx i : Nat) : head_slot fr idx i < 256 := u8_lt _

/-- The slot buffer filled by `mailbox_recv_msg` holds the bytes of the head slot. -/
theorem slot_read_head (fr fr1 : Fram) (idx : Nat) (hm : fr1.mem = fr.mem) (i : Nat)
    (hi : i < 64) :
    (fram_read_bytes fr1 (u32 ((read_desc fr idx).base
      + u32 ((read_desc fr idx).head * (read_desc fr idx).msg_size))) (fun _ => 0) 64).2 i
      = head_slot fr idx i := by
  rw [fram_read_bytes_buf, if_pos hi, hm]
  rfl

theorem total_len_bytes (a b : Nat) (ha : a < 256) (hb : b < 256) :
    a ||| u16 (b <<< 8) = a + 256 * b := by
  have h := total_len_decode (a + 256 * b) (by omega)
  rw [show (a + 256 * b) % 256 = a by omega, show (a + 256 * b) / 256 % 256 = b by omega] at h
  exact h

/-- The branch of `mailbox_recv_msg` for a bulk header that claims more bytes than the
ring holds. -/
theorem mailbox_recv_msg_overflow (fuel : Nat) (fr : Fram) (idx s0 l0 : Nat) (out0 : Nat → Nat)
    (hidx : idx < 4)
    (hsc : mailbox_slot_count (read_desc fr idx) ≠ 0)
    (hused : (read_desc fr idx).used ≠ 0)
    (hflag : head_slot fr idx 1 &&& MSG_FLAG_BULK ≠ 0)
    (hnz : head_slot fr idx 2 + 256 * head_slot fr idx 3 ≠ 0)
    (hlen : 4 + (head_slot fr idx 2 + 256 * head_slot fr idx 3) > (read_desc fr idx).size) :
    mailbox_recv_msg fuel fr idx s0 l0 out0 =
      some (fram_write_bytes
        (fram_read_bytes (fram_read_bytes fr (mailbox_node_desc_addr idx) (fun _ => 0) DESC_SIZE).1
          (u32 ((read_desc fr idx).base
            + u32 ((read_desc fr idx).head * (read_desc fr idx).msg_size))) (fun _ => 0) 64).1
        (mailbox_node_desc_addr idx)
        (desc_bytes { read_desc fr idx with used := 0, head := 0 }) DESC_SIZE,
        ⟨0, head_slot fr idx 0, 0, out0⟩) := by
  have hrd : desc_of_bytes
      (fram_read_bytes fr (mailbox_node_desc_addr idx) (fun _ => 0) DESC_SIZE).2
      = read_desc fr idx := rfl
  have hslot := fun i hi => slot_read_head fr
    (fram_read_bytes fr (mailbox_node_desc_addr idx) (fun _ => 0) DESC_SIZE).1 idx
    (fram_read_bytes_mem _ _ _ _) i hi
  have h0 := hslot 0 (by omega)
  have h1 := hslot 1 (by omega)
  have h2 := hslot 2 (by omega)
  have h3 := hslot 3 (by omega)
  have htl := total_len_bytes _ _ (head_slot_lt fr idx 2) (head_slot_lt fr idx 3)
  unfold mailbox_recv_msg
  simp only [MAILBOX_NUM_NODES, MSG_SLOT_SIZE, BULK_HEADER_SIZE, hrd]
  rw [if_neg (show ¬ idx ≥ 4 by omega), if_neg hsc, if_neg hused]
  simp only [h0, h1, h2, h3, htl]
  rw [if_neg hflag, if_neg hnz, if_pos hlen]

theorem slot_count_le_size (d : node_box_desc_t) (h : mailbox_slot_count d ≠ 0) :
    d.msg_size ≤ d.size := by
  unfold mailbox_slot_count at h
  simp only at h
  split at h
  · exact absurd rfl h
  · rename_i hm
    by_contra hlt
    rw [Nat.div_eq_of_lt (by omega)] at h
    exact h rfl

/-- On a well-formed box the head slot is the ring slot at byte position `head * 64`. -/
theorem head_slot_wf (fr : Fram) (idx : Nat) (wf : WellFormed idx (read_desc fr idx)) (i : Nat)
    (hi : i < 64) :
    head_slot fr idx i
      = ring_byte fr (read_desc fr idx) ((read_desc fr idx).head * 64 + i) := by
  have hr := read_desc_range fr idx
  have hsc := wf.slot_count_lt hr
  have hsz := wf.size_eq
  have hchip := wf.ring_in_chip
  have hhl := wf.head_lt
  unfold head_slot ring_byte
  rw [wf.msg_size_eq, u32_of_lt (x := (read_desc fr idx).head * 64) (by omega),
    u32_of_lt (by omega), send_addr_of_lt (by omega), Nat.mod_eq_of_lt (by omega), Nat.add_assoc]

/-- The branch of `mailbox_recv_msg` for a normal record, whatever its length byte. -/
theorem mailbox_recv_msg_flag_clear (fuel : Nat) (fr : Fram) (idx s0 l0 : Nat)
    (out0 : Nat → Nat) (hidx : idx < 4)
    (hsc : mailbox_slot_count (read_desc fr idx) ≠ 0)
    (hused : (read_desc fr idx).used ≠ 0)
    (hflag : head_slot fr idx 1 &&& MSG_FLAG_BULK = 0) :
    mailbox_recv_msg fuel fr idx s0 l0 out0 =
      some (fram_write_bytes
        (fram_read_bytes (fram_read_bytes fr (mailbox_node_desc_addr idx) (fun _ => 0) DESC_SIZE).1
          (u32 ((read_desc fr idx).base
            + u32 ((read_desc fr idx).head * (read_desc fr idx).msg_size))) (fun _ => 0) 64).1
        (mailbox_node_desc_addr idx)
        (desc_bytes { read_desc fr idx with
          head := if u16 ((read_desc fr idx).head + 1) ≥ mailbox_slot_count (read_desc fr idx)
                  then 0 else u16 ((read_desc fr idx).head + 1)
          used := (read_desc fr idx).used - 1 }) DESC_SIZE,
        ⟨1, head_slot fr idx 0, if head_slot fr idx 2 > 60 then 0 else head_slot fr idx 2,
          copy_payload
            (fun i => (fram_read_bytes
              (fram_read_bytes fr (mailbox_node_desc_addr idx) (fun _ => 0) DESC_SIZE).1
              (u32 ((read_desc fr idx).base
                + u32 ((read_desc fr idx).head * (read_desc fr idx).msg_size)))
              (fun _ => 0) 64).2 (4 + i))
            (if head_slot fr idx 2 > 60 then 0 else head_slot fr idx 2) 0 out0⟩) := by
  have hrd : desc_of_bytes
      (fram_read_bytes fr (mailbox_node_desc_addr idx) (fun _ => 0) DESC_SIZE).2
      = read_desc fr idx := rfl
  have hslot := fun i hi => slot_read_head fr
    (fram_read_bytes fr (mailbox_node_desc_addr idx) (fun _ => 0) DESC_SIZE).1 idx
    (fram_read_bytes_mem _ _ _ _) i hi
  have h0 := hslot 0 (by omega)
  have h1 := hslot 1 (by omega)
  have h2 := hslot 2 (by omega)
  unfold mailbox_recv_msg
  simp only [MAILBOX_NUM_NODES, MSG_SLOT_SIZE, MSG_SLOT_PAYLOAD_MAX, hrd]
  rw [if_neg (show ¬ idx ≥ 4 by omega), if_neg hsc, if_neg hused]
  simp only [h0, h1, h2]
  rw [if_pos hflag, if_pos (show (read_desc fr idx).used > 0 by omega)]

theorem head_step (head sc : Nat) (hh : head < sc) (hsc : sc < 65536) :
    (if u16 (head + 1) ≥ sc then 0 else u16 (head + 1)) = (head + 1) % sc := by
  rw [u16_of_lt (by omega), mod_wrap (by omega)]
  split <;> split <;> omega

/-- After a receive that moved `head` to slot `t`, the head slot is ring slot `t` of the
store before the call. -/
theorem head_slot_after (fr fr' : Fram) (idx : Nat) (wf : WellFormed idx (read_desc fr idx))
    (t : Nat) (ht : t < mailbox_slot_count (read_desc fr idx))
    (hb : (read_desc fr' idx).base = (read_desc fr idx).base)
    (hh : (read_desc fr' idx).head = t)
    (hm : (read_desc fr' idx).msg_size = 64)
    (hframe : ∀ x,
      (x < mailbox_node_desc_addr idx ∨ mailbox_node_desc_addr idx + DESC_SIZE ≤ x) →
      fr'.mem x = fr.mem x) (i : Nat) (hi : i < 64) :
    head_slot fr' idx i = ring_byte fr (read_desc fr idx) (t * 64 + i) := by
  have hr := read_desc_range fr idx
  have hsc := wf.slot_count_lt hr
  have hsz := wf.size_eq
  have hchip := wf.ring_in_chip
  have hoff := wf.ring_off_desc
  unfold DESC_SIZE at hoff
  unfold head_slot ring_byte
  rw [hb, hh, hm, u32_of_lt (x := t * 64) (by omega), u32_of_lt (by omega),
    send_addr_of_lt (by omega), Nat.mod_eq_of_lt (by omega),
    hframe _ (by unfold DESC_SIZE; omega), Nat.add_assoc]

/-- The branch of `mailbox_recv_msg` for a bulk header with `total_len = 0`. -/
theorem mailbox_recv_msg_zero_bulk (fuel : Nat) (fr : Fram) (idx s0 l0 : Nat)
    (out0 : Nat → Nat) (hidx : idx < 4)
    (hsc : mailbox_slot_count (read_desc fr idx) ≠ 0)
    (hused : (read_desc fr idx).used ≠ 0)
    (hflag : head_slot fr idx 1 &&& MSG_FLAG_BULK ≠ 0)
    (hz : head_slot fr idx 2 + 256 * head_slot fr idx 3 = 0) :
    mailbox_recv_msg fuel fr idx s0 l0 out0 =
      some (fram_write_bytes
        (fram_read_bytes (fram_read_bytes fr (mailbox_node_desc_addr idx) (fun _ => 0) DESC_SIZE).1
          (u32 ((read_desc fr idx).base
            + u32 ((read_desc fr idx).head * (read_desc fr idx).msg_size))) (fun _ => 0) 64).1
        (mailbox_node_desc_addr idx)
        (desc_bytes { read_desc fr idx with
          head := if u16 ((read_desc fr idx).head + 1) ≥ mailbox_slot_count (read_desc fr idx)
                  then 0 else u16 ((read_desc fr idx).head + 1)
          used := (read_desc fr idx).used - 1 }) DESC_SIZE,
        ⟨0, head_slot fr idx 0, 0, out0⟩) := by
  have hrd : desc_of_bytes
      (fram_read_bytes fr (mailbox_node_desc_addr idx) (fun _ => 0) DESC_SIZE).2
      = read_desc fr idx := rfl
  have hslot := fun i hi => slot_read_head fr
    (fram_read_bytes fr (mailbox_node_desc_addr idx) (fun _ => 0) DESC_SIZE).1 idx
    (fram_read_bytes_mem _ _ _ _) i hi
  have h0 := hslot 0 (by omega)
  have h1 := hslot 1 (by omega)
  have h2 := hslot 2 (by omega)
  have h3 := hslot 3 (by omega)
  have htl := total_len_bytes _ _ (head_slot_lt fr idx 2) (head_slot_lt fr idx 3)
  unfold mailbox_recv_msg
  simp only [MAILBOX_NUM_NODES, MSG_SLOT_SIZE, BULK_HEADER_SIZE, hrd]
  rw [if_neg (show ¬ idx ≥ 4 by omega), if_neg hsc, if_neg hused]
  simp only [h0, h1, h2, h3, htl]
  rw [if_neg hflag, if_pos hz, if_pos (show (read_desc fr idx).used > 0 by omega)]

/-- The branch of `mailbox_recv_msg` for a bulk header whose `total_len` fits the ring,
whatever the ring holds. -/
theorem mailbox_recv_msg_flag_set (fuel : Nat) (hfuel : 3 ≤ fuel) (fr : Fram) (idx s0 l0 : Nat)
    (out0 : Nat → Nat) (hidx : idx < 4)
    (wf : WellFormed idx (read_desc fr idx))
    (hused : (read_desc fr idx).used ≠ 0)
    (hflag : head_slot fr idx 1 &&& MSG_FLAG_BULK ≠ 0)
    (hnz : head_slot fr idx 2 + 256 * head_slot fr idx 3 ≠ 0)
    (hfit : 4 + (head_slot fr idx 2 + 256 * head_slot fr idx 3) ≤ (read_desc fr idx).size) :
    ∃ fr' out, mailbox_recv_msg fuel fr idx s0 l0 out0 = some (fr', out) ∧
      out.ret = 1 ∧ out.src_id_out = head_slot fr idx 0 ∧
      out.len_out = head_slot fr idx 2 + 256 * head_slot fr idx 3 ∧
      read_desc fr' idx = { read_desc fr idx with
        head := ((read_desc fr idx).head
            + (4 + (head_slot fr idx 2 + 256 * head_slot fr idx 3) + 63) / 64)
          % mailbox_slot_count (read_desc fr idx)
        used := (read_desc fr idx).used
          - (4 + (head_slot fr idx 2 + 256 * head_slot fr idx 3) + 63) / 64 } ∧
      (∀ x, (x < mailbox_node_desc_addr idx ∨ mailbox_node_desc_addr idx + DESC_SIZE ≤ x) →
        fr'.mem x = fr.mem x) := by
  have hr := read_desc_range fr idx
  have hsc := wf.slot_count_lt hr
  have hpos := wf.slot_count_pos
  have hms := wf.msg_size_eq
  have hsz := wf.size_eq
  have hchip := wf.ring_in_chip
  have hhl := wf.head_lt
  have hul := wf.used_le
  have hrd : desc_of_bytes
      (fram_read_bytes fr (mailbox_node_desc_addr idx) (fun _ => 0) DESC_SIZE).2
      = read_desc fr idx := rfl
  have hslot := fun i hi => slot_read_head fr
    (fram_read_bytes fr (mailbox_node_desc_addr idx) (fun _ => 0) DESC_SIZE).1 idx
    (fram_read_bytes_mem _ _ _ _) i hi
  have h0 := hslot 0 (by omega)
  have h1 := hslot 1 (by omega)
  have h2 := hslot 2 (by omega)
  have h3 := hslot 3 (by omega)
  have htl := total_len_bytes _ _ (head_slot_lt fr idx 2) (head_slot_lt fr idx 3)
  have hb2 := head_slot_lt fr idx 2
  have hb3 := head_slot_lt fr idx 3
  generalize head_slot fr idx 2 + 256 * head_slot fr idx 3 = tl at *
  have hus : u16 ((4 + tl + 64 - 1) / 64) = (4 + tl + 63) / 64 := by
    unfold u16; omega
  obtain ⟨fr3, dst3, he3, hm3, -, -, -⟩ := read_ring_spec fuel hfuel
    (fram_read_bytes (fram_read_bytes fr (mailbox_node_desc_addr idx) (fun _ => 0) DESC_SIZE).1
        (u32 ((read_desc fr idx).base + u32 ((read_desc fr idx).head * 64))) (fun _ => 0) 64).1
    (read_desc fr idx).base (read_desc fr idx).size ((read_desc fr idx).head * 64 + 4)
    out0 0 tl (by omega) (by omega) hchip
  rw [fram_read_bytes_mem, fram_read_bytes_mem] at hm3
  rw [hms] at h0 h1 h2 h3
  unfold mailbox_recv_msg
  simp only [MAILBOX_NUM_NODES, MSG_SLOT_SIZE, BULK_HEADER_SIZE, hrd, hms]
  rw [if_neg (show ¬ idx ≥ 4 by omega),
    if_neg (show ¬ mailbox_slot_count (read_desc fr idx) = 0 by omega),
    if_neg hused]
  simp only [h0, h1, h2, h3, htl, hus]
  rw [if_neg hflag, if_neg hnz,
    if_neg (show ¬ 4 + tl > (read_desc fr idx).size by omega),
    u32_of_lt (x := (read_desc fr idx).head * 64) (by omega),
    u32_of_lt (x := (read_desc fr idx).head * 64 + 4) (by omega),
    if_neg (show ¬ (read_desc fr idx).head * 64 + 4 ≥ (read_desc fr idx).size by omega)]
  rw [u32_of_lt (x := (read_desc fr idx).head * 64) (by omega)] at he3
  rw [he3]
  simp only
  rw [u16_of_lt (x := (read_desc fr idx).head + (4 + tl + 63) / 64) (by omega)]
  have hhead : (if (read_desc fr idx).head + (4 + tl + 63) / 64 ≥
        mailbox_slot_count (read_desc fr idx)
      then u16 ((read_desc fr idx).head + (4 + tl + 63) / 64 + 65536 -
        mailbox_slot_count (read_desc fr idx))
      else (read_desc fr idx).head + (4 + tl + 63) / 64)
      = ((read_desc fr idx).head + (4 + tl + 63) / 64)
        % mailbox_slot_count (read_desc fr idx) := by
    rw [mod_wrap (by omega)]
    unfold u16
    split <;> split <;> omega
  have hu2 : (if (read_desc fr idx).used ≥ (4 + tl + 63) / 64
      then u16 ((read_desc fr idx).used - (4 + tl + 63) / 64) else 0)
      = (read_desc fr idx).used - (4 + tl + 63) / 64 := by
    unfold u16
    split <;> omega
  rw [hhead, hu2]
  refine ⟨_, _, rfl, rfl, rfl, rfl, ?_, ?_⟩
  · rw [read_desc_write]
    have := wf.desc_range_head hr
      (((read_desc fr idx).head + (4 + tl + 63) / 64)
        % mailbox_slot_count (read_desc fr idx))
      ((read_desc fr idx).used - (4 + tl + 63) / 64) (Nat.mod_lt _ hpos) (by omega)
    simpa only [hms] using this
  · intro x hx
    rw [desc_write_frame _ _ _ _ hx, hm3]

/-! ## The descriptor bounds under every operation -/

theorem read_desc_of_mem_eq {fr fr' : Fram} (h : fr'.mem = fr.mem) (idx : Nat) :
    read_desc fr' idx = read_desc fr idx :=
  read_desc_congr _ _ _ (fun i _ => by rw [h])

theorem OpPost.of_mem_eq {fr fr' : Fram} {idx : Nat} (h : fr'.mem = fr.mem)
    (wf : WellFormed idx (read_desc fr idx)) : OpPost fr fr' idx := by
  have hd := read_desc_of_mem_eq h idx
  exact ⟨by rw [hd]; exact wf, by rw [hd], by rw [hd], by rw [hd], fun x _ _ => by rw [h]⟩

/-- A descriptor that differs from a well-formed one in `head`, `tail` and `used` only,
with these in range, is well formed. -/
theorem WellFormed.update {idx : Nat} {d : node_box_desc_t} (wf : WellFormed idx d)
    (h t u : Nat) (hh : h < mailbox_slot_count d) (ht : t < mailbox_slot_count d)
    (hu : u ≤ mailbox_slot_count d) :
    WellFormed idx { d with head := h, tail := t, used := u } :=
  ⟨wf.msg_size_eq, wf.size_eq, hh, ht, hu, wf.ring_in_chip, wf.ring_off_desc⟩

theorem OpPost.of_desc {fr fr' : Fram} {idx : Nat} (wf : WellFormed idx (read_desc fr idx))
    (h t u : Nat) (hd : read_desc fr' idx = { read_desc fr idx with head := h, tail := t, used := u })
    (hh : h < mailbox_slot_count (read_desc fr idx))
    (ht : t < mailbox_slot_count (read_desc fr idx))
    (hu : u ≤ mailbox_slot_count (read_desc fr idx))
    (hframe : ∀ x,
      (x < mailbox_node_desc_addr idx ∨ mailbox_node_desc_addr idx + DESC_SIZE ≤ x) →
      (x < (read_desc fr idx).base ∨ (read_desc fr idx).base + (read_desc fr idx).size ≤ x) →
      fr'.mem x = fr.mem x) : OpPost fr fr' idx :=
  ⟨by rw [hd]; exact wf.update h t u hh ht hu, by rw [hd], by rw [hd], by rw [hd], hframe⟩

theorem SendPost.op {fr fr' : Fram} {idx : Nat} {st : Nat → Nat} {n k : Nat}
    (wf : WellFormed idx (read_desc fr idx)) (hp : SendPost fr fr' idx st n k)
    (hk : (read_desc fr idx).used + k ≤ mailbox_slot_count (read_desc fr idx)) :
    OpPost fr fr' idx := by
  have hpos := wf.slot_count_pos
  refine OpPost.of_desc wf (read_desc fr idx).head
    (((read_desc fr idx).tail + k) % mailbox_slot_count (read_desc fr idx))
    ((read_desc fr idx).used + k) hp.desc wf.head_lt (Nat.mod_lt _ hpos) hk ?_
  intro x hx hring
  apply hp.frame x _ hx
  intro i _ hxe
  have hsz : 0 < (read_desc fr idx).size := by rw [wf.size_eq]; omega
  have := Nat.mod_lt ((read_desc fr idx).tail * 64 + i) hsz
  omega

theorem mailbox_send_msg_fail_mem (fr : Fram) (dest src_id : Nat) (data : Nat → Nat) (len : Nat)
    (h : 4 ≤ dest ∨ len = 0 ∨ 60 < len ∨
      mailbox_slot_count (read_desc fr dest) ≤ (read_desc fr dest).used) :
    (mailbox_send_msg fr dest src_id data len).1.mem = fr.mem := by
  have hrd : desc_of_bytes
      (fram_read_bytes fr (mailbox_node_desc_addr dest) (fun _ => 0) DESC_SIZE).2
      = read_desc fr dest := rfl
  unfold mailbox_send_msg
  simp only [MAILBOX_NUM_NODES, MSG_SLOT_PAYLOAD_MAX, MSG_SLOT_SIZE, hrd]
  by_cases h1 : dest ≥ 4
  · rw [if_pos h1]
  rw [if_neg h1]
  by_cases h2 : len = 0
  · rw [if_pos h2]
  rw [if_neg h2]
  by_cases h3 : len > 64 - 4
  · rw [if_pos h3]
  rw [if_neg h3]
  by_cases h4 : mailbox_slot_count (read_desc fr dest) = 0
  · rw [if_pos h4]; exact fram_read_bytes_mem _ _ _ _
  rw [if_neg h4]
  by_cases h5 : (read_desc fr dest).used ≥ mailbox_slot_count (read_desc fr dest)
  · rw [if_pos h5]; exact fram_read_bytes_mem _ _ _ _
  exfalso
  omega

/-- Whatever its arguments, `mailbox_send_msg` on a well-formed box leaves a well-formed
box. -/
theorem mailbox_send_msg_op (fr : Fram) (dest src_id : Nat) (data : Nat → Nat) (len : Nat)
    (hd : dest < 4) (wf : WellFormed dest (read_desc fr dest)) :
    OpPost fr (mailbox_send_msg fr dest src_id data len).1 dest := by
  by_cases h : len = 0 ∨ 60 < len ∨
      mailbox_slot_count (read_desc fr dest) ≤ (read_desc fr dest).used
  · exact OpPost.of_mem_eq (mailbox_send_msg_fail_mem fr dest src_id data len (Or.inr h)) wf
  · obtain ⟨-, hp⟩ := mailbox_send_msg_post fr dest src_id data len hd (by omega) (by omega) wf
      (by omega)
    exact hp.op wf (by omega)

/-- Whatever its arguments, `mailbox_send_bulk` on a well-formed box returns and leaves a
well-formed box. -/
theorem mailbox_send_bulk_op (fuel : Nat) (hfuel : 4 ≤ fuel) (fr : Fram) (dest src_id : Nat)
    (data : Nat → Nat) (total_len : Nat)
    (hd : dest < 4) (wf : WellFormed dest (read_desc fr dest)) :
    ∃ fr' r, mailbox_send_bulk fuel fr dest src_id data total_len = some (fr', r) ∧
      OpPost fr fr' dest := by
  have hms := wf.msg_size_eq
  have hsz := wf.size_eq
  have hr := read_desc_range fr dest
  have hsc := wf.slot_count_lt hr
  obtain ⟨fr', r, he, hiff, hfail, -⟩ := mailbox_send_bulk_outcome fuel hfuel fr dest src_id data
    total_len (by omega) (by rw [hms]; exact hsz) wf.used_le
  refine ⟨fr', r, he, ?_⟩
  by_cases hr0 : r = 0
  · exact OpPost.of_mem_eq (hfail hr0).1 wf
  · have hcond := mt hiff.mpr hr0
    rw [hms] at hcond
    have hu : (read_desc fr dest).used + (4 + total_len + 63) / 64
        ≤ mailbox_slot_count (read_desc fr dest) := by
      have := wf.used_le
      omega
    obtain ⟨fr'', he', hp⟩ := mailbox_send_bulk_post fuel (by omega) fr dest src_id data
      total_len hd (by omega) (by omega) wf hu
    rw [he] at he'
    have hfr : fr' = fr'' := congrArg Prod.fst (Option.some.inj he')
    rw [hfr]
    exact hp.op wf hu

/-- Whatever the ring holds, `mailbox_recv_msg` on a well-formed box returns and leaves a
well-formed box. -/
theorem mailbox_recv_msg_op (fuel : Nat) (hfuel : 3 ≤ fuel) (fr : Fram) (idx s0 l0 : Nat)
    (out0 : Nat → Nat) (hidx : idx < 4) (wf : WellFormed idx (read_desc fr idx)) :
    ∃ fr' out, mailbox_recv_msg fuel fr idx s0 l0 out0 = some (fr', out) ∧
      OpPost fr fr' idx := by
  have hr := read_desc_range fr idx
  have hsc := wf.slot_count_lt hr
  have hpos := wf.slot_count_pos
  have hhl := wf.head_lt
  have hul := wf.used_le
  have hframe : ∀ (b : Nat → Nat) (fr1 : Fram), fr1.mem = fr.mem → ∀ x,
      (x < mailbox_node_desc_addr idx ∨ mailbox_node_desc_addr idx + DESC_SIZE ≤ x) →
      (x < (read_desc fr idx).base ∨ (read_desc fr idx).base + (read_desc fr idx).size ≤ x) →
      (fram_write_bytes fr1 (mailbox_node_desc_addr idx) b DESC_SIZE).mem x = fr.mem x := by
    intro b fr1 h1 x hx _
    rw [desc_write_frame _ _ _ _ hx, h1]
  by_cases hu : (read_desc fr idx).used = 0
  · obtain ⟨fr', h, hm, -⟩ := mailbox_recv_msg_empty fuel fr idx s0 l0 out0 hu
    exact ⟨fr', _, h, OpPost.of_mem_eq hm wf⟩
  have hstep := head_step _ _ hhl (show mailbox_slot_count (read_desc fr idx) < 65536 by omega)
  have hone : ∀ fr1 : Fram, fr1.mem = fr.mem →
      OpPost fr (fram_write_bytes fr1 (mailbox_node_desc_addr idx)
        (desc_bytes { read_desc fr idx with
          head := if u16 ((read_desc fr idx).head + 1) ≥ mailbox_slot_count (read_desc fr idx)
                  then 0 else u16 ((read_desc fr idx).head + 1)
          used := (read_desc fr idx).used - 1 }) DESC_SIZE) idx := by
    intro fr1 h1
    rw [hstep]
    exact OpPost.of_desc wf _ (read_desc fr idx).tail _
      (read_desc_write _ idx _ (wf.desc_range_head hr _ _ (Nat.mod_lt _ hpos) (by omega)))
      (Nat.mod_lt _ hpos) wf.tail_lt (by omega) (hframe _ fr1 h1)
  have hmem2 : (fram_read_bytes
      (fram_read_bytes fr (mailbox_node_desc_addr idx) (fun _ => 0) DESC_SIZE).1
      (u32 ((read_desc fr idx).base
        + u32 ((read_desc fr idx).head * (read_desc fr idx).msg_size))) (fun _ => 0) 64).1.mem
      = fr.mem := by
    rw [fram_read_bytes_mem, fram_read_bytes_mem]
  by_cases hflag : head_slot fr idx 1 &&& MSG_FLAG_BULK = 0
  · exact ⟨_, _, mailbox_recv_msg_flag_clear fuel fr idx s0 l0 out0 hidx (by omega) hu hflag,
      hone _ hmem2⟩
  by_cases hz : head_slot fr idx 2 + 256 * head_slot fr idx 3 = 0
  · exact ⟨_, _, mailbox_recv_msg_zero_bulk fuel fr idx s0 l0 out0 hidx (by omega) hu hflag hz,
      hone _ hmem2⟩
  by_cases hov : 4 + (head_slot fr idx 2 + 256 * head_slot fr idx 3) > (read_desc fr idx).size
  · refine ⟨_, _, mailbox_recv_msg_overflow fuel fr idx s0 l0 out0 hidx (by omega) hu hflag hz
      hov, ?_⟩
    exact OpPost.of_desc wf 0 (read_desc fr idx).tail 0
      (read_desc_write _ idx _ (wf.desc_range_head hr 0 0 hpos (Nat.zero_le _)))
      hpos wf.tail_lt (Nat.zero_le _) (hframe _ _ hmem2)
  · obtain ⟨fr', out, h, -, -, -, hd, hfr⟩ := mailbox_recv_msg_flag_set fuel hfuel fr idx s0 l0
      out0 hidx wf hu hflag hz (by omega)
    exact ⟨fr', out, h, OpPost.of_desc wf _ (read_desc fr idx).tail _ hd (Nat.mod_lt _ hpos)
      wf.tail_lt (by omega) (fun x hx _ => hfr x hx)⟩

theorem data_base_cases (j : Nat) (h : j < 4) :
    mailbox_node_desc_addr j = 0x1000 + 0x5000 * j ∧
    mailbox_node_data_base j = 0x1100 + 0x5000 * j := by
  interval_cases j <;> decide

theorem BoxLayout.slot_count {fr : Fram} {j : Nat} (h : BoxLayout fr j) :
    mailbox_slot_count (read_desc fr j) = 316 := by
  unfold mailbox_slot_count
  simp only [h.size_eq, h.msg_size_eq]
  decide

theorem BoxLayout.wf {fr : Fram} {j : Nat} (hj : j < 4) (h : BoxLayout fr j) :
    WellFormed j (read_desc fr j) := by
  have hsc := h.slot_count
  have hb := h.base_eq
  have hs : (read_desc fr j).size = 20224 := h.size_eq
  obtain ⟨h1, h2⟩ := data_base_cases j hj
  refine ⟨h.msg_size_eq, ?_, h.head_lt, h.tail_lt, h.used_le, ?_, Or.inr ?_⟩
  · rw [hsc, hs]
  · rw [hb, hs, h2]; omega
  · rw [hb, h1, h2]; unfold DESC_SIZE; omega

theorem BoxLayout.same_mem {fr fr' : Fram} {j : Nat} (hm : fr'.mem = fr.mem)
    (h : BoxLayout fr j) : BoxLayout fr' j := by
  have hd := read_desc_of_mem_eq hm j
  exact ⟨by rw [hd]; exact h.base_eq, by rw [hd]; exact h.size_eq, by rw [hd]; exact h.msg_size_eq,
    by rw [hd]; exact h.head_lt, by rw [hd]; exact h.tail_lt, by rw [hd]; exact h.used_le⟩

/-- An operation on box `idx` keeps the layout of all four boxes. -/
theorem OpPost.layout {fr fr' : Fram} {idx : Nat} (hidx : idx < 4)
    (hl : ∀ j, j < 4 → BoxLayout fr j) (hp : OpPost fr fr' idx) (j : Nat) (hj : j < 4) :
    BoxLayout fr' j := by
  by_cases hji : j = idx
  · subst hji
    have h := hl j hj
    exact ⟨by rw [hp.base_eq]; exact h.base_eq, by rw [hp.size_eq]; exact h.size_eq,
      by rw [hp.msg_size_eq]; exact h.msg_size_eq, hp.wf.head_lt, hp.wf.tail_lt, hp.wf.used_le⟩
  · have hb := (hl idx hidx).base_eq
    have hs : (read_desc fr idx).size = 20224 := (hl idx hidx).size_eq
    obtain ⟨h1, h2⟩ := data_base_cases idx hidx
    obtain ⟨h3, -⟩ := data_base_cases j hj
    have hd : read_desc fr' j = read_desc fr j := by
      apply read_desc_congr
      intro i hi
      apply hp.frame
      · rw [h1, h3]; unfold DESC_SIZE; omega
      · rw [hb, hs, h2, h3]; omega
    have h := hl j hj
    exact ⟨by rw [hd]; exact h.base_eq, by rw [hd]; exact h.size_eq,
      by rw [hd]; exact h.msg_size_eq, by rw [hd]; exact h.head_lt, by rw [hd]; exact h.tail_lt,
      by rw [hd]; exact h.used_le⟩

theorem mailbox_send_bulk_bad_dest (fuel : Nat) (fr : Fram) (dest src_id : Nat)
    (data : Nat → Nat) (total_len : Nat) (hd : 4 ≤ dest) :
    mailbox_send_bulk fuel fr dest src_id data total_len = some (fr, 0) := by
  unfold mailbox_send_bulk
  rw [if_pos (show dest ≥ MAILBOX_NUM_NODES from hd)]

theorem mailbox_recv_msg_bad_node (fuel : Nat) (fr : Fram) (node s0 l0 : Nat)
    (out0 : Nat → Nat) (hd : 4 ≤ node) :
    mailbox_recv_msg fuel fr node s0 l0 out0 = some (fr, ⟨0, s0, l0, out0⟩) := by
  unfold mailbox_recv_msg
  rw [if_pos (show node ≥ MAILBOX_NUM_NODES from hd)]

theorem init_layout (fr : Fram) (j : Nat) (hj : j < 4) : BoxLayout (mailbox_init_layout fr) j := by
  have hd := read_desc_init fr j hj
  have hsize : (read_desc (mailbox_init_layout fr) j).size = 20224 := by rw [hd]
  have hmsz : (read_desc (mailbox_init_layout fr) j).msg_size = 64 := by rw [hd]
  have hsc : mailbox_slot_count (read_desc (mailbox_init_layout fr) j) = 316 := by
    unfold mailbox_slot_count
    simp only [hmsz, hsize]
    decide
  refine ⟨by rw [hd], by rw [hd]; rfl, by rw [hd]; rfl, ?_, ?_, ?_⟩
  · rw [hsc, hd]; exact Nat.zero_lt_succ _
  · rw [hsc, hd]; exact Nat.zero_lt_succ _
  · rw [hsc, hd]; exact Nat.zero_le _

/-! ## Edge classification and the notification loop -/

theorem process_req_body_set (events n : Nat) (a : Arbiter) (h1 : 1 ≤ n) (h3 : n ≤ 3)
    (hset : events &&& (1 <<< (n - 1)) ≠ 0) :
    process_req_body events (n - 1) a = classify_edge a n := by
  unfold process_req_body
  rw [if_neg hset]
  simp only [index_to_node_id_pred n h1 h3]
  rw [if_neg (by omega)]

theorem classify_edge_request {a : Arbiter} (inv : ArbInv a) (n : Nat) (h1 : 1 ≤ n) (h3 : n ≤ 3)
    (hh : a.g_lock_holder ≠ n) :
    (classify_edge a n).g_lock_holder = a.g_lock_holder ∧
    wait_queue (classify_edge a n)
      = (if n ∈ wait_queue a then wait_queue a else wait_queue a ++ [n]) ∧
    (classify_edge a n).g_need_schedule = 1 ∧
    (classify_edge a n).pulses = a.pulses := by
  unfold classify_edge
  rw [if_neg hh]
  have hf := queue_push_fields a n
  refine ⟨hf.1, ?_, rfl, hf.2.2.2⟩
  have hw : wait_queue { queue_push a n with g_need_schedule := 1 } = wait_queue (queue_push a n) :=
    rfl
  rw [hw, wait_queue_push]
  by_cases hm : n ∈ wait_queue a
  · rw [if_pos (Or.inr hm), if_pos hm]
  · have := inv.room n h1 h3 hm
    rw [if_neg (by intro h; cases h with | inl h => omega | inr h => exact hm h), if_neg hm]

theorem process_req_body_clear (events bit : Nat) (a : Arbiter)
    (h : events &&& (1 <<< bit) = 0) : process_req_body events bit a = a := by
  unfold process_req_body
  rw [if_pos h]

theorem notify_loop_succ (notif n idx mask : Nat) (a : Arbiter) :
    notify_loop notif (n + 1) idx mask a
      = notify_loop notif n (idx + 1) (u8 (mask <<< 1)) (notify_loop notif 1 idx mask a) := rfl

/-- One iteration of the loop of `arbiter_check_notifications`. -/
theorem notify_loop_one (notif idx : Nat) (a : Arbiter) (hidx : idx < 3) :
    notify_loop notif 1 idx (1 <<< idx) a
      = if notif &&& (1 <<< idx) ≠ 0 ∧ idx + 1 ∉ wait_queue a
        then { a with pulses := (idx + 1) :: a.pulses } else a := by
  have hid : index_to_node_id idx = idx + 1 := by
    interval_cases idx <;> rfl
  show (if notif &&& (1 <<< idx) ≠ 0 then
      (if index_to_node_id idx ≠ 0 ∧ queue_contains a (index_to_node_id idx) = 0
        then gnt_pulse_node a (index_to_node_id idx) else a)
    else a) = _
  simp only [hid, queue_contains_eq_zero]
  by_cases h1 : notif &&& (1 <<< idx) ≠ 0
  · rw [if_pos h1]
    by_cases h2 : idx + 1 ∉ wait_queue a
    · rw [if_pos ⟨by omega, h2⟩, if_pos ⟨h1, h2⟩]
      unfold gnt_pulse_node
      rw [if_pos]
      unfold NODE1_ID NODE2_ID NODE3_ID
      omega
    · rw [if_neg (fun h => h2 h.2), if_neg (fun h => h2 h.2)]
  · rw [if_neg h1, if_neg (fun h => h1 h.1)]

theorem mask_shift (idx : Nat) (h : idx < 3) : u8 ((1 <<< idx) <<< 1) = 1 <<< (idx + 1) := by
  interval_cases idx <;> decide

theorem count_single (x m : Nat) : List.count m [x] = if m = x then 1 else 0 := by
  by_cases h : m = x
  · subst h
    rw [if_pos rfl, List.count_singleton_self]
  · rw [if_neg h, List.count_singleton, if_neg]
    intro hx
    exact h (beq_iff_eq.mp hx).symm

/-- The pulses driven by the loop of `arbiter_check_notifications` from index `idx` on. -/
theorem notify_loop_pulses (notif : Nat) (n : Nat) :
    ∀ (idx : Nat) (a : Arbiter), idx + n ≤ 3 →
      ∃ new, (notify_loop notif n idx (1 <<< idx) a).pulses = new ++ a.pulses ∧
        ∀ m, new.count m =
          if idx + 1 ≤ m ∧ m ≤ idx + n ∧ notif &&& (1 <<< (m - 1)) ≠ 0 ∧ m ∉ wait_queue a
          then 1 else 0 := by
  induction n with
  | zero =>
    intro idx a _
    refine ⟨[], rfl, fun m => ?_⟩
    rw [if_neg (by omega)]
    rfl
  | succ n ih =>
    intro idx a h
    rw [notify_loop_succ, mask_shift idx (by omega), notify_loop_one notif idx a (by omega)]
    by_cases hc : notif &&& (1 <<< idx) ≠ 0 ∧ idx + 1 ∉ wait_queue a
    · rw [if_pos hc]
      obtain ⟨new, hp, hcnt⟩ := ih (idx + 1) { a with pulses := (idx + 1) :: a.pulses } (by omega)
      have hcnt' : ∀ m, new.count m =
          if idx + 1 + 1 ≤ m ∧ m ≤ idx + 1 + n ∧ notif &&& (1 <<< (m - 1)) ≠ 0 ∧ m ∉ wait_queue a
          then 1 else 0 := hcnt
      refine ⟨new ++ [idx + 1], by rw [hp]; simp, fun m => ?_⟩
      rw [List.count_append, hcnt' m, count_single]
      by_cases hm : m = idx + 1
      · subst hm
        rw [if_neg (by omega), if_pos rfl,
          if_pos ⟨by omega, by omega, by simpa using hc.1, hc.2⟩]
      · rw [if_neg hm]
        by_cases hr : idx + 1 + 1 ≤ m ∧ m ≤ idx + 1 + n ∧ notif &&& (1 <<< (m - 1)) ≠ 0 ∧
            m ∉ wait_queue a
        · rw [if_pos hr, if_pos ⟨by omega, by omega, hr.2.2⟩]
        · rw [if_neg hr, if_neg]
          intro hx
          exact hr ⟨by omega, by omega, hx.2.2⟩
    · rw [if_neg hc]
      obtain ⟨new, hp, hcnt⟩ := ih (idx + 1) a (by omega)
      refine ⟨new, hp, fun m => ?_⟩
      rw [hcnt m]
      by_cases hm : m = idx + 1
      · subst hm
        rw [if_neg (by omega), if_neg]
        intro hx
        exact hc ⟨by simpa using hx.2.2.1, hx.2.2.2⟩
      · by_cases hr : idx + 1 + 1 ≤ m ∧ m ≤ idx + 1 + n ∧ notif &&& (1 <<< (m - 1)) ≠ 0 ∧
            m ∉ wait_queue a
        · rw [if_pos hr, if_pos ⟨by omega, by omega, hr.2.2⟩]
        · rw [if_neg hr, if_neg]
          intro hx
          exact hr ⟨by omega, by omega, hx.2.2⟩

/-- A call of `mailbox_send_bulk` on a well-formed box that returned 1 met the conditions
of the success branch and has its postcondition. -/
theorem mailbox_send_bulk_success (fuel : Nat) (hfuel : 4 ≤ fuel) (fr fr' : Fram)
    (dest src_id : Nat) (data : Nat → Nat) (total_len : Nat)
    (wf : WellFormed dest (read_desc fr dest))
    (h : mailbox_send_bulk fuel fr dest src_id data total_len = some (fr', 1)) :
    dest < 4 ∧ 1 ≤ total_len ∧ 4 + total_len ≤ (read_desc fr dest).size ∧
    (read_desc fr dest).used + (4 + total_len + 63) / 64
      ≤ mailbox_slot_count (read_desc fr dest) ∧
    SendPost fr fr' dest
      (fun i => if i < 4 then bulk_header_bytes src_id MSG_FLAG_BULK total_len i
        else data (i - 4))
      (4 + total_len) ((4 + total_len + 63) / 64) := by
  have hms := wf.msg_size_eq
  have hsz := wf.size_eq
  have hr := read_desc_range fr dest
  have hsc := wf.slot_count_lt hr
  have hul := wf.used_le
  obtain ⟨fr1, r, he, hiff, -, -⟩ := mailbox_send_bulk_outcome fuel hfuel fr dest src_id data
    total_len (by omega) (by rw [hms]; exact hsz) wf.used_le
  rw [h] at he
  have hr1 : r = 1 := (congrArg Prod.snd (Option.some.inj he)).symm
  have hcond := mt hiff.mpr (by rw [hr1]; exact Nat.one_ne_zero)
  rw [hms] at hcond
  have hd : dest < 4 := by omega
  have hu : (read_desc fr dest).used + (4 + total_len + 63) / 64
      ≤ mailbox_slot_count (read_desc fr dest) := by omega
  obtain ⟨fr2, he2, hp⟩ := mailbox_send_bulk_post fuel (by omega) fr dest src_id data
    total_len hd (by omega) (by omega) wf hu
  rw [h] at he2
  have hfr : fr' = fr2 := congrArg Prod.fst (Option.some.inj he2)
  rw [hfr]
  exact ⟨hd, by omega, by omega, hu, hp⟩

theorem stream_offset_slot (sc t i : Nat) (hsc : 0 < sc) :
    (t * 64 + i) % (sc * 64) = ((t + i / 64) % sc) * 64 + i % 64 := by
  have h1 : t * 64 + i = (t + i / 64) * 64 + i % 64 := by omega
  have h2 := slot_pos_mod sc (t + i / 64)
  have h3 : ((t + i / 64) % sc) * 64 + i % 64 < sc * 64 := by
    have := Nat.mod_lt (t + i / 64) hsc
    have := Nat.mod_lt i (show 0 < 64 by decide)
    have : ((t + i / 64) % sc + 1) * 64 ≤ sc * 64 := Nat.mul_le_mul_right 64 (by omega)
    omega
  have h4 : (t + i / 64) % sc * 64 < sc * 64 := by omega
  rw [h1, Nat.add_mod, ← h2, Nat.mod_eq_of_lt h4,
    Nat.mod_eq_of_lt (show i % 64 < sc * 64 by omega), Nat.mod_eq_of_lt h3]

/-- The frame of a successful send, in terms of slots. -/
theorem SendPost.slots_frame {fr fr' : Fram} {idx : Nat} {st : Nat → Nat} {n k : Nat}
    (wf : WellFormed idx (read_desc fr idx)) (hp : SendPost fr fr' idx st n k)
    (hn : n ≤ 64 * k) (x : Nat) (hx : ¬ InDesc idx x)
    (hs : ¬ InSlots (read_desc fr idx) (read_desc fr idx).tail k x) :
    fr'.mem x = fr.mem x := by
  have hpos := wf.slot_count_pos
  apply hp.frame x
  · intro i hi hxe
    apply hs
    refine ⟨i / 64, by omega, i % 64, by rw [wf.msg_size_eq]; omega, ?_⟩
    rw [hxe, wf.size_eq, stream_offset_slot _ _ _ hpos, wf.msg_size_eq, Nat.add_assoc]
  · unfold InDesc at hx
    omega

/-- The slots a send fills are disjoint from the occupied slots when
`tail = (head + used) mod slot_count`. -/
theorem occupied_not_in_slots {idx : Nat} {d : node_box_desc_t} (wf : WellFormed idx d)
    (ht : d.tail = (d.head + d.used) % mailbox_slot_count d) (k : Nat)
    (hk : d.used + k ≤ mailbox_slot_count d) (u o : Nat) (hu : u < d.used) (ho : o < d.msg_size) :
    ¬ InDesc idx (d.base + ((d.head + u) % mailbox_slot_count d) * d.msg_size + o) ∧
    ¬ InSlots d d.tail k (d.base + ((d.head + u) % mailbox_slot_count d) * d.msg_size + o) := by
  have hpos := wf.slot_count_pos
  have hms := wf.msg_size_eq
  have hsz := wf.size_eq
  have hoff := wf.ring_off_desc
  have hm1 := Nat.mod_lt (d.head + u) hpos
  have hb : ((d.head + u) % mailbox_slot_count d + 1) * 64 ≤ mailbox_slot_count d * 64 :=
    Nat.mul_le_mul_right 64 (by omega)
  constructor
  · unfold InDesc
    rw [hms] at ho ⊢
    unfold DESC_SIZE at hoff ⊢
    omega
  · rintro ⟨j, hj, o', ho', he⟩
    rw [hms] at ho ho' he
    have hslot : (d.head + u) % mailbox_slot_count d = (d.tail + j) % mailbox_slot_count d := by
      omega
    rw [ht, Nat.mod_add_mod, Nat.add_assoc] at hslot
    have := mod_add_inj (show u < mailbox_slot_count d by omega)
      (show d.used + j < mailbox_slot_count d by omega) hslot
    omega

theorem mailbox_send_msg_success (fr : Fram) (dest src_id : Nat) (data : Nat → Nat) (len : Nat)
    (h : (mailbox_send_msg fr dest src_id data len).2 = 1) :
    dest < 4 ∧ 1 ≤ len ∧ len ≤ 60 ∧
    (read_desc fr dest).used < mailbox_slot_count (read_desc fr dest) := by
  have hrd : desc_of_bytes
      (fram_read_bytes fr (mailbox_node_desc_addr dest) (fun _ => 0) DESC_SIZE).2
      = read_desc fr dest := rfl
  unfold mailbox_send_msg at h
  simp only [MAILBOX_NUM_NODES, MSG_SLOT_PAYLOAD_MAX, MSG_SLOT_SIZE, hrd] at h
  by_cases h1 : dest ≥ 4
  · rw [if_pos h1] at h; exact absurd h Nat.zero_ne_one
  rw [if_neg h1] at h
  by_cases h2 : len = 0
  · rw [if_pos h2] at h; exact absurd h Nat.zero_ne_one
  rw [if_neg h2] at h
  by_cases h3 : len > 64 - 4
  · rw [if_pos h3] at h; exact absurd h Nat.zero_ne_one
  rw [if_neg h3] at h
  by_cases h4 : mailbox_slot_count (read_desc fr dest) = 0
  · rw [if_pos h4] at h; exact absurd h Nat.zero_ne_one
  rw [if_neg h4] at h
  by_cases h5 : (read_desc fr dest).used ≥ mailbox_slot_count (read_desc fr dest)
  · rw [if_pos h5] at h; exact absurd h Nat.zero_ne_one
  omega

theorem process_req_body_eq (events bit : Nat) (a : Arbiter) (hbit : bit < 3) :
    process_req_body events bit a
      = if events &&& (1 <<< bit) ≠ 0 then classify_edge a (bit + 1) else a := by
  by_cases h : events &&& (1 <<< bit) ≠ 0
  · rw [if_pos h]
    exact process_req_body_set events (bit + 1) a (by omega) (by omega) h
  · rw [if_neg h]
    exact process_req_body_clear events bit a (by omega)

theorem process_req_loop_eq (events : Nat) (a : Arbiter) :
    process_req_loop events NUM_NODES 0 a = classify_each a (pending_nodes events) := by
  simp only [NUM_NODES, process_req_loop, Nat.zero_add, Nat.reduceAdd]
  rw [process_req_body_eq _ 0 _ (by decide), process_req_body_eq _ 1 _ (by decide),
    process_req_body_eq _ 2 _ (by decide)]
  unfold classify_each pending_nodes
  by_cases h0 : events &&& (1 <<< 0) ≠ 0 <;> by_cases h1 : events &&& (1 <<< 1) ≠ 0 <;>
    by_cases h2 : events &&& (1 <<< 2) ≠ 0 <;>
    simp only [ne_eq, List.filter, Nat.sub_self, Nat.reduceSub, h0, h1, h2, decide_True, decide_False, decide_not, Bool.not_true, Bool.not_false,
      List.foldl, if_true, if_false, not_false_eq_true, not_true_eq_false, Nat.reduceAdd,
      Nat.zero_add]

theorem or_mask_comm (x p q : Nat) : u8 (u8 (x ||| p) ||| q) = u8 (u8 (x ||| q) ||| p) := by
  unfold u8
  apply Nat.eq_of_testBit_eq
  intro i
  simp only [Nat.testBit_mod_two_pow, Nat.testBit_or, show 256 = 2 ^ 8 by rfl]
  cases decide (i < 8) <;> cases x.testBit i <;> cases p.testBit i <;> cases q.testBit i <;> rfl

theorem req_edge_comm (a : Arbiter) (n m : Nat) :
    req_edge (req_edge a n) m = req_edge (req_edge a m) n := by
  unfold req_edge PORT1_ISR PORT3_ISR
  by_cases hn1 : n = 1 <;> by_cases hn2 : n = 2 <;> by_cases hn3 : n = 3 <;>
    by_cases hm1 : m = 1 <;> by_cases hm2 : m = 2 <;> by_cases hm3 : m = 3 <;>
    first
    | omega
    | (simp [hn1, hn2, hn3, hm1, hm2, hm3]; done)
    | (simp [hn1, hn2, hn3, hm1, hm2, hm3]; exact or_mask_comm _ _ _)

theorem box_base_cases (j : Nat) (h : j < 4) :
    mailbox_node_box_base j = 0x1000 + 0x5000 * j := by
  interval_cases j <;> decide

/-- An operation on box `d` whose ring lies in the data region of the box changes no
byte outside the region of the box. -/
theorem OpPost.outside_box {fr fr' : Fram} {d : Nat} (hd : d < 4) (hp : OpPost fr fr' d)
    (hring : RingInBox fr d) (x : Nat) (hx : ¬ InBox d x) : fr'.mem x = fr.mem x := by
  obtain ⟨h1, h2⟩ := data_base_cases d hd
  have h3 := box_base_cases d hd
  unfold InBox NODE_BOX_SIZE at hx
  unfold RingInBox NODE_BOX_DATA_SIZE at hring
  apply hp.frame
  · rw [h1]; unfold DESC_SIZE; omega
  · omega

/-- What is left alone when no byte outside box `d` changes: the other descriptors and
the mail-pending byte. -/
theorem outside_box_others {fr fr' : Fram} {d : Nat} (hd : d < 4)
    (h : ∀ x, ¬ InBox d x → fr'.mem x = fr.mem x) :
    (∀ j, j < 4 → j ≠ d → read_desc fr' j = read_desc fr j) ∧ notif_byte fr' = notif_byte fr := by
  have h3 := box_base_cases d hd
  constructor
  · intro j hj hne
    obtain ⟨h1, -⟩ := data_base_cases j hj
    apply read_desc_congr
    intro i hi
    apply h
    unfold InBox NODE_BOX_SIZE
    rw [h1, h3]
    omega
  · unfold notif_byte
    rw [h]
    unfold InBox NODE_BOX_SIZE FRAM_NOTIF_BOX_ADDR
    rw [h3]
    omega

/-- A send that returned 1 on a box holding `ms0` leaves the box holding `ms0` and the
message. -/
theorem Queue.send_one {fr fr1 : Fram} {idx : Nat} {ms0 : List Msg} (q : Queue fr idx ms0)
    (fuel : Nat) (hfuel : 4 ≤ fuel) (m : Msg) (hv : m.Valid)
    (h : MicroSymphony.send_one fuel fr idx m = some (fr1, 1)) :
    Queue fr1 idx (ms0 ++ [m]) := by
  unfold MicroSymphony.send_one at h
  cases hb : m.bulk with
  | false =>
    rw [hb] at h
    simp only [Bool.false_eq_true, if_false] at h
    have he := Option.some.inj h
    have h1 : (mailbox_send_msg fr idx m.src_id m.data m.len).2 = 1 := congrArg Prod.snd he
    have h2 : (mailbox_send_msg fr idx m.src_id m.data m.len).1 = fr1 := congrArg Prod.fst he
    obtain ⟨hd, -, -, hu⟩ := mailbox_send_msg_success fr idx m.src_id m.data m.len h1
    obtain ⟨-, q1, -⟩ := q.send_msg hd m hb hv hu
    rw [h2] at q1
    exact q1
  | true =>
    rw [hb] at h
    simp only [if_true] at h
    obtain ⟨hd, -, -, hu, -⟩ := mailbox_send_bulk_success fuel hfuel fr fr1 idx m.src_id m.data
      m.len q.wf h
    obtain ⟨fr', h', q1, -⟩ := q.send_bulk fuel (by omega) hd m hb hv
      (by simp only [Msg.slots, hb, if_true]; exact hu)
    rw [h] at h'
    have hfr : fr1 = fr' := congrArg Prod.fst (Option.some.inj h')
    rw [hfr]
    exact q1

/-- A run of sends that all returned 1 leaves the box holding the messages in send
order. -/
theorem send_seq_queue (fuel : Nat) (hfuel : 4 ≤ fuel) (idx : Nat) (msgs : List Msg) :
    ∀ (fr fr1 : Fram) (rets : List Nat) (ms0 : List Msg), Queue fr idx ms0 →
      (∀ m, m ∈ msgs → m.Valid) →
      send_seq fuel fr idx msgs = some (fr1, rets) → (∀ r, r ∈ rets → r = 1) →
      Queue fr1 idx (ms0 ++ msgs) ∧ rets.length = msgs.length := by
  induction msgs with
  | nil =>
    intro fr fr1 rets ms0 q _ h _
    simp only [send_seq] at h
    have he := Option.some.inj h
    have h1 : fr = fr1 := congrArg Prod.fst he
    have h2 : [] = rets := congrArg Prod.snd he
    rw [← h1, ← h2, List.append_nil]
    exact ⟨q, rfl⟩
  | cons m ms ih =>
    intro fr fr1 rets ms0 q hv h hr
    rw [send_seq] at h
    cases h1 : send_one fuel fr idx m with
    | none => rw [h1] at h; cases h
    | some p =>
      obtain ⟨fra, r⟩ := p
      rw [h1] at h
      simp only at h
      cases h2 : send_seq fuel fra idx ms with
      | none => rw [h2] at h; cases h
      | some p2 =>
        obtain ⟨frb, rs⟩ := p2
        rw [h2] at h
        simp only at h
        have he := Option.some.inj h
        have e1 : frb = fr1 := congrArg Prod.fst he
        have e2 : r :: rs = rets := congrArg Prod.snd he
        have hr1 : r = 1 := hr r (by rw [← e2]; exact List.mem_cons_self _ _)
        rw [hr1] at h1
        have q1 := q.send_one fuel hfuel m (hv m (List.mem_cons_self _ _)) h1
        obtain ⟨q2, hl⟩ := ih fra frb rs (ms0 ++ [m]) q1
          (fun a ha => hv a (List.mem_cons_of_mem _ ha)) h2
          (fun x hx => hr x (by rw [← e2]; exact List.mem_cons_of_mem _ hx))
        rw [← e1, ← e2]
        refine ⟨by simpa using q2, by simp [hl]⟩

/-- A pending Request edge of a node that is not the holder leaves the node queued
after the drain. -/
theorem drain_pending_mem {a : Arbiter} (inv : ArbInv a) (n : Nat) (h1 : 1 ≤ n) (h3 : n ≤ 3)
    (hset : a.g_req_event_mask &&& (1 <<< (n - 1)) ≠ 0) (hh : a.g_lock_holder ≠ n) :
    n ∈ wait_queue (arbiter_process_req_events a) := by
  unfold arbiter_process_req_events
  have hz : a.g_req_event_mask ≠ 0 := by
    intro h
    rw [h, Nat.zero_and] at hset
    exact hset rfl
  rw [if_neg hz]
  exact process_loop_mem (a := { a with g_req_event_mask := 0 }) (inv.of_same rfl rfl rfl)
    a.g_req_event_mask NUM_NODES 0 (n - 1) n (Nat.zero_le _) (by unfold NUM_NODES; omega) hset
    (index_to_node_id_pred n h1 h3) (by omega) hh

/-- `mailbox_recv_msg` on a non-empty box delivers the oldest message and moves `head`
and `used` by its slots. -/
theorem Queue.recv_msg_post {fr : Fram} {idx : Nat} {m : Msg} {ms : List Msg}
    (q : Queue fr idx (m :: ms)) (fuel : Nat) (hfuel : 3 ≤ fuel) (hd : idx < 4)
    (s0 l0 : Nat) (out0 : Nat → Nat) :
    ∃ fr' out, mailbox_recv_msg fuel fr idx s0 l0 out0 = some (fr', out) ∧
      Delivered out m out0 ∧ RecvPost fr fr' idx m.slots := by
  have hv := q.valid m (List.mem_cons_self _ _)
  have hu : m.slots ≤ (read_desc fr idx).used := by
    rw [q.used_eq]; exact total_slots_pos_le
  have hs := q.stored.1
  cases hb : m.bulk with
  | false =>
    obtain ⟨fr', out, h1, h2, h3⟩ := mailbox_recv_msg_normal fuel fr idx s0 l0 out0 m hd q.wf
      (by have := hv.slots_pos; omega) hb hv hs
    have hslots : m.slots = 1 := by simp [Msg.slots, hb]
    rw [← hslots] at h3
    exact ⟨fr', out, h1, h2, h3⟩
  | true =>
    exact mailbox_recv_msg_bulk fuel hfuel fr idx s0 l0 out0 m hd q.wf hu hb hv hs

/-- A bulk send to a box that holds the messages `ms`, followed by a receive: both
succeed, the receive delivers the oldest message of `ms ++ [m]`, and the final
descriptor is given by the first one and the slots of the two messages. -/
theorem Queue.send_bulk_recv {fr : Fram} {d : Nat} {ms : List Msg} (q : Queue fr d ms)
    (fuel : Nat) (hfuel : 3 ≤ fuel) (hd : d < 4) (m : Msg) (hb : m.bulk = true) (hv : m.Valid)
    (hroom : (read_desc fr d).used + m.slots ≤ mailbox_slot_count (read_desc fr d))
    (m0 : Msg) (rest : List Msg) (hq : ms ++ [m] = m0 :: rest) (s0 l0 : Nat)
    (out0 : Nat → Nat) :
    ∃ fr1 fr2 out, mailbox_send_bulk fuel fr d m.src_id m.data m.len = some (fr1, 1) ∧
      mailbox_recv_msg fuel fr1 d s0 l0 out0 = some (fr2, out) ∧
      Delivered out m0 out0 ∧
      read_desc fr2 d = { read_desc fr d with
        head := ((read_desc fr d).head + m0.slots) % mailbox_slot_count (read_desc fr d)
        tail := ((read_desc fr d).tail + m.slots) % mailbox_slot_count (read_desc fr d)
        used := (read_desc fr d).used + m.slots - m0.slots } := by
  have hlen : m.len ≤ 65535 := by have := hv.len_le; rw [hb] at this; simpa using this
  have hslots : m.slots = (4 + m.len + 63) / 64 := by simp [Msg.slots, hb]
  obtain ⟨fr1, h1, q1, -⟩ := q.send_bulk fuel hfuel hd m hb hv hroom
  obtain ⟨fr1', h1', hp⟩ := mailbox_send_bulk_post fuel hfuel fr d m.src_id m.data m.len hd
    hv.len_pos hlen q.wf (by rw [← hslots]; exact hroom)
  rw [h1] at h1'
  have hfr : fr1 = fr1' := congrArg Prod.fst (Option.some.inj h1')
  rw [← hfr, ← hslots] at hp
  rw [hq] at q1
  obtain ⟨fr2, out, h2, hdel, hrp⟩ := q1.recv_msg_post fuel hfuel hd s0 l0 out0
  refine ⟨fr1, fr2, out, h1, h2, hdel, ?_⟩
  have hd2 := hrp.desc
  rw [hp.slot_count_eq] at hd2
  rw [hd2, hp.desc]

/-- Without a handler running, `queue_pop_irq` is `queue_pop`. -/
theorem queue_pop_irq_id (a : Arbiter) (h : a.g_q_len < 256) :
    queue_pop_irq id a = queue_pop a := by
  unfold queue_pop_irq queue_pop
  by_cases h0 : a.g_q_len = 0
  · rw [if_pos h0, if_pos h0]
  · rw [if_neg h0, if_neg h0]
    simp only [id]
    have : u8 (a.g_q_len + 256 - 1) = a.g_q_len - 1 := by
      unfold u8; omega
    rw [this]

/-- Without a handler running, `queue_push_irq` is `queue_push`. -/
theorem queue_push_irq_id (a : Arbiter) (n : Nat) : queue_push_irq id a n = queue_push a n := rfl

/-- Without a handler running, the scheduling statement is `main_schedule`. -/
theorem main_schedule_irq_id (a : Arbiter) (h : a.g_q_len < 256) :
    main_schedule_irq id a = main_schedule a := by
  unfold main_schedule_irq main_schedule arbiter_schedule_irq arbiter_schedule
  rw [queue_pop_irq_id { a with g_need_schedule := 0 } h]

theorem process_req_loop_irq_id (k events : Nat) (n bit : Nat) (a : Arbiter) :
    process_req_loop_irq id k events n bit a = process_req_loop events n bit a := by
  induction n generalizing bit a with
  | zero => rfl
  | succ n ih =>
    unfold process_req_loop_irq process_req_loop
    rw [ih]
    split <;> rfl

/-- Without a handler running, the drain is `arbiter_process_req_events`. -/
theorem arbiter_process_req_events_irq_id (k : Nat) (a : Arbiter) :
    arbiter_process_req_events_irq id k a = arbiter_process_req_events a := by
  unfold arbiter_process_req_events_irq arbiter_process_req_events
  simp only [process_req_loop_irq_id]

theorem CodeReachable.of_reachable {a : Arbiter} (h : Reachable a) : CodeReachable a := by
  induction h with
  | init => exact CodeReachable.init
  | step _ hs ih => exact ih.step (CodeStep.whole hs)

theorem CodeReachable.request {a : Arbiter} (h : CodeReachable a) (n : Nat) :
    CodeReachable (req_edge a n) := by
  unfold MicroSymphony.req_edge
  split
  · exact h.step (CodeStep.whole (ArbiterStep.port1 _))
  · split
    · exact h.step (CodeStep.whole (ArbiterStep.port1 _))
    · split
      · exact h.step (CodeStep.whole (ArbiterStep.port3 _))
      · exact h

theorem race_pop_start_reachable : Reachable race_pop_start :=
  ((Reachable.init.req_edge 1).req_edge 2).step ArbiterStep.drain

theorem race_pop_end_reachable : CodeReachable race_pop_end :=
  (CodeReachable.of_reachable race_pop_start_reachable).step (CodeStep.schedule_port3 0x02)

theorem race_push_start_reachable : Reachable race_push_start :=
  ((((Reachable.init.req_edge 1).step ArbiterStep.drain).step ArbiterStep.schedule).req_edge
    2).step ArbiterStep.drain |>.req_edge 3

/-- From a state that satisfies the arbiter invariant, when the Request edge of a node
`n` in 1..3 that is neither the lock holder nor in the wait queue is processed with no
interrupt taken inside `queue_push`, `g_q_len < NUM_NODES` holds, `queue_push` appends `n` at the end of
the wait queue, and `n` is in the wait queue after the edge is classified; and after a
whole drain from such a state, if the edge of `n` was pending, `n` is in the wait
queue. -/
theorem ArbInv.request_queued (a : Arbiter) (inv : ArbInv a) (n : Nat) (h1 : 1 ≤ n)
    (h3 : n ≤ 3) (hh : a.g_lock_holder ≠ n) :
    (n ∉ wait_queue a →
      a.g_q_len < NUM_NODES ∧
      wait_queue (queue_push a n) = wait_queue a ++ [n] ∧
      wait_queue (classify_edge a n) = wait_queue a ++ [n]) ∧
    n ∈ wait_queue (classify_edge a n) ∧
    (∀ events, events &&& (1 <<< (n - 1)) ≠ 0 →
      n ∈ wait_queue (process_req_body events (n - 1) a)) ∧
    (a.g_req_event_mask &&& (1 <<< (n - 1)) ≠ 0 →
      n ∈ wait_queue (arbiter_process_req_events a)) := by
  refine ⟨fun hq => ?_, classify_edge_mem inv n h1 h3 hh, fun events hset => ?_,
    fun hset => drain_pending_mem inv n h1 h3 hset hh⟩
  · have hroom := inv.room n h1 h3 hq
    refine ⟨hroom, ?_, ?_⟩
    · rw [wait_queue_push, if_neg]
      intro h
      rcases h with h | h
      · omega
      · exact hq h
    · rw [(classify_edge_request inv n h1 h3 hh).2.1, if_neg hq]
  · rw [process_req_body_set events n a h1 h3 hset]
    exact classify_edge_mem inv n h1 h3 hh

/-! ## Claims -/

/-- C1 (normal round trip): for a destination `d < 4`, any `src_id`, and a payload of
`1 ≤ len ≤ 60` bytes, on a store whose box `d` is well formed and empty
(`used = 0`, `head = tail`), `mailbox_send_msg` returns 1, and the
`mailbox_recv_msg` that follows returns 1 with `src_id_out = src_id`,
`len_out = len`, `data_out[0..len) = data[0..len)`, leaving `used = 0`. -/
theorem C1_send_recv_round_trip (fuel : Nat) (fr : Fram) (d src_id : Nat) (data : Nat → Nat)
    (len s0 l0 : Nat) (out0 : Nat → Nat)
    (hd : d < 4) (hsrc : src_id < 256) (hlen1 : 1 ≤ len) (hlen2 : len ≤ 60)
    (hdata : ∀ i, i < len → data i < 256)
    (wf : WellFormed d (read_desc fr d))
    (hused : (read_desc fr d).used = 0)
    (hht : (read_desc fr d).head = (read_desc fr d).tail) :
    (mailbox_send_msg fr d src_id data len).2 = 1 ∧
    ∃ fr' out,
      mailbox_recv_msg fuel (mailbox_send_msg fr d src_id data len).1 d s0 l0 out0
        = some (fr', out) ∧
      out.ret = 1 ∧ out.src_id_out = src_id ∧ out.len_out = len ∧
      (∀ i, i < len → out.data_out i = data i) ∧
      (read_desc fr' d).used = 0 := by
  have q0 := Queue.of_empty wf hused hht
  have hv : Msg.Valid ⟨false, src_id, len, data⟩ := ⟨hsrc, hlen1, hlen2, hdata⟩
  obtain ⟨h1, q1, -⟩ := q0.send_msg hd ⟨false, src_id, len, data⟩ rfl hv
    (by rw [hused]; exact wf.slot_count_pos)
  obtain ⟨fr', out, h2, hdel, q2⟩ := q1.recv_msg fuel (fun h => by cases h) hd s0 l0 out0
  exact ⟨h1, fr', out, h2, hdel.ret, hdel.src, hdel.len, hdel.data, q2.empty_head_tail.1⟩

/-- Witness for C1: box 1 of a freshly initialised layout, sender 2, payload `5, 6, 7`. -/
theorem C1_send_recv_round_trip_witness :
    (mailbox_send_msg (mailbox_init_layout ⟨fun _ => 0, [], []⟩) 1 2 (fun i => i + 5) 3).2 = 1 ∧
    ∃ fr' out,
      mailbox_recv_msg 0
        (mailbox_send_msg (mailbox_init_layout ⟨fun _ => 0, [], []⟩) 1 2 (fun i => i + 5) 3).1
        1 0 0 (fun _ => 0) = some (fr', out) ∧
      out.ret = 1 ∧ out.src_id_out = 2 ∧ out.len_out = 3 ∧
      (∀ i, i < 3 → out.data_out i = (fun i => i + 5) i) ∧
      (read_desc fr' 1).used = 0 :=
  C1_send_recv_round_trip 0 (mailbox_init_layout ⟨fun _ => 0, [], []⟩) 1 2 (fun i => i + 5) 3 0 0
    (fun _ => 0) (by decide) (by decide) (by decide) (by decide)
    (fun i hi => by show i + 5 < 256; omega)
    (init_queue _ 1 (by decide)).wf (init_queue _ 1 (by decide)).empty_head_tail.1
    (init_queue _ 1 (by decide)).empty_head_tail.2

/-- C2 (mailbox FIFO): `k ≤ slot_count` valid normal messages sent with
`mailbox_send_msg` to one well-formed empty box all succeed; the next `k` calls of
`mailbox_recv_msg` return exactly these messages in send order, and a further
call returns 0 and leaves its outputs alone. -/
theorem C2_mailbox_fifo (fuel : Nat) (fr : Fram) (d : Nat) (msgs : List Msg) (s0 l0 : Nat)
    (out0 : Nat → Nat)
    (hd : d < 4)
    (hmsgs : ∀ m, m ∈ msgs → m.bulk = false ∧ m.Valid)
    (hk : msgs.length ≤ mailbox_slot_count (read_desc fr d))
    (wf : WellFormed d (read_desc fr d))
    (hused : (read_desc fr d).used = 0)
    (hht : (read_desc fr d).head = (read_desc fr d).tail) :
    (send_all fr d msgs).2 = List.replicate msgs.length 1 ∧
    ∃ fr' outs,
      recv_n fuel d msgs.length (send_all fr d msgs).1 s0 l0 out0 = some (fr', outs) ∧
      List.Forall₂ Returned outs msgs ∧
      ∀ s l o, ∃ fr'', mailbox_recv_msg fuel fr' d s l o = some (fr'', ⟨0, s, l, o⟩) := by
  have q0 := Queue.of_empty wf hused hht
  obtain ⟨h1, q1⟩ := send_all_queue d hd msgs fr [] q0 hmsgs (by rw [hused]; omega)
  rw [List.nil_append] at q1
  obtain ⟨fr', outs, h2, hall, q2⟩ := recv_n_queue fuel d hd msgs _ s0 l0 out0 q1
    (fun m hm hb => by rw [(hmsgs m hm).1] at hb; cases hb)
  refine ⟨h1, fr', outs, h2, hall, fun s l o => ?_⟩
  obtain ⟨fr'', h3, -, -⟩ := mailbox_recv_msg_empty fuel fr' d s l o q2.empty_head_tail.1
  exact ⟨fr'', h3⟩

/-- Witness for C2: two messages from senders 1 and 3 to box 0 of a fresh layout. -/
theorem C2_mailbox_fifo_witness :
    (send_all (mailbox_init_layout ⟨fun _ => 0, [], []⟩) 0
      [⟨false, 1, 2, fun i => i⟩, ⟨false, 3, 1, fun _ => 9⟩]).2 = List.replicate 2 1 ∧
    ∃ fr' outs,
      recv_n 0 0 2 (send_all (mailbox_init_layout ⟨fun _ => 0, [], []⟩) 0
        [⟨false, 1, 2, fun i => i⟩, ⟨false, 3, 1, fun _ => 9⟩]).1 0 0 (fun _ => 0)
        = some (fr', outs) ∧
      List.Forall₂ Returned outs [⟨false, 1, 2, fun i => i⟩, ⟨false, 3, 1, fun _ => 9⟩] ∧
      ∀ s l o, ∃ fr'', mailbox_recv_msg 0 fr' 0 s l o = some (fr'', ⟨0, s, l, o⟩) :=
  C2_mailbox_fifo 0 (mailbox_init_layout ⟨fun _ => 0, [], []⟩) 0
    [⟨false, 1, 2, fun i => i⟩, ⟨false, 3, 1, fun _ => 9⟩] 0 0 (fun _ => 0) (by decide)
    (by
      intro m hm
      simp only [List.mem_cons, List.mem_singleton, List.not_mem_nil, or_false] at hm
      rcases hm with rfl | rfl
      · exact ⟨rfl, by decide, by decide, by decide, fun i hi => by simp only at hi ⊢; omega⟩
      · exact ⟨rfl, by decide, by decide, by decide, fun i hi => by show 9 < 256; decide⟩)
    (by rw [read_desc_init _ 0 (by decide)]; decide)
    (init_queue _ 0 (by decide)).wf (init_queue _ 0 (by decide)).empty_head_tail.1
    (init_queue _ 0 (by decide)).empty_head_tail.2

/-- C3 (bulk round trip): on a well-formed empty box with `head = tail = t` for any
slot index `t`, for `1 ≤ total_len` and `4 + total_len ≤ size`, `mailbox_send_bulk`
returns 1 and the following `mailbox_recv_msg` returns 1 with the sender's
`src_id`, `len_out = total_len` and the original payload, leaving `used = 0` and
`head = tail`. -/
theorem C3_bulk_round_trip (fuel : Nat) (hfuel : 3 ≤ fuel) (fr : Fram) (d src_id : Nat)
    (data : Nat → Nat) (total_len s0 l0 : Nat) (out0 : Nat → Nat)
    (hd : d < 4) (hsrc : src_id < 256) (hlen1 : 1 ≤ total_len)
    (hlen2 : 4 + total_len ≤ (read_desc fr d).size)
    (hdata : ∀ i, i < total_len → data i < 256)
    (wf : WellFormed d (read_desc fr d))
    (hused : (read_desc fr d).used = 0)
    (hht : (read_desc fr d).head = (read_desc fr d).tail) :
    ∃ fr1, mailbox_send_bulk fuel fr d src_id data total_len = some (fr1, 1) ∧
    ∃ fr2 out, mailbox_recv_msg fuel fr1 d s0 l0 out0 = some (fr2, out) ∧
      out.ret = 1 ∧ out.src_id_out = src_id ∧ out.len_out = total_len ∧
      (∀ i, i < total_len → out.data_out i = data i) ∧
      (read_desc fr2 d).used = 0 ∧ (read_desc fr2 d).head = (read_desc fr2 d).tail := by
  have q0 := Queue.of_empty wf hused hht
  have hr := read_desc_range fr d
  have hsz := wf.size_eq
  have hrs := hr.size
  have hv : Msg.Valid ⟨true, src_id, total_len, data⟩ :=
    ⟨hsrc, hlen1, by simp only [if_true]; omega, hdata⟩
  obtain ⟨fr1, h1, q1, -⟩ := q0.send_bulk fuel hfuel hd ⟨true, src_id, total_len, data⟩ rfl hv
    (by simp only [Msg.slots, if_true]; omega)
  obtain ⟨fr2, out, h2, hdel, q2⟩ := q1.recv_msg fuel (fun _ => hfuel) hd s0 l0 out0
  exact ⟨fr1, h1, fr2, out, h2, hdel.ret, hdel.src, hdel.len, hdel.data, q2.empty_head_tail.1,
    q2.empty_head_tail.2⟩

/-- Witness for C3: 300 bytes `0xEE` to box 2 of a fresh layout. -/
theorem C3_bulk_round_trip_witness :
    ∃ fr1, mailbox_send_bulk 3 (mailbox_init_layout ⟨fun _ => 0, [], []⟩) 2 1 (fun _ => 0xEE) 300
      = some (fr1, 1) ∧
    ∃ fr2 out, mailbox_recv_msg 3 fr1 2 0 0 (fun _ => 0) = some (fr2, out) ∧
      out.ret = 1 ∧ out.src_id_out = 1 ∧ out.len_out = 300 ∧
      (∀ i, i < 300 → out.data_out i = (fun _ => 0xEE) i) ∧
      (read_desc fr2 2).used = 0 ∧ (read_desc fr2 2).head = (read_desc fr2 2).tail :=
  C3_bulk_round_trip 3 (by decide) (mailbox_init_layout ⟨fun _ => 0, [], []⟩) 2 1
    (fun _ => 0xEE) 300 0 0 (fun _ => 0) (by decide) (by decide) (by decide)
    (by rw [read_desc_init _ 2 (by decide)]; decide) (fun i _ => by show 238 < 256; decide)
    (init_queue _ 2 (by decide)).wf (init_queue _ 2 (by decide)).empty_head_tail.1
    (init_queue _ 2 (by decide)).empty_head_tail.2

/-- C8 (`mailbox_send_msg` fails exactly and atomically): when the destination
descriptor has `used ≤ slot_count`, the call returns 0 if and only if
`dest_index ≥ 4`, `len = 0`, `len > 60` or `used = slot_count`; a call that returns 0
issues no write command and leaves every byte of the store as it was; every other
call returns 1. -/
theorem C8_send_msg_failure_exact (fr : Fram) (dest src_id : Nat) (data : Nat → Nat) (len : Nat)
    (hwf : (read_desc fr dest).used ≤ mailbox_slot_count (read_desc fr dest)) :
    ((mailbox_send_msg fr dest src_id data len).2 = 0 ↔
      (4 ≤ dest ∨ len = 0 ∨ 60 < len ∨
        (read_desc fr dest).used = mailbox_slot_count (read_desc fr dest))) ∧
    ((mailbox_send_msg fr dest src_id data len).2 = 0 →
      (mailbox_send_msg fr dest src_id data len).1.mem = fr.mem ∧
      (mailbox_send_msg fr dest src_id data len).1.wlog = fr.wlog) ∧
    ((mailbox_send_msg fr dest src_id data len).2 ≠ 0 →
      (mailbox_send_msg fr dest src_id data len).2 = 1) := by
  have hrd : desc_of_bytes
      (fram_read_bytes fr (mailbox_node_desc_addr dest) (fun _ => 0) DESC_SIZE).2
      = read_desc fr dest := rfl
  unfold mailbox_send_msg
  simp only [MAILBOX_NUM_NODES, MSG_SLOT_PAYLOAD_MAX, MSG_SLOT_SIZE, hrd]
  by_cases h1 : dest ≥ 4
  · rw [if_pos h1]; simp; omega
  rw [if_neg h1]
  by_cases h2 : len = 0
  · rw [if_pos h2]; simp [h2]
  rw [if_neg h2]
  by_cases h3 : len > 64 - 4
  · rw [if_pos h3]; simp; omega
  rw [if_neg h3]
  by_cases h4 : mailbox_slot_count (read_desc fr dest) = 0
  · rw [if_pos h4]
    simp only [fram_read_bytes_mem, fram_read_bytes_wlog, true_iff, and_self, implies_true,
      ne_eq, not_true_eq_false, false_implies, and_true]
    omega
  rw [if_neg h4]
  by_cases h5 : (read_desc fr dest).used ≥ mailbox_slot_count (read_desc fr dest)
  · rw [if_pos h5]
    simp only [fram_read_bytes_mem, fram_read_bytes_wlog, true_iff, and_self, implies_true,
      ne_eq, not_true_eq_false, false_implies, and_true]
    omega
  rw [if_neg h5]
  simp only [one_ne_zero, false_iff, false_implies, ne_eq, not_false_eq_true, implies_true,
    and_true, true_and]
  omega

/-- Witness for C8: a message of 61 bytes to box 0 of a fresh layout. -/
theorem C8_send_msg_failure_exact_witness :
    ((mailbox_send_msg (mailbox_init_layout ⟨fun _ => 0, [], []⟩) 0 1 (fun _ => 0) 61).2 = 0 ↔
      (4 ≤ 0 ∨ 61 = 0 ∨ 60 < 61 ∨
        (read_desc (mailbox_init_layout ⟨fun _ => 0, [], []⟩) 0).used
          = mailbox_slot_count (read_desc (mailbox_init_layout ⟨fun _ => 0, [], []⟩) 0))) ∧
    ((mailbox_send_msg (mailbox_init_layout ⟨fun _ => 0, [], []⟩) 0 1 (fun _ => 0) 61).2 = 0 →
      (mailbox_send_msg (mailbox_init_layout ⟨fun _ => 0, [], []⟩) 0 1 (fun _ => 0) 61).1.mem
        = (mailbox_init_layout ⟨fun _ => 0, [], []⟩).mem ∧
      (mailbox_send_msg (mailbox_init_layout ⟨fun _ => 0, [], []⟩) 0 1 (fun _ => 0) 61).1.wlog
        = (mailbox_init_layout ⟨fun _ => 0, [], []⟩).wlog) ∧
    ((mailbox_send_msg (mailbox_init_layout ⟨fun _ => 0, [], []⟩) 0 1 (fun _ => 0) 61).2 ≠ 0 →
      (mailbox_send_msg (mailbox_init_layout ⟨fun _ => 0, [], []⟩) 0 1 (fun _ => 0) 61).2 = 1) :=
  C8_send_msg_failure_exact (mailbox_init_layout ⟨fun _ => 0, [], []⟩) 0 1 (fun _ => 0) 61
    (init_queue _ 0 (by decide)).wf.used_le

/-- C9 (bulk capacity boundary): on a box as `mailbox_init_layout` leaves it
(`size = 20224`, `msg_size = 64`, `slot_count = 316`, empty), `mailbox_send_bulk` with
`total_len = 20220` (so `4 + total_len = size`) returns 1 and leaves
`used = slot_count = 316` with `tail` unchanged, while `total_len = 20221` returns 0. -/
theorem C9_bulk_capacity_boundary (fuel : Nat) (hfuel : 4 ≤ fuel) (fr : Fram) (d src_id : Nat)
    (data : Nat → Nat) (hd : d < 4) :
    ((read_desc (mailbox_init_layout fr) d).size = 20224 ∧
      (read_desc (mailbox_init_layout fr) d).msg_size = 64 ∧
      mailbox_slot_count (read_desc (mailbox_init_layout fr) d) = 316 ∧
      (read_desc (mailbox_init_layout fr) d).used = 0) ∧
    (∃ fr1, mailbox_send_bulk fuel (mailbox_init_layout fr) d src_id data 20220 = some (fr1, 1) ∧
      (read_desc fr1 d).used = 316 ∧ mailbox_slot_count (read_desc fr1 d) = 316 ∧
      (read_desc fr1 d).tail = (read_desc (mailbox_init_layout fr) d).tail) ∧
    (∃ fr2, mailbox_send_bulk fuel (mailbox_init_layout fr) d src_id data 20221
      = some (fr2, 0)) := by
  have q := init_queue fr d hd
  have hdesc := read_desc_init fr d hd
  have hsize : (read_desc (mailbox_init_layout fr) d).size = 20224 := by rw [hdesc]
  have hmsz : (read_desc (mailbox_init_layout fr) d).msg_size = 64 := by rw [hdesc]
  have hused : (read_desc (mailbox_init_layout fr) d).used = 0 := by rw [hdesc]
  have htail : (read_desc (mailbox_init_layout fr) d).tail = 0 := by rw [hdesc]
  have hsc : mailbox_slot_count (read_desc (mailbox_init_layout fr) d) = 316 := by
    unfold mailbox_slot_count
    simp only [hmsz, hsize]
    decide
  refine ⟨⟨hsize, hmsz, hsc, hused⟩, ?_, ?_⟩
  · obtain ⟨fr1, h1, hp⟩ := mailbox_send_bulk_post fuel (by omega) (mailbox_init_layout fr) d
      src_id data 20220 hd (by decide) (by decide) q.wf (by rw [hsc, hused])
    have hd1 := hp.desc
    rw [hsc, hused, htail] at hd1
    refine ⟨fr1, h1, ?_, ?_, ?_⟩
    · rw [hd1]
    · rw [hp.slot_count_eq, hsc]
    · rw [hd1, htail]
  · obtain ⟨fr2, r, h1, hiff, -, -⟩ := mailbox_send_bulk_outcome fuel hfuel
      (mailbox_init_layout fr) d src_id data 20221 (by rw [hmsz]; decide)
      (by rw [hsc, hmsz, hsize]) (by rw [hsc, hused]; decide)
    have hr : r = 0 := hiff.mpr (by rw [hsc, hused, hmsz, hsize]; omega)
    rw [hr] at h1
    exact ⟨fr2, h1⟩

/-- Witness for C9: box 3, starting from a store filled with `0xFF`. -/
theorem C9_bulk_capacity_boundary_witness :
    ((read_desc (mailbox_init_layout ⟨fun _ => 255, [], []⟩) 3).size = 20224 ∧
      (read_desc (mailbox_init_layout ⟨fun _ => 255, [], []⟩) 3).msg_size = 64 ∧
      mailbox_slot_count (read_desc (mailbox_init_layout ⟨fun _ => 255, [], []⟩) 3) = 316 ∧
      (read_desc (mailbox_init_layout ⟨fun _ => 255, [], []⟩) 3).used = 0) ∧
    (∃ fr1, mailbox_send_bulk 4 (mailbox_init_layout ⟨fun _ => 255, [], []⟩) 3 1 (fun i => i)
        20220 = some (fr1, 1) ∧
      (read_desc fr1 3).used = 316 ∧ mailbox_slot_count (read_desc fr1 3) = 316 ∧
      (read_desc fr1 3).tail = (read_desc (mailbox_init_layout ⟨fun _ => 255, [], []⟩) 3).tail) ∧
    (∃ fr2, mailbox_send_bulk 4 (mailbox_init_layout ⟨fun _ => 255, [], []⟩) 3 1 (fun i => i)
      20221 = some (fr2, 0)) :=
  C9_bulk_capacity_boundary 4 (by decide) ⟨fun _ => 255, [], []⟩ 3 1 (fun i => i) (by decide)

/-- C10 (`mailbox_send_bulk` fails exactly and atomically): for a destination
descriptor with `msg_size > 0`, `size = slot_count * msg_size` and
`used ≤ slot_count`, the call returns, and it returns 0 if and only if
`dest_index ≥ 4`, or `total_len = 0`, or
`ceil((4 + total_len) / msg_size) > slot_count - used`, or `4 + total_len > size`;
a call that returns 0 issues no write command and leaves every byte of the store
as it was; any other call returns 1. -/
theorem C10_send_bulk_failure_exact (fuel : Nat) (hfuel : 4 ≤ fuel) (fr : Fram)
    (dest src_id : Nat) (data : Nat → Nat) (total_len : Nat)
    (hms : 0 < (read_desc fr dest).msg_size)
    (hsz : (read_desc fr dest).size
      = mailbox_slot_count (read_desc fr dest) * (read_desc fr dest).msg_size)
    (hu : (read_desc fr dest).used ≤ mailbox_slot_count (read_desc fr dest)) :
    ∃ fr' r, mailbox_send_bulk fuel fr dest src_id data total_len = some (fr', r) ∧
      (r = 0 ↔ (4 ≤ dest ∨ total_len = 0 ∨
        (4 + total_len + (read_desc fr dest).msg_size - 1) / (read_desc fr dest).msg_size
          > mailbox_slot_count (read_desc fr dest) - (read_desc fr dest).used ∨
        4 + total_len > (read_desc fr dest).size)) ∧
      (r = 0 → fr'.mem = fr.mem ∧ fr'.wlog = fr.wlog) ∧
      (r ≠ 0 → r = 1) :=
  mailbox_send_bulk_outcome fuel hfuel fr dest src_id data total_len hms hsz hu

/-- Witness for C10: 20221 bytes to box 1 of a fresh layout. -/
theorem C10_send_bulk_failure_exact_witness :
    ∃ fr' r, mailbox_send_bulk 4 (mailbox_init_layout ⟨fun _ => 0, [], []⟩) 1 2 (fun _ => 7) 20221
        = some (fr', r) ∧
      (r = 0 ↔ (4 ≤ 1 ∨ 20221 = 0 ∨
        (4 + 20221 + (read_desc (mailbox_init_layout ⟨fun _ => 0, [], []⟩) 1).msg_size - 1)
            / (read_desc (mailbox_init_layout ⟨fun _ => 0, [], []⟩) 1).msg_size
          > mailbox_slot_count (read_desc (mailbox_init_layout ⟨fun _ => 0, [], []⟩) 1)
            - (read_desc (mailbox_init_layout ⟨fun _ => 0, [], []⟩) 1).used ∨
        4 + 20221 > (read_desc (mailbox_init_layout ⟨fun _ => 0, [], []⟩) 1).size)) ∧
      (r = 0 → fr'.mem = (mailbox_init_layout ⟨fun _ => 0, [], []⟩).mem ∧
        fr'.wlog = (mailbox_init_layout ⟨fun _ => 0, [], []⟩).wlog) ∧
      (r ≠ 0 → r = 1) :=
  C10_send_bulk_failure_exact 4 (by decide) (mailbox_init_layout ⟨fun _ => 0, [], []⟩) 1 2
    (fun _ => 7) 20221
    (by rw [read_desc_init _ 1 (by decide)]; decide)
    (by rw [read_desc_init _ 1 (by decide)]; decide)
    (init_queue _ 1 (by decide)).wf.used_le

/-- C4 (mutual exclusion) fails on the code.  First run: the mail bit of node 2 is set
in the store; node 2 requests; before the request is drained the mail-notification
step pulses node 2, which is waiting for its grant and takes the pulse as the grant;
node 1 requests; the drain queues 1 and 2, the scheduling step grants node 1.  Second
run, without any mail: node 1 requests, restarts before the drain, requests again
between the drain and the scheduling step, and is granted; the next drain reads the
pending edge as its release; node 2 requests and is granted.  Both runs end with
nodes 1 and 2 in state `LOCK_HELD`. -/
theorem C4_mutual_exclusion_violated :
    ((sys_run (sys_init 2)
        [SysEvent.acquire 2, SysEvent.notify, SysEvent.acquire 1, SysEvent.drain,
         SysEvent.schedule]).node 1).g_lock_state = lock_state_t.LOCK_HELD ∧
    ((sys_run (sys_init 2)
        [SysEvent.acquire 2, SysEvent.notify, SysEvent.acquire 1, SysEvent.drain,
         SysEvent.schedule]).node 2).g_lock_state = lock_state_t.LOCK_HELD ∧
    ((sys_run (sys_init 0)
        [SysEvent.acquire 1, SysEvent.restart 1, SysEvent.drain, SysEvent.acquire 1,
         SysEvent.schedule, SysEvent.drain, SysEvent.acquire 2, SysEvent.drain,
         SysEvent.schedule]).node 1).g_lock_state = lock_state_t.LOCK_HELD ∧
    ((sys_run (sys_init 0)
        [SysEvent.acquire 1, SysEvent.restart 1, SysEvent.drain, SysEvent.acquire 1,
         SysEvent.schedule, SysEvent.drain, SysEvent.acquire 2, SysEvent.drain,
         SysEvent.schedule]).node 2).g_lock_state = lock_state_t.LOCK_HELD := by
  decide

/-- C11 (corrupt bulk header): for every box with slots of at least the 4 header bytes,
`slot_count ≠ 0` and `used ≠ 0`, whose head slot has bit 0 of the flags byte set and
length bytes that give a 16-bit `total_len` with `4 + total_len > size`,
`mailbox_recv_msg` returns 0, sets `len_out` to 0 and writes the descriptor back with
`head = 0` and `used = 0`, every other field and every byte outside the descriptor as
before; the next call of `mailbox_recv_msg` on the box finds it empty. -/
theorem C11_corrupt_bulk_header (fuel : Nat) (fr : Fram) (idx s0 l0 : Nat) (out0 : Nat → Nat)
    (hidx : idx < 4)
    (hms : 4 ≤ (read_desc fr idx).msg_size)
    (hsc : mailbox_slot_count (read_desc fr idx) ≠ 0)
    (hused : (read_desc fr idx).used ≠ 0)
    (hflag : head_slot fr idx 1 &&& MSG_FLAG_BULK ≠ 0)
    (hlen : 4 + (head_slot fr idx 2 + 256 * head_slot fr idx 3) > (read_desc fr idx).size) :
    ∃ fr' out, mailbox_recv_msg fuel fr idx s0 l0 out0 = some (fr', out) ∧
      out.ret = 0 ∧ out.len_out = 0 ∧
      read_desc fr' idx = { read_desc fr idx with head := 0, used := 0 } ∧
      (∀ x, x < mailbox_node_desc_addr idx ∨ mailbox_node_desc_addr idx + DESC_SIZE ≤ x →
        fr'.mem x = fr.mem x) ∧
      ∀ fuel' s l o, ∃ fr'', mailbox_recv_msg fuel' fr' idx s l o = some (fr'', ⟨0, s, l, o⟩) := by
  have hr := read_desc_range fr idx
  have hsz := slot_count_le_size _ hsc
  have hd : read_desc (fram_write_bytes
        (fram_read_bytes (fram_read_bytes fr (mailbox_node_desc_addr idx) (fun _ => 0) DESC_SIZE).1
          (u32 ((read_desc fr idx).base
            + u32 ((read_desc fr idx).head * (read_desc fr idx).msg_size))) (fun _ => 0) 64).1
        (mailbox_node_desc_addr idx)
        (desc_bytes { read_desc fr idx with used := 0, head := 0 }) DESC_SIZE) idx
      = { read_desc fr idx with head := 0, used := 0 } :=
    read_desc_write _ idx _ ⟨hr.base, hr.size, Nat.zero_lt_succ _, hr.tail, Nat.zero_lt_succ _, hr.msg_size,
      hr.reserved0, hr.reserved1⟩
  refine ⟨_, _, mailbox_recv_msg_overflow fuel fr idx s0 l0 out0 hidx hsc hused hflag
    (by omega) hlen, rfl, rfl, hd, ?_, ?_⟩
  · intro x hx
    rw [desc_write_frame _ _ _ _ hx, fram_read_bytes_mem, fram_read_bytes_mem]
  · intro fuel' s l o
    obtain ⟨fr'', h, -⟩ := mailbox_recv_msg_empty fuel' _ idx s l o (by rw [hd])
    exact ⟨fr'', h⟩

/-- Witness for C11: box 0 of `corrupt_bulk_store`, whose head slot claims
`total_len = 0xFFFF` in a ring of `0x4F00` bytes. -/
theorem C11_corrupt_bulk_header_witness :
    ∃ fr' out, mailbox_recv_msg 0 corrupt_bulk_store 0 0 0 (fun _ => 0) = some (fr', out) ∧
      out.ret = 0 ∧ out.len_out = 0 ∧
      read_desc fr' 0 = { read_desc corrupt_bulk_store 0 with head := 0, used := 0 } ∧
      (∀ x, x < mailbox_node_desc_addr 0 ∨ mailbox_node_desc_addr 0 + DESC_SIZE ≤ x →
        fr'.mem x = corrupt_bulk_store.mem x) ∧
      ∀ fuel' s l o, ∃ fr'', mailbox_recv_msg fuel' fr' 0 s l o = some (fr'', ⟨0, s, l, o⟩) :=
  C11_corrupt_bulk_header 0 corrupt_bulk_store 0 0 0 (fun _ => 0) (by decide) (by decide)
    (by decide) (by decide) (by decide) (by decide)

/-- C12 (corrupt normal record): on a well-formed non-empty box whose head slot has
bit 0 of the flags byte clear and a length byte greater than `msg_size - 4 = 60`,
`mailbox_recv_msg` sets `len_out` to 0 and leaves `data_out` as it was, writes the
descriptor back with `head = (head + 1) mod slot_count` and `used` one less, and
changes nothing outside the descriptor; the head slot of the box is then the ring slot
that follows the skipped one.  The call returns 1. -/
theorem C12_corrupt_normal_record (fuel : Nat) (fr : Fram) (idx s0 l0 : Nat)
    (out0 : Nat → Nat) (hidx : idx < 4)
    (wf : WellFormed idx (read_desc fr idx))
    (hused : (read_desc fr idx).used ≠ 0)
    (hflag : head_slot fr idx 1 &&& MSG_FLAG_BULK = 0)
    (hlen : head_slot fr idx 2 > (read_desc fr idx).msg_size - 4) :
    ∃ fr' out, mailbox_recv_msg fuel fr idx s0 l0 out0 = some (fr', out) ∧
      out.len_out = 0 ∧ out.data_out = out0 ∧ out.ret = 1 ∧
      (read_desc fr' idx).head
        = ((read_desc fr idx).head + 1) % mailbox_slot_count (read_desc fr idx) ∧
      (read_desc fr' idx).used + 1 = (read_desc fr idx).used ∧
      RecvPost fr fr' idx 1 ∧
      ∀ i, i < 64 → head_slot fr' idx i = ring_byte fr (read_desc fr idx)
        (((read_desc fr idx).head + 1) % mailbox_slot_count (read_desc fr idx) * 64 + i) := by
  have hr := read_desc_range fr idx
  have hsc := wf.slot_count_lt hr
  have hpos := wf.slot_count_pos
  have hms := wf.msg_size_eq
  have hhl := wf.head_lt
  have hul := wf.used_le
  have hl60 : head_slot fr idx 2 > 60 := by omega
  have hstep := head_step _ _ hhl (show mailbox_slot_count (read_desc fr idx) < 65536 by omega)
  have hd : read_desc (fram_write_bytes
        (fram_read_bytes (fram_read_bytes fr (mailbox_node_desc_addr idx) (fun _ => 0) DESC_SIZE).1
          (u32 ((read_desc fr idx).base
            + u32 ((read_desc fr idx).head * (read_desc fr idx).msg_size))) (fun _ => 0) 64).1
        (mailbox_node_desc_addr idx)
        (desc_bytes { read_desc fr idx with
          head := if u16 ((read_desc fr idx).head + 1) ≥ mailbox_slot_count (read_desc fr idx)
                  then 0 else u16 ((read_desc fr idx).head + 1)
          used := (read_desc fr idx).used - 1 }) DESC_SIZE) idx
      = { read_desc fr idx with
          head := ((read_desc fr idx).head + 1) % mailbox_slot_count (read_desc fr idx)
          used := (read_desc fr idx).used - 1 } := by
    rw [hstep]
    exact read_desc_write _ idx _ (wf.desc_range_head hr _ _ (Nat.mod_lt _ hpos) (by omega))
  have hframe : ∀ x,
      (x < mailbox_node_desc_addr idx ∨ mailbox_node_desc_addr idx + DESC_SIZE ≤ x) →
      (fram_write_bytes
        (fram_read_bytes (fram_read_bytes fr (mailbox_node_desc_addr idx) (fun _ => 0) DESC_SIZE).1
          (u32 ((read_desc fr idx).base
            + u32 ((read_desc fr idx).head * (read_desc fr idx).msg_size))) (fun _ => 0) 64).1
        (mailbox_node_desc_addr idx)
        (desc_bytes { read_desc fr idx with
          head := if u16 ((read_desc fr idx).head + 1) ≥ mailbox_slot_count (read_desc fr idx)
                  then 0 else u16 ((read_desc fr idx).head + 1)
          used := (read_desc fr idx).used - 1 }) DESC_SIZE).mem x = fr.mem x := by
    intro x hx
    rw [desc_write_frame _ _ _ _ hx, fram_read_bytes_mem, fram_read_bytes_mem]
  refine ⟨_, _, mailbox_recv_msg_flag_clear fuel fr idx s0 l0 out0 hidx (by omega) hused hflag,
    ?_, ?_, rfl, ?_, ?_, ⟨hd, hframe⟩, ?_⟩
  · exact if_pos hl60
  · show copy_payload _ (if head_slot fr idx 2 > 60 then 0 else head_slot fr idx 2) 0 out0 = out0
    rw [if_pos hl60]
    rfl
  · rw [hd]
  · rw [hd]
    show (read_desc fr idx).used - 1 + 1 = (read_desc fr idx).used
    omega
  · intro i hi
    exact head_slot_after fr _ idx wf _ (Nat.mod_lt _ hpos) (by rw [hd]) (by rw [hd])
      (by rw [hd]; exact hms) hframe i hi

/-- Witness for C12: box 1 of `corrupt_normal_store`, whose head slot has length byte
200. -/
theorem C12_corrupt_normal_record_witness :
    ∃ fr' out, mailbox_recv_msg 0 corrupt_normal_store 1 0 0 (fun _ => 0) = some (fr', out) ∧
      out.len_out = 0 ∧ out.data_out = (fun _ => 0) ∧ out.ret = 1 ∧
      (read_desc fr' 1).head
        = ((read_desc corrupt_normal_store 1).head + 1)
          % mailbox_slot_count (read_desc corrupt_normal_store 1) ∧
      (read_desc fr' 1).used + 1 = (read_desc corrupt_normal_store 1).used ∧
      RecvPost corrupt_normal_store fr' 1 1 ∧
      ∀ i, i < 64 → head_slot fr' 1 i = ring_byte corrupt_normal_store
        (read_desc corrupt_normal_store 1)
        (((read_desc corrupt_normal_store 1).head + 1)
          % mailbox_slot_count (read_desc corrupt_normal_store 1) * 64 + i) :=
  C12_corrupt_normal_record 0 corrupt_normal_store 1 0 0 (fun _ => 0) (by decide)
    ⟨by decide, by decide, by decide, by decide, by decide, by decide, by decide⟩
    (by decide) (by decide) (by decide)

/-- C13 (receive on an empty box): for every node index and every store in which the
descriptor of that node has `used = 0`, `mailbox_recv_msg` returns 0, issues no write
command, leaves every byte of the store as it was and leaves `src_id_out`, `len_out`
and `data_out` untouched.  Conversely, on a well-formed box with `used > 0` whose head
slot starts with the header that `mailbox_send_msg` or `mailbox_send_bulk` writes for a
message they accept (for a bulk message, one with `4 + total_len ≤ size`), the call
returns 1. -/
theorem C13_recv_empty_box (fuel : Nat) (fr : Fram) (idx s0 l0 : Nat) (out0 : Nat → Nat) :
    ((read_desc fr idx).used = 0 →
      ∃ fr', mailbox_recv_msg fuel fr idx s0 l0 out0 = some (fr', ⟨0, s0, l0, out0⟩) ∧
        fr'.mem = fr.mem ∧ fr'.wlog = fr.wlog ∧ read_desc fr' idx = read_desc fr idx) ∧
    (∀ m : Msg, idx < 4 → WellFormed idx (read_desc fr idx) → 0 < (read_desc fr idx).used →
      m.Valid → (m.bulk = true → 4 + m.len ≤ (read_desc fr idx).size ∧ 3 ≤ fuel) →
      (∀ i, i < 4 → head_slot fr idx i = m.header i) →
      ∃ fr' out, mailbox_recv_msg fuel fr idx s0 l0 out0 = some (fr', out) ∧ out.ret = 1) := by
  constructor
  · intro hu
    obtain ⟨fr', h, hm, hw⟩ := mailbox_recv_msg_empty fuel fr idx s0 l0 out0 hu
    exact ⟨fr', h, hm, hw, read_desc_congr _ _ _ (fun i _ => by rw [hm])⟩
  · intro m hidx wf hu hv hb hh
    have hpos := wf.slot_count_pos
    have h1 := hh 1 (by omega)
    have h2 := hh 2 (by omega)
    have h3 := hh 3 (by omega)
    cases hbulk : m.bulk with
    | false =>
      simp only [Msg.header, hbulk, Bool.false_eq_true, ↓reduceIte, slot_header] at h1
      exact ⟨_, _, mailbox_recv_msg_flag_clear fuel fr idx s0 l0 out0 hidx (by omega) (by omega)
        (by rw [h1]; decide), rfl⟩
    | true =>
      have hl := hv.len_le
      have hl1 := hv.len_pos
      simp only [hbulk, ↓reduceIte] at hl
      simp only [Msg.header, hbulk, ↓reduceIte, bulk_header_bytes] at h1 h2 h3
      obtain ⟨hfit, hfuel⟩ := hb hbulk
      have htot : head_slot fr idx 2 + 256 * head_slot fr idx 3 = m.len := by
        rw [h2, h3]; omega
      obtain ⟨fr', out, h, hret, -⟩ := mailbox_recv_msg_flag_set fuel hfuel fr idx s0 l0 out0
        hidx wf (by omega) (by rw [h1]; decide) (by omega) (by omega)
      exact ⟨fr', out, h, hret⟩

/-- Witness for C13: box 0 as `mailbox_init_layout` leaves it, for the empty case, and
box 0 after one `mailbox_send_msg`, for the converse. -/
theorem C13_recv_empty_box_witness :
    (∃ fr', mailbox_recv_msg 0 (mailbox_init_layout ⟨fun _ => 0, [], []⟩) 0 5 6 (fun _ => 7)
        = some (fr', ⟨0, 5, 6, fun _ => 7⟩) ∧
      fr'.mem = (mailbox_init_layout ⟨fun _ => 0, [], []⟩).mem ∧
      fr'.wlog = (mailbox_init_layout ⟨fun _ => 0, [], []⟩).wlog ∧
      read_desc fr' 0 = read_desc (mailbox_init_layout ⟨fun _ => 0, [], []⟩) 0) ∧
    (∃ fr' out, mailbox_recv_msg 0
        (mailbox_send_msg (mailbox_init_layout ⟨fun _ => 0, [], []⟩) 0 2 (fun _ => 7) 1).1
        0 5 6 (fun _ => 7) = some (fr', out) ∧ out.ret = 1) :=
  ⟨(C13_recv_empty_box 0 (mailbox_init_layout ⟨fun _ => 0, [], []⟩) 0 5 6 (fun _ => 7)).1
      (by decide),
    (C13_recv_empty_box 0
      (mailbox_send_msg (mailbox_init_layout ⟨fun _ => 0, [], []⟩) 0 2 (fun _ => 7) 1).1
      0 5 6 (fun _ => 7)).2 ⟨false, 2, 1, fun _ => 7⟩ (by decide)
      ⟨by decide, by decide, by decide, by decide, by decide, by decide, by decide⟩
      (by decide) ⟨by decide, by decide, by decide, fun _ _ => by show 7 < 256; decide⟩
      (fun h => absurd h (by decide)) (by decide)⟩

/-- C14 (arbiter state invariant) fails on the code.  After nodes 1 and 2 requested and
the arbiter drained both edges, the wait queue is `[1, 2]` and no node holds the lock.
The scheduling statement calls `queue_pop`, which runs with interrupts enabled: it reads
`first = 1` and shifts, so the array is `[2, 2]`; the reset pulse of node 2 is taken
there and `queue_remove(2)` sets `g_q_len = 0`; then `g_q_len--` wraps to 255.  The
statement ends with node 1 the holder and `g_q_len = 255`, more than 3. -/
theorem C14_arbiter_state_invariant_violated :
    Reachable race_pop_start ∧ ArbInv race_pop_start ∧
    wait_queue race_pop_start = [1, 2] ∧ race_pop_start.g_lock_holder = 0 ∧
    race_pop_start.g_need_schedule = 1 ∧
    (race_pop_mid.g_queue 0 = 2 ∧ race_pop_mid.g_queue 1 = 2 ∧ race_pop_mid.g_q_len = 0) ∧
    CodeStep race_pop_start race_pop_end ∧ CodeReachable race_pop_end ∧
    race_pop_end.g_q_len = 255 ∧ race_pop_end.g_lock_holder = 1 ∧
    race_pop_end.pulses = [1] ∧
    ¬ race_pop_end.g_q_len ≤ 3 ∧ ¬ (wait_queue race_pop_end).length ≤ 3 ∧
    ¬ ArbInv race_pop_end :=
  ⟨race_pop_start_reachable, race_pop_start_reachable.inv, by decide, by decide, by decide,
    ⟨by decide, by decide, by decide⟩, CodeStep.schedule_port3 0x02, race_pop_end_reachable,
    by decide, by decide, by decide, by decide,
    by rw [wait_queue_length]; decide,
    fun h => absurd h.len_le (by decide)⟩

/-- C15 (descriptor bounds invariant): `mailbox_init_layout` leaves each of the 4 boxes
with `head = tail = used = 0`, `msg_size = 64` and `size = 0x4F00 = slot_count * msg_size`
with `slot_count = 316`, its ring at the data base of the box.  From any store in which
the four descriptors have this `base`, `size` and `msg_size` and satisfy
`head < slot_count`, `tail < slot_count` and `used ≤ slot_count`, every call of
`mailbox_send_msg`, `mailbox_send_bulk` and `mailbox_recv_msg` returns, with any arguments
and any ring contents, and leaves a store in which the four descriptors again have this
`base`, `size` and `msg_size` and satisfy the three bounds. -/
theorem C15_descriptor_bounds_invariant (fr : Fram) :
    (∀ j, j < 4 →
      (read_desc (mailbox_init_layout fr) j).head = 0 ∧
      (read_desc (mailbox_init_layout fr) j).tail = 0 ∧
      (read_desc (mailbox_init_layout fr) j).used = 0 ∧
      (read_desc (mailbox_init_layout fr) j).msg_size = 64 ∧
      (read_desc (mailbox_init_layout fr) j).size = 0x4F00 ∧
      mailbox_slot_count (read_desc (mailbox_init_layout fr) j) = 316 ∧
      (read_desc (mailbox_init_layout fr) j).size
        = mailbox_slot_count (read_desc (mailbox_init_layout fr) j)
          * (read_desc (mailbox_init_layout fr) j).msg_size ∧
      BoxLayout (mailbox_init_layout fr) j) ∧
    ((∀ j, j < 4 → BoxLayout fr j) →
      (∀ dest src_id data len j, j < 4 →
        BoxLayout (mailbox_send_msg fr dest src_id data len).1 j) ∧
      (∀ fuel dest src_id data total_len, 4 ≤ fuel →
        ∃ fr' r, mailbox_send_bulk fuel fr dest src_id data total_len = some (fr', r) ∧
          ∀ j, j < 4 → BoxLayout fr' j) ∧
      (∀ fuel node s0 l0 out0, 3 ≤ fuel →
        ∃ fr' out, mailbox_recv_msg fuel fr node s0 l0 out0 = some (fr', out) ∧
          ∀ j, j < 4 → BoxLayout fr' j)) := by
  constructor
  · intro j hj
    have hl := init_layout fr j hj
    have hd := read_desc_init fr j hj
    have hsc := hl.slot_count
    refine ⟨by rw [hd], by rw [hd], by rw [hd], by rw [hd], by rw [hd], hsc, ?_, hl⟩
    rw [hsc, hd]
    rfl
  · intro hl
    refine ⟨?_, ?_, ?_⟩
    · intro dest src_id data len j hj
      by_cases hd : dest < 4
      · exact (mailbox_send_msg_op fr dest src_id data len hd ((hl dest hd).wf hd)).layout hd hl
          j hj
      · exact (hl j hj).same_mem
          (mailbox_send_msg_fail_mem fr dest src_id data len (Or.inl (by omega)))
    · intro fuel dest src_id data total_len hfuel
      by_cases hd : dest < 4
      · obtain ⟨fr', r, he, hp⟩ := mailbox_send_bulk_op fuel hfuel fr dest src_id data total_len
          hd ((hl dest hd).wf hd)
        exact ⟨fr', r, he, hp.layout hd hl⟩
      · exact ⟨fr, 0, mailbox_send_bulk_bad_dest fuel fr dest src_id data total_len (by omega),
          hl⟩
    · intro fuel node s0 l0 out0 hfuel
      by_cases hd : node < 4
      · obtain ⟨fr', out, he, hp⟩ := mailbox_recv_msg_op fuel hfuel fr node s0 l0 out0 hd
          ((hl node hd).wf hd)
        exact ⟨fr', out, he, hp.layout hd hl⟩
      · exact ⟨fr, _, mailbox_recv_msg_bad_node fuel fr node s0 l0 out0 (by omega), hl⟩

/-- Witness for C15: the three operations on the store `corrupt_bulk_store`, whose box 0
holds a record with a corrupt header. -/
theorem C15_descriptor_bounds_invariant_witness :
    (∀ dest src_id data len j, j < 4 →
      BoxLayout (mailbox_send_msg corrupt_bulk_store dest src_id data len).1 j) ∧
    (∀ fuel dest src_id data total_len, 4 ≤ fuel →
      ∃ fr' r, mailbox_send_bulk fuel corrupt_bulk_store dest src_id data total_len
          = some (fr', r) ∧
        ∀ j, j < 4 → BoxLayout fr' j) ∧
    (∀ fuel node s0 l0 out0, 3 ≤ fuel →
      ∃ fr' out, mailbox_recv_msg fuel corrupt_bulk_store node s0 l0 out0 = some (fr', out) ∧
        ∀ j, j < 4 → BoxLayout fr' j) :=
  (C15_descriptor_bounds_invariant corrupt_bulk_store).2 (fun j hj => by
    interval_cases j <;>
      exact ⟨by decide, by decide, by decide, by decide, by decide, by decide⟩)

/-- C18 (mail-notification step): while some node holds the lock,
`arbiter_check_notifications` does nothing: no read, no write, no pulse.  With
`g_lock_holder = 0` it reads the mail-pending byte; it then drives exactly one Grant
pulse to every node `n` in 1..3 whose bit `n - 1` is set in the byte and which is not in
the wait queue, and no other pulse; afterwards the mail-pending byte is 0 and every other
byte of the store is as before (one write of a zero byte when the byte read was non-zero,
no write when it was already 0).  The lock holder and the wait queue are unchanged. -/
theorem C18_mail_notification_step (a : Arbiter) (fr : Fram) :
    (a.g_lock_holder ≠ 0 → arbiter_check_notifications a fr = (a, fr)) ∧
    (a.g_lock_holder = 0 →
      (arbiter_check_notifications a fr).2.rlog = (FRAM_NOTIF_BOX_ADDR, 1) :: fr.rlog ∧
      (∃ new, (arbiter_check_notifications a fr).1.pulses = new ++ a.pulses ∧
        ∀ n, new.count n =
          if 1 ≤ n ∧ n ≤ 3 ∧ notif_byte fr &&& (1 <<< (n - 1)) ≠ 0 ∧ n ∉ wait_queue a
          then 1 else 0) ∧
      notif_byte (arbiter_check_notifications a fr).2 = 0 ∧
      (∀ x, x ≠ FRAM_NOTIF_BOX_ADDR →
        (arbiter_check_notifications a fr).2.mem x = fr.mem x) ∧
      (arbiter_check_notifications a fr).2.wlog
        = if notif_byte fr = 0 then fr.wlog else (FRAM_NOTIF_BOX_ADDR, 1) :: fr.wlog) ∧
    (arbiter_check_notifications a fr).1.g_lock_holder = a.g_lock_holder ∧
    wait_queue (arbiter_check_notifications a fr).1 = wait_queue a := by
  have hf := check_notifications_fields a fr
  refine ⟨fun hh => ?_, fun hh => ?_, hf.1, wait_queue_eq_of_fields hf.2.1 hf.2.2.1⟩
  · unfold arbiter_check_notifications
    rw [if_pos hh]
  · have hn : (fram_read_bytes fr FRAM_NOTIF_BOX_ADDR (fun _ => 0) 1).2 0 = notif_byte fr := rfl
    unfold arbiter_check_notifications
    rw [if_neg (by omega)]
    simp only [hn]
    by_cases hz : notif_byte fr = 0
    · rw [if_pos hz, if_pos hz]
      refine ⟨rfl, ⟨[], rfl, fun n => ?_⟩, hz, fun x _ => rfl, rfl⟩
      rw [hz, Nat.zero_and, if_neg (fun h => h.2.2.1 rfl)]
      rfl
    · rw [if_neg hz, if_neg hz]
      refine ⟨rfl, ?_, ?_, fun x hx => ?_, rfl⟩
      · obtain ⟨new, hp, hcnt⟩ := notify_loop_pulses (notif_byte fr) 3 0 a (by omega)
        refine ⟨new, hp, fun n => ?_⟩
        simpa only [Nat.zero_add] using hcnt n
      · rfl
      · show (fram_write_bytes _ FRAM_NOTIF_BOX_ADDR (fun _ => 0) 1).mem x = fr.mem x
        rw [fram_write_bytes_mem, if_neg]
        · rfl
        · intro h
          have : fram_send_addr FRAM_NOTIF_BOX_ADDR = FRAM_NOTIF_BOX_ADDR := by decide
          rw [this] at h
          omega

/-- Witness for C18: the arbiter idle with node 2 queued, mail bits of nodes 1, 2 and of
bit 3 set. -/
theorem C18_mail_notification_step_witness :
    (arbiter_check_notifications (arbiter_process_req_events (req_edge arbiter_init 2))
      ⟨fun x => if x = 16 then 11 else 0, [], []⟩).1.pulses = [1] ∧
    notif_byte (arbiter_check_notifications
      (arbiter_process_req_events (req_edge arbiter_init 2))
      ⟨fun x => if x = 16 then 11 else 0, [], []⟩).2 = 0 :=
  ⟨by decide,
    ((C18_mail_notification_step (arbiter_process_req_events (req_edge arbiter_init 2))
      ⟨fun x => if x = 16 then 11 else 0, [], []⟩).2.1 (by decide)).2.2.1⟩

/-- C19 (Grant-edge dual interpretation): the worker's `PORT1_ISR` (the same code in
`SPI_Worker_5969/main.c` and `Applications/HDC/worker.c`), run for a Grant edge in state
`LOCK_WAIT_GRANT`, sets the state to `LOCK_HELD` and leaves `g_mail_flag` unchanged; run
in state `LOCK_IDLE` or `LOCK_HELD` it leaves the state unchanged and sets `g_mail_flag`
to 1; it drives no pulse.  Of all the operations of the lock client, the only one that
takes a state other than `LOCK_HELD` to `LOCK_HELD` is `PORT1_ISR` for a Grant edge in
state `LOCK_WAIT_GRANT`. -/
theorem C19_grant_edge_dual_interpretation (w : Worker) :
    (w.g_lock_state = lock_state_t.LOCK_WAIT_GRANT →
      (worker_PORT1_ISR w NODE_GNT_IV).g_lock_state = lock_state_t.LOCK_HELD ∧
      (worker_PORT1_ISR w NODE_GNT_IV).g_mail_flag = w.g_mail_flag) ∧
    (w.g_lock_state = lock_state_t.LOCK_IDLE ∨ w.g_lock_state = lock_state_t.LOCK_HELD →
      (worker_PORT1_ISR w NODE_GNT_IV).g_lock_state = w.g_lock_state ∧
      (worker_PORT1_ISR w NODE_GNT_IV).g_mail_flag = 1) ∧
    ((worker_PORT1_ISR w NODE_GNT_IV).req_pulses = w.req_pulses ∧
      (worker_PORT1_ISR w NODE_GNT_IV).reset_pulses = w.reset_pulses) ∧
    (∀ op, w.g_lock_state ≠ lock_state_t.LOCK_HELD →
      (worker_step w op).g_lock_state = lock_state_t.LOCK_HELD →
      op = WorkerOp.port1 NODE_GNT_IV ∧ w.g_lock_state = lock_state_t.LOCK_WAIT_GRANT) := by
  refine ⟨fun h => ?_, fun h => ?_, ?_, fun op hn hh => ?_⟩
  · unfold worker_PORT1_ISR
    rw [if_pos rfl, if_pos h]
    exact ⟨rfl, rfl⟩
  · unfold worker_PORT1_ISR
    rw [if_pos rfl, if_neg (by rcases h with h | h <;> rw [h] <;> decide)]
    exact ⟨rfl, rfl⟩
  · unfold worker_PORT1_ISR
    rw [if_pos rfl]
    split <;> exact ⟨rfl, rfl⟩
  · cases op with
    | acquire =>
      exfalso
      have : (lock_acquire w).g_lock_state = lock_state_t.LOCK_WAIT_GRANT := by
        unfold lock_acquire
        rw [if_neg hn]
        rfl
      have h2 : (lock_acquire w).g_lock_state = lock_state_t.LOCK_HELD := hh
      rw [this] at h2
      exact absurd h2 (by decide)
    | release =>
      exfalso
      have : lock_release w = w := by
        unfold lock_release
        rw [if_pos hn]
      have h2 : (lock_release w).g_lock_state = lock_state_t.LOCK_HELD := hh
      rw [this] at h2
      exact hn h2
    | reset =>
      exfalso
      have h2 : lock_state_t.LOCK_IDLE = lock_state_t.LOCK_HELD := hh
      exact absurd h2 (by decide)
    | clear_mail => exact absurd hh hn
    | port1 iv =>
      have h2 : (worker_PORT1_ISR w iv).g_lock_state = lock_state_t.LOCK_HELD := hh
      unfold worker_PORT1_ISR at h2
      by_cases hiv : iv = NODE_GNT_IV
      · rw [if_pos hiv] at h2
        by_cases hw : w.g_lock_state = lock_state_t.LOCK_WAIT_GRANT
        · exact ⟨by rw [hiv], hw⟩
        · rw [if_neg hw] at h2
          exact absurd h2 hn
      · rw [if_neg hiv] at h2
        exact absurd h2 hn

/-- C20 (release and acquire guards of the lock client): `lock_release` called in state
`LOCK_HELD` drives exactly one Request pulse and ends in state `LOCK_IDLE`; called in
state `LOCK_IDLE` or `LOCK_WAIT_GRANT` it drives no pulse and changes nothing;
`lock_acquire` called in state `LOCK_HELD` drives no pulse and changes nothing; called
in any other state it sets `LOCK_WAIT_GRANT` and drives exactly one Request pulse before
it enters its wait loop.  Neither function drives the Grant line or writes
`g_mail_flag`. -/
theorem C20_lock_client_guards (w : Worker) :
    (w.g_lock_state = lock_state_t.LOCK_HELD →
      (lock_release w).req_pulses = w.req_pulses + 1 ∧
      (lock_release w).g_lock_state = lock_state_t.LOCK_IDLE) ∧
    (w.g_lock_state = lock_state_t.LOCK_IDLE ∨ w.g_lock_state = lock_state_t.LOCK_WAIT_GRANT →
      lock_release w = w) ∧
    (w.g_lock_state = lock_state_t.LOCK_HELD → lock_acquire w = w) ∧
    (w.g_lock_state ≠ lock_state_t.LOCK_HELD →
      (lock_acquire w).g_lock_state = lock_state_t.LOCK_WAIT_GRANT ∧
      (lock_acquire w).req_pulses = w.req_pulses + 1) ∧
    ((lock_release w).reset_pulses = w.reset_pulses ∧
      (lock_release w).g_mail_flag = w.g_mail_flag ∧
      (lock_acquire w).reset_pulses = w.reset_pulses ∧
      (lock_acquire w).g_mail_flag = w.g_mail_flag) := by
  refine ⟨fun h => ?_, fun h => ?_, fun h => ?_, fun h => ?_, ?_, ?_, ?_, ?_⟩
  · unfold lock_release
    rw [if_neg (by rw [h]; decide)]
    exact ⟨rfl, rfl⟩
  · unfold lock_release
    rw [if_pos (by rcases h with h | h <;> rw [h] <;> decide)]
  · unfold lock_acquire
    rw [if_pos h]
  · unfold lock_acquire
    rw [if_neg h]
    exact ⟨rfl, rfl⟩
  · unfold lock_release
    split <;> rfl
  · unfold lock_release
    split <;> rfl
  · unfold lock_acquire
    split <;> rfl
  · unfold lock_acquire
    split <;> rfl

/-- C21 (stale ring content is ignored), as it holds: for two stores that agree on the
descriptor of box `d` and in which box `d` holds the same messages `ms` in its occupied
slots (none, when the box is empty), and that differ in any other byte, the same
`mailbox_send_bulk` for which the box has room returns 1 in both, and the following
`mailbox_recv_msg` yields the same return value, `src_id_out`, `len_out` and `data_out`
and the same final descriptor in both runs. -/
theorem C21_stale_ring_ignored (fuel : Nat) (hfuel : 3 ≤ fuel) (frA frB : Fram) (d : Nat)
    (ms : List Msg) (m : Msg) (s0 l0 : Nat) (out0 : Nat → Nat)
    (hd : d < 4) (hb : m.bulk = true) (hv : m.Valid)
    (hdesc : read_desc frA d = read_desc frB d)
    (qA : Queue frA d ms) (qB : Queue frB d ms)
    (hroom : (read_desc frA d).used + m.slots ≤ mailbox_slot_count (read_desc frA d)) :
    ∃ a1 a2 outA b1 b2 outB,
      mailbox_send_bulk fuel frA d m.src_id m.data m.len = some (a1, 1) ∧
      mailbox_recv_msg fuel a1 d s0 l0 out0 = some (a2, outA) ∧
      mailbox_send_bulk fuel frB d m.src_id m.data m.len = some (b1, 1) ∧
      mailbox_recv_msg fuel b1 d s0 l0 out0 = some (b2, outB) ∧
      outA.ret = outB.ret ∧ outA.src_id_out = outB.src_id_out ∧
      outA.len_out = outB.len_out ∧
      (∀ i, outA.data_out i = outB.data_out i) ∧
      read_desc a2 d = read_desc b2 d := by
  obtain ⟨m0, rest, hq⟩ : ∃ m0 rest, ms ++ [m] = m0 :: rest := by
    cases ms with
    | nil => exact ⟨m, [], rfl⟩
    | cons x xs => exact ⟨x, xs ++ [m], rfl⟩
  obtain ⟨a1, a2, outA, hA1, hA2, hdA, hfA⟩ := qA.send_bulk_recv fuel hfuel hd m hb hv hroom
    m0 rest hq s0 l0 out0
  obtain ⟨b1, b2, outB, hB1, hB2, hdB, hfB⟩ := qB.send_bulk_recv fuel hfuel hd m hb hv
    (by rw [← hdesc]; exact hroom) m0 rest hq s0 l0 out0
  refine ⟨a1, a2, outA, b1, b2, outB, hA1, hA2, hB1, hB2, ?_, ?_, ?_, ?_, ?_⟩
  · rw [hdA.ret, hdB.ret]
  · rw [hdA.src, hdB.src]
  · rw [hdA.len, hdB.len]
  · intro i
    by_cases hi : i < m0.len
    · rw [hdA.data i hi, hdB.data i hi]
    · rw [hdA.rest i (by omega), hdB.rest i (by omega)]
  · rw [hfA, hfB, hdesc]

/-- The claim C21 fails for a box that is not empty: `stale_store_a` and `stale_store_b`
agree on the descriptor of box 0, which is well formed and holds two records
(`used = 2` of 316 slots), and differ in one ring byte; the same `mailbox_send_bulk` of 10
bytes returns 1 on both, and the following `mailbox_recv_msg` returns the record at the
head, with `len_out = 1` on the first store and `len_out = 2` on the second. -/
theorem C21_stale_ring_ignored_counterexample :
    read_desc stale_store_a 0 = read_desc stale_store_b 0 ∧
    WellFormed 0 (read_desc stale_store_a 0) ∧
    (read_desc stale_store_a 0).used = 2 ∧
    mailbox_slot_count (read_desc stale_store_a 0) = 316 ∧
    (send_bulk_then_recv 4 stale_store_a 0 5 (fun _ => 1) 10 0 0 (fun _ => 0)).map
      (fun x => (x.1, x.2.1.ret, x.2.1.len_out)) = some (1, 1, 1) ∧
    (send_bulk_then_recv 4 stale_store_b 0 5 (fun _ => 1) 10 0 0 (fun _ => 0)).map
      (fun x => (x.1, x.2.1.ret, x.2.1.len_out)) = some (1, 1, 2) :=
  ⟨by decide, ⟨by decide, by decide, by decide, by decide, by decide, by decide, by decide⟩,
    by decide, by decide, by decide, by decide⟩

/-- Witness for C21: box 1 holding one normal message, on a store of zeros and on a store
whose other bytes are all `0xFF`; a bulk message of 100 bytes is sent. -/
theorem C21_stale_ring_ignored_witness :
    ∃ a1 a2 outA b1 b2 outB,
      mailbox_send_bulk 3
        (mailbox_send_msg (mailbox_init_layout ⟨fun _ => 0, [], []⟩) 1 4 (fun _ => 6) 2).1 1
        2 (fun _ => 5) 100 = some (a1, 1) ∧
      mailbox_recv_msg 3 a1 1 0 0 (fun _ => 0) = some (a2, outA) ∧
      mailbox_send_bulk 3
        (mailbox_send_msg (mailbox_init_layout ⟨fun _ => 255, [], []⟩) 1 4 (fun _ => 6) 2).1 1
        2 (fun _ => 5) 100 = some (b1, 1) ∧
      mailbox_recv_msg 3 b1 1 0 0 (fun _ => 0) = some (b2, outB) ∧
      outA.ret = outB.ret ∧ outA.src_id_out = outB.src_id_out ∧
      outA.len_out = outB.len_out ∧
      (∀ i, outA.data_out i = outB.data_out i) ∧
      read_desc a2 1 = read_desc b2 1 := by
  have hv : Msg.Valid ⟨false, 4, 2, fun _ => 6⟩ :=
    ⟨by decide, by decide, by decide, fun _ _ => by show 6 < 256; decide⟩
  have hw : Msg.Valid ⟨true, 2, 100, fun _ => 5⟩ :=
    ⟨by decide, by decide, by decide, fun _ _ => by show 5 < 256; decide⟩
  have hfree : ∀ fr : Fram, (read_desc (mailbox_init_layout fr) 1).used
      < mailbox_slot_count (read_desc (mailbox_init_layout fr) 1) := by
    intro fr
    rw [read_desc_init fr 1 (by decide)]
    decide
  have hsent : ∀ fr : Fram,
      read_desc (mailbox_send_msg (mailbox_init_layout fr) 1 4 (fun _ => 6) 2).1 1
        = { base := mailbox_node_data_base 1, size := 0x4F00, head := 0, tail := 1, used := 1,
            msg_size := 64, reserved0 := 0, reserved1 := 0 } := by
    intro fr
    have h := (mailbox_send_msg_post (mailbox_init_layout fr) 1 4 (fun _ => 6) 2 (by decide)
      (by decide) (by decide) (init_queue fr 1 (by decide)).wf (hfree fr)).2.desc
    rw [read_desc_init fr 1 (by decide)] at h
    rw [h]
    decide
  have qA : Queue
      (mailbox_send_msg (mailbox_init_layout ⟨fun _ => 0, [], []⟩) 1 4 (fun _ => 6) 2).1 1
      [⟨false, 4, 2, fun _ => 6⟩] :=
    ((init_queue ⟨fun _ => 0, [], []⟩ 1 (by decide)).send_msg (by decide)
      ⟨false, 4, 2, fun _ => 6⟩ rfl hv (hfree _)).2.1
  have qB : Queue
      (mailbox_send_msg (mailbox_init_layout ⟨fun _ => 255, [], []⟩) 1 4 (fun _ => 6) 2).1 1
      [⟨false, 4, 2, fun _ => 6⟩] :=
    ((init_queue ⟨fun _ => 255, [], []⟩ 1 (by decide)).send_msg (by decide)
      ⟨false, 4, 2, fun _ => 6⟩ rfl hv (hfree _)).2.1
  exact C21_stale_ring_ignored 3 (by decide)
    (mailbox_send_msg (mailbox_init_layout ⟨fun _ => 0, [], []⟩) 1 4 (fun _ => 6) 2).1
    (mailbox_send_msg (mailbox_init_layout ⟨fun _ => 255, [], []⟩) 1 4 (fun _ => 6) 2).1
    1 [⟨false, 4, 2, fun _ => 6⟩] ⟨true, 2, 100, fun _ => 5⟩ 0 0 (fun _ => 0)
    (by decide) rfl hw (by rw [hsent, hsent]) qA qB (by rw [hsent]; decide)

/-- C22 (`mailbox_send_bulk` postcondition): when `mailbox_send_bulk` returns 1 on a
well-formed descriptor, with `k = ceil((4 + total_len) / msg_size)`, the ring byte at
offset `(tail * msg_size + i) mod size` holds header byte `i` for `i < 4` (`src_id`,
`MSG_FLAG_BULK`, low byte and high byte of `total_len`) and payload byte `i - 4` for
`4 ≤ i < 4 + total_len`; the descriptor written back has
`tail = (tail + k) mod slot_count` and `used = used + k`, which is at most `slot_count`,
and `head`, `base`, `size` and `msg_size` as before. -/
theorem C22_send_bulk_postcondition (fuel : Nat) (hfuel : 4 ≤ fuel) (fr fr' : Fram)
    (dest src_id : Nat) (data : Nat → Nat) (total_len : Nat)
    (wf : WellFormed dest (read_desc fr dest))
    (h : mailbox_send_bulk fuel fr dest src_id data total_len = some (fr', 1)) :
    fr'.mem ((read_desc fr dest).base
      + ((read_desc fr dest).tail * (read_desc fr dest).msg_size + 0) % (read_desc fr dest).size)
      = u8 src_id ∧
    fr'.mem ((read_desc fr dest).base
      + ((read_desc fr dest).tail * (read_desc fr dest).msg_size + 1) % (read_desc fr dest).size)
      = MSG_FLAG_BULK ∧
    fr'.mem ((read_desc fr dest).base
      + ((read_desc fr dest).tail * (read_desc fr dest).msg_size + 2) % (read_desc fr dest).size)
      = total_len % 256 ∧
    fr'.mem ((read_desc fr dest).base
      + ((read_desc fr dest).tail * (read_desc fr dest).msg_size + 3) % (read_desc fr dest).size)
      = total_len / 256 ∧
    (∀ i, 4 ≤ i → i < 4 + total_len →
      fr'.mem ((read_desc fr dest).base
        + ((read_desc fr dest).tail * (read_desc fr dest).msg_size + i)
          % (read_desc fr dest).size)
        = u8 (data (i - 4))) ∧
    read_desc fr' dest = { read_desc fr dest with
      tail := ((read_desc fr dest).tail
          + (4 + total_len + (read_desc fr dest).msg_size - 1) / (read_desc fr dest).msg_size)
        % mailbox_slot_count (read_desc fr dest)
      used := (read_desc fr dest).used
        + (4 + total_len + (read_desc fr dest).msg_size - 1) / (read_desc fr dest).msg_size } ∧
    (read_desc fr dest).used
      + (4 + total_len + (read_desc fr dest).msg_size - 1) / (read_desc fr dest).msg_size
      ≤ mailbox_slot_count (read_desc fr dest) := by
  obtain ⟨-, hl1, hl2, hu, hp⟩ := mailbox_send_bulk_success fuel hfuel fr fr' dest src_id data
    total_len wf h
  have hms := wf.msg_size_eq
  have hr := read_desc_range fr dest
  have hrs := hr.size
  have hk : (4 + total_len + 64 - 1) / 64 = (4 + total_len + 63) / 64 := by omega
  rw [hms, hk]
  have w0 := hp.written 0 (by omega)
  have w1 := hp.written 1 (by omega)
  have w2 := hp.written 2 (by omega)
  have w3 := hp.written 3 (by omega)
  simp only [show (0 : Nat) < 4 by decide, show (1 : Nat) < 4 by decide,
    show (2 : Nat) < 4 by decide, show (3 : Nat) < 4 by decide, if_true, bulk_header_bytes]
    at w0 w1 w2 w3
  refine ⟨w0, ?_, ?_, ?_, ?_, ?_, hu⟩
  · rw [w1]; rfl
  · rw [w2]; exact u8_of_lt (by omega)
  · rw [w3, show total_len / 256 % 256 = total_len / 256 by omega]
    exact u8_of_lt (by omega)
  · intro i h4 hi
    have w := hp.written i hi
    rw [if_neg (by omega)] at w
    exact w
  · have := hp.desc
    rw [this]

/-- Witness for C22: 300 bytes sent to box 2 of a fresh layout. -/
theorem C22_send_bulk_postcondition_witness :
    ∃ fr', mailbox_send_bulk 4 (mailbox_init_layout ⟨fun _ => 0, [], []⟩) 2 7 (fun i => i) 300
        = some (fr', 1) ∧
      fr'.mem ((read_desc (mailbox_init_layout ⟨fun _ => 0, [], []⟩) 2).base
        + ((read_desc (mailbox_init_layout ⟨fun _ => 0, [], []⟩) 2).tail
            * (read_desc (mailbox_init_layout ⟨fun _ => 0, [], []⟩) 2).msg_size + 2)
          % (read_desc (mailbox_init_layout ⟨fun _ => 0, [], []⟩) 2).size) = 300 % 256 ∧
      (read_desc fr' 2).used = 5 := by
  obtain ⟨fr', h, -⟩ := mailbox_send_bulk_post 4 (by decide)
    (mailbox_init_layout ⟨fun _ => 0, [], []⟩) 2 7 (fun i => i) 300 (by decide) (by decide)
    (by decide) (init_queue _ 2 (by decide)).wf (by decide)
  have hc := C22_send_bulk_postcondition 4 (by decide)
    (mailbox_init_layout ⟨fun _ => 0, [], []⟩) fr' 2 7 (fun i => i) 300
    (init_queue _ 2 (by decide)).wf h
  refine ⟨fr', h, hc.2.2.1, ?_⟩
  rw [hc.2.2.2.2.2.1]
  decide

/-- C23 (slot and byte addressing agree): for a well-formed descriptor and every slot
index `i < slot_count`, the byte offset `i * msg_size` that bulk streaming starts from is
below `size`, and the slot address `base + i * msg_size` computed in 32 bits is the ring
base plus this offset; a stream offset `(t * msg_size + i) mod size` lies in slot
`(t + i / msg_size) mod slot_count` at byte `i mod msg_size`.  A `mailbox_send_msg` that
returns 1 changes, outside the descriptor, only bytes of the slot at `tail`; a
`mailbox_send_bulk` that returns 1 changes, outside the descriptor, only bytes of the
`k = ceil((4 + total_len) / msg_size)` slots from `tail` on, modulo the slot count.  When
`tail = (head + used) mod slot_count`, no byte of the `used` occupied slots from `head`
on is changed by either. -/
theorem C23_slot_byte_addressing (fr : Fram) (idx : Nat)
    (wf : WellFormed idx (read_desc fr idx)) :
    (∀ i, i < mailbox_slot_count (read_desc fr idx) →
      i * (read_desc fr idx).msg_size < (read_desc fr idx).size ∧
      u32 (i * (read_desc fr idx).msg_size) = i * (read_desc fr idx).msg_size ∧
      u32 ((read_desc fr idx).base + u32 (i * (read_desc fr idx).msg_size))
        = (read_desc fr idx).base + i * (read_desc fr idx).msg_size ∧
      fram_send_addr ((read_desc fr idx).base + i * (read_desc fr idx).msg_size)
        = (read_desc fr idx).base + i * (read_desc fr idx).msg_size) ∧
    (∀ t i, (t * (read_desc fr idx).msg_size + i) % (read_desc fr idx).size
      = ((t + i / (read_desc fr idx).msg_size) % mailbox_slot_count (read_desc fr idx))
          * (read_desc fr idx).msg_size + i % (read_desc fr idx).msg_size) ∧
    (∀ src_id data len, (mailbox_send_msg fr idx src_id data len).2 = 1 →
      (∀ x, ¬ InDesc idx x → ¬ InSlots (read_desc fr idx) (read_desc fr idx).tail 1 x →
        (mailbox_send_msg fr idx src_id data len).1.mem x = fr.mem x) ∧
      ((read_desc fr idx).tail = ((read_desc fr idx).head + (read_desc fr idx).used)
          % mailbox_slot_count (read_desc fr idx) →
        ∀ u o, u < (read_desc fr idx).used → o < (read_desc fr idx).msg_size →
          (mailbox_send_msg fr idx src_id data len).1.mem ((read_desc fr idx).base
            + (((read_desc fr idx).head + u) % mailbox_slot_count (read_desc fr idx))
              * (read_desc fr idx).msg_size + o)
          = fr.mem ((read_desc fr idx).base
            + (((read_desc fr idx).head + u) % mailbox_slot_count (read_desc fr idx))
              * (read_desc fr idx).msg_size + o))) ∧
    (∀ fuel src_id data total_len fr', 4 ≤ fuel →
      mailbox_send_bulk fuel fr idx src_id data total_len = some (fr', 1) →
      (∀ x, ¬ InDesc idx x →
        ¬ InSlots (read_desc fr idx) (read_desc fr idx).tail
          ((4 + total_len + (read_desc fr idx).msg_size - 1) / (read_desc fr idx).msg_size) x →
        fr'.mem x = fr.mem x) ∧
      ((read_desc fr idx).tail = ((read_desc fr idx).head + (read_desc fr idx).used)
          % mailbox_slot_count (read_desc fr idx) →
        ∀ u o, u < (read_desc fr idx).used → o < (read_desc fr idx).msg_size →
          fr'.mem ((read_desc fr idx).base
            + (((read_desc fr idx).head + u) % mailbox_slot_count (read_desc fr idx))
              * (read_desc fr idx).msg_size + o)
          = fr.mem ((read_desc fr idx).base
            + (((read_desc fr idx).head + u) % mailbox_slot_count (read_desc fr idx))
              * (read_desc fr idx).msg_size + o))) := by
  have hr := read_desc_range fr idx
  have hsc := wf.slot_count_lt hr
  have hpos := wf.slot_count_pos
  have hms := wf.msg_size_eq
  have hsz := wf.size_eq
  have hchip := wf.ring_in_chip
  refine ⟨fun i hi => ?_, fun t i => ?_, fun src_id data len h => ?_,
    fun fuel src_id data total_len fr' hfuel h => ?_⟩
  · rw [hms]
    have hlt : i * 64 < (read_desc fr idx).size := by omega
    refine ⟨hlt, u32_of_lt (by omega), ?_, send_addr_of_lt (by omega)⟩
    rw [u32_of_lt (x := i * 64) (by omega), u32_of_lt (by omega)]
  · rw [hms, hsz]
    exact stream_offset_slot _ t i hpos
  · obtain ⟨hd, hl1, hl2, hu⟩ := mailbox_send_msg_success fr idx src_id data len h
    obtain ⟨-, hp⟩ := mailbox_send_msg_post fr idx src_id data len hd hl1 hl2 wf hu
    have hfr := fun x => hp.slots_frame wf (show 4 + len ≤ 64 * 1 by omega) x
    refine ⟨hfr, fun ht u o hu' ho => ?_⟩
    obtain ⟨n1, n2⟩ := occupied_not_in_slots wf ht 1 (by omega) u o hu' ho
    exact hfr _ n1 n2
  · obtain ⟨-, -, -, hu, hp⟩ := mailbox_send_bulk_success fuel hfuel fr fr' idx src_id data
      total_len wf h
    have hk : (4 + total_len + (read_desc fr idx).msg_size - 1) / (read_desc fr idx).msg_size
        = (4 + total_len + 63) / 64 := by rw [hms]; omega
    rw [hk]
    have hfr := fun x => hp.slots_frame wf (show 4 + total_len ≤ 64 * ((4 + total_len + 63) / 64)
      by omega) x
    refine ⟨hfr, fun ht u o hu' ho => ?_⟩
    obtain ⟨n1, n2⟩ := occupied_not_in_slots wf ht _ hu u o hu' ho
    exact hfr _ n1 n2

/-- Witness for C23: slot 315, the last one, of box 0 of `stale_store_a`, which holds
two records. -/
theorem C23_slot_byte_addressing_witness :
    315 * (read_desc stale_store_a 0).msg_size < (read_desc stale_store_a 0).size ∧
    u32 (315 * (read_desc stale_store_a 0).msg_size)
      = 315 * (read_desc stale_store_a 0).msg_size ∧
    u32 ((read_desc stale_store_a 0).base + u32 (315 * (read_desc stale_store_a 0).msg_size))
      = (read_desc stale_store_a 0).base + 315 * (read_desc stale_store_a 0).msg_size ∧
    fram_send_addr ((read_desc stale_store_a 0).base
        + 315 * (read_desc stale_store_a 0).msg_size)
      = (read_desc stale_store_a 0).base + 315 * (read_desc stale_store_a 0).msg_size :=
  (C23_slot_byte_addressing stale_store_a 0
    ⟨by decide, by decide, by decide, by decide, by decide, by decide, by decide⟩).1 315
    (by decide)

/-- C24 (drain order): one call of `arbiter_process_req_events` gives the same arbiter
state (holder, wait queue, need-schedule flag, and the rest) as clearing the pending mask
and then classifying one Request edge for each node whose bit is set in the mask, one at
a time, in ascending order of node (1, then 2, then 3), each node at most once; the mask
is 0 afterwards.  The mask, and with it the result, does not depend on the order in
which the edges of two nodes arrived. -/
theorem C24_drain_order (a : Arbiter) :
    arbiter_process_req_events a
      = classify_each { a with g_req_event_mask := 0 } (pending_nodes a.g_req_event_mask) ∧
    (arbiter_process_req_events a).g_req_event_mask = 0 ∧
    List.Sublist (pending_nodes a.g_req_event_mask) [1, 2, 3] ∧
    (∀ n, n ∈ pending_nodes a.g_req_event_mask ↔
      (1 ≤ n ∧ n ≤ 3) ∧ a.g_req_event_mask &&& (1 <<< (n - 1)) ≠ 0) ∧
    (∀ n m, req_edge (req_edge a n) m = req_edge (req_edge a m) n) := by
  refine ⟨?_, (drain_fields a).1, List.filter_sublist _, fun n => ?_, req_edge_comm a⟩
  · unfold arbiter_process_req_events
    by_cases hz : a.g_req_event_mask = 0
    · rw [if_pos hz, hz]
      have hp : pending_nodes 0 = [] := by decide
      rw [hp]
      cases a
      simp only at hz
      subst hz
      rfl
    · rw [if_neg hz]
      exact process_req_loop_eq _ _
  · unfold pending_nodes
    rw [List.mem_filter, decide_eq_true_iff]
    constructor
    · rintro ⟨hm, hb⟩
      refine ⟨?_, hb⟩
      simp only [List.mem_cons, List.mem_singleton, List.not_mem_nil, or_false] at hm
      omega
    · rintro ⟨hr, hb⟩
      refine ⟨?_, hb⟩
      simp only [List.mem_cons, List.mem_singleton, List.not_mem_nil, or_false]
      omega

/-- C25 (ring consistency) fails on the code.  Box 0 of `corrupt_bulk_store` is well
formed with `head = 0`, `tail = 1`, `used = 1`, so `tail = (head + used) mod slot_count`;
its head slot has the bulk flag set and `total_len = 0xFFFF`.  `mailbox_recv_msg` takes
the oversize branch: it returns 0 and writes `head = 0`, `used = 0` but leaves `tail = 1`,
so `tail ≠ (head + used) mod slot_count`.  The following `mailbox_send_msg` of one byte
returns 1, and the `mailbox_recv_msg` after it returns 0: the message just sent is not
returned. -/
theorem C25_ring_consistency_violated :
    WellFormed 0 (read_desc corrupt_bulk_store 0) ∧
    (read_desc corrupt_bulk_store 0).tail
      = ((read_desc corrupt_bulk_store 0).head + (read_desc corrupt_bulk_store 0).used)
        % mailbox_slot_count (read_desc corrupt_bulk_store 0) ∧
    (recv_then_send_recv 3 corrupt_bulk_store 0 5 (fun _ => 1) 1).map
      (fun x => (x.1.ret, x.2.1.head, x.2.1.used)) = some (0, 0, 0) ∧
    (recv_then_send_recv 3 corrupt_bulk_store 0 5 (fun _ => 1) 1).map
      (fun x => (x.2.1.tail, mailbox_slot_count x.2.1)) = some (1, 316) ∧
    (recv_then_send_recv 3 corrupt_bulk_store 0 5 (fun _ => 1) 1).map
      (fun x => (x.2.2.1, x.2.2.2.ret)) = some (1, 0) :=
  ⟨⟨by decide, by decide, by decide, by decide, by decide, by decide, by decide⟩, by decide,
    by decide, by decide, by decide⟩

/-- C26 (box isolation): with the layout constants the four box regions are pairwise
disjoint, none contains the mail-pending byte at `0x00010`, and in each box the
descriptor (`sizeof(node_box_desc_t) = 18` bytes, at offset 0) ends before the data
region (offset `0x100`, `0x4F00` bytes), which ends with the box.  For every index
`d < 4` and every store in which the descriptor of box `d` is well formed with its ring
inside the data region of box `d`, `mailbox_send_msg`, `mailbox_send_bulk` and
`mailbox_recv_msg` on box `d` return and change no byte outside the region of box `d`; so
the descriptors of the other boxes and the mail-pending byte read as before. -/
theorem C26_box_isolation (fr : Fram) (d : Nat) (hd : d < 4)
    (wf : WellFormed d (read_desc fr d)) (hring : RingInBox fr d) :
    (∀ i j, i < 4 → j < 4 → i ≠ j → ∀ x, InBox i x → ¬ InBox j x) ∧
    (∀ j, j < 4 → ¬ InBox j FRAM_NOTIF_BOX_ADDR) ∧
    (∀ j, j < 4 →
      mailbox_node_desc_addr j = mailbox_node_box_base j ∧
      mailbox_node_desc_addr j + DESC_SIZE ≤ mailbox_node_data_base j ∧
      mailbox_node_data_base j + NODE_BOX_DATA_SIZE = mailbox_node_box_base j + NODE_BOX_SIZE) ∧
    (∀ src_id data len,
      (∀ x, ¬ InBox d x → (mailbox_send_msg fr d src_id data len).1.mem x = fr.mem x) ∧
      (∀ j, j < 4 → j ≠ d →
        read_desc (mailbox_send_msg fr d src_id data len).1 j = read_desc fr j) ∧
      notif_byte (mailbox_send_msg fr d src_id data len).1 = notif_byte fr) ∧
    (∀ fuel src_id data total_len, 4 ≤ fuel →
      ∃ fr' r, mailbox_send_bulk fuel fr d src_id data total_len = some (fr', r) ∧
        (∀ x, ¬ InBox d x → fr'.mem x = fr.mem x) ∧
        (∀ j, j < 4 → j ≠ d → read_desc fr' j = read_desc fr j) ∧
        notif_byte fr' = notif_byte fr) ∧
    (∀ fuel s0 l0 out0, 3 ≤ fuel →
      ∃ fr' out, mailbox_recv_msg fuel fr d s0 l0 out0 = some (fr', out) ∧
        (∀ x, ¬ InBox d x → fr'.mem x = fr.mem x) ∧
        (∀ j, j < 4 → j ≠ d → read_desc fr' j = read_desc fr j) ∧
        notif_byte fr' = notif_byte fr) := by
  refine ⟨?_, ?_, ?_, ?_, ?_, ?_⟩
  · intro i j hi hj hne x hx hx'
    have h1 := box_base_cases i hi
    have h2 := box_base_cases j hj
    unfold InBox NODE_BOX_SIZE at hx hx'
    omega
  · intro j hj hx
    have h2 := box_base_cases j hj
    unfold InBox NODE_BOX_SIZE FRAM_NOTIF_BOX_ADDR at hx
    omega
  · intro j hj
    obtain ⟨h1, h2⟩ := data_base_cases j hj
    have h3 := box_base_cases j hj
    unfold DESC_SIZE NODE_BOX_DATA_SIZE NODE_BOX_SIZE
    omega
  · intro src_id data len
    have h := (mailbox_send_msg_op fr d src_id data len hd wf).outside_box hd hring
    exact ⟨h, outside_box_others hd h⟩
  · intro fuel src_id data total_len hfuel
    obtain ⟨fr', r, he, hp⟩ := mailbox_send_bulk_op fuel hfuel fr d src_id data total_len hd wf
    have h := hp.outside_box hd hring
    exact ⟨fr', r, he, h, outside_box_others hd h⟩
  · intro fuel s0 l0 out0 hfuel
    obtain ⟨fr', out, he, hp⟩ := mailbox_recv_msg_op fuel hfuel fr d s0 l0 out0 hd wf
    have h := hp.outside_box hd hring
    exact ⟨fr', out, he, h, outside_box_others hd h⟩

/-- Witness for C26: box 0 of `corrupt_bulk_store`. -/
theorem C26_box_isolation_witness :
    (∀ j, j < 4 → ¬ InBox j FRAM_NOTIF_BOX_ADDR) ∧
    (∀ fuel s0 l0 out0, 3 ≤ fuel →
      ∃ fr' out, mailbox_recv_msg fuel corrupt_bulk_store 0 s0 l0 out0 = some (fr', out) ∧
        (∀ x, ¬ InBox 0 x → fr'.mem x = corrupt_bulk_store.mem x) ∧
        (∀ j, j < 4 → j ≠ 0 → read_desc fr' j = read_desc corrupt_bulk_store j) ∧
        notif_byte fr' = notif_byte corrupt_bulk_store) :=
  ⟨(C26_box_isolation corrupt_bulk_store 0 (by decide)
      ⟨by decide, by decide, by decide, by decide, by decide, by decide, by decide⟩
      ⟨by decide, by decide⟩).2.1,
    (C26_box_isolation corrupt_bulk_store 0 (by decide)
      ⟨by decide, by decide, by decide, by decide, by decide, by decide, by decide⟩
      ⟨by decide, by decide⟩).2.2.2.2.2⟩

/-- C27 (mixed FIFO): when a sequence of sends to one well-formed empty box, normal
messages by `mailbox_send_msg` and bulk messages by `mailbox_send_bulk` in any order, has
all returned 1, the same number of calls of `mailbox_recv_msg` return 1 each and deliver
these messages in send order, each with its own `src_id`, length and payload bytes, and
leave `used = 0`. -/
theorem C27_mixed_fifo (fuel : Nat) (hfuel : 4 ≤ fuel) (fr fr1 : Fram) (d : Nat)
    (msgs : List Msg) (rets : List Nat) (s0 l0 : Nat) (out0 : Nat → Nat)
    (hd : d < 4) (hmsgs : ∀ m, m ∈ msgs → m.Valid)
    (wf : WellFormed d (read_desc fr d))
    (hused : (read_desc fr d).used = 0)
    (hht : (read_desc fr d).head = (read_desc fr d).tail)
    (hsend : send_seq fuel fr d msgs = some (fr1, rets))
    (hok : ∀ r, r ∈ rets → r = 1) :
    rets.length = msgs.length ∧
    ∃ fr2 outs, recv_n fuel d msgs.length fr1 s0 l0 out0 = some (fr2, outs) ∧
      List.Forall₂ Returned outs msgs ∧
      (read_desc fr2 d).used = 0 := by
  have q0 := Queue.of_empty wf hused hht
  obtain ⟨q1, hl⟩ := send_seq_queue fuel hfuel d msgs fr fr1 rets [] q0 hmsgs hsend hok
  rw [List.nil_append] at q1
  obtain ⟨fr2, outs, h2, hall, q2⟩ := recv_n_queue fuel d hd msgs fr1 s0 l0 out0 q1
    (fun _ _ _ => by omega)
  exact ⟨hl, fr2, outs, h2, hall, q2.empty_head_tail.1⟩

/-- Witness for C27: a normal message, a bulk message of 100 bytes and another normal
message sent to box 3 of a fresh layout. -/
theorem C27_mixed_fifo_witness :
    ∃ fr1, send_seq 4 (mailbox_init_layout ⟨fun _ => 0, [], []⟩) 3
        [⟨false, 1, 2, fun _ => 7⟩, ⟨true, 2, 100, fun _ => 8⟩, ⟨false, 3, 1, fun _ => 9⟩]
        = some (fr1, [1, 1, 1]) ∧
      [1, 1, 1].length
        = [(⟨false, 1, 2, fun _ => 7⟩ : Msg), ⟨true, 2, 100, fun _ => 8⟩,
            ⟨false, 3, 1, fun _ => 9⟩].length ∧
      ∃ fr2 outs, recv_n 4 3
          [(⟨false, 1, 2, fun _ => 7⟩ : Msg), ⟨true, 2, 100, fun _ => 8⟩,
            ⟨false, 3, 1, fun _ => 9⟩].length fr1 0 0 (fun _ => 0) = some (fr2, outs) ∧
        List.Forall₂ Returned outs
          [⟨false, 1, 2, fun _ => 7⟩, ⟨true, 2, 100, fun _ => 8⟩, ⟨false, 3, 1, fun _ => 9⟩] ∧
        (read_desc fr2 3).used = 0 := by
  have hm : (send_seq 4 (mailbox_init_layout ⟨fun _ => 0, [], []⟩) 3
      [⟨false, 1, 2, fun _ => 7⟩, ⟨true, 2, 100, fun _ => 8⟩, ⟨false, 3, 1, fun _ => 9⟩]).map
      Prod.snd = some [1, 1, 1] := by decide
  cases h : send_seq 4 (mailbox_init_layout ⟨fun _ => 0, [], []⟩) 3
      [⟨false, 1, 2, fun _ => 7⟩, ⟨true, 2, 100, fun _ => 8⟩, ⟨false, 3, 1, fun _ => 9⟩] with
  | none => rw [h] at hm; cases hm
  | some p =>
    obtain ⟨fr1, rets⟩ := p
    rw [h] at hm
    have hr : rets = [1, 1, 1] := Option.some.inj hm
    subst hr
    refine ⟨fr1, rfl, ?_⟩
    exact C27_mixed_fifo 4 (by decide) (mailbox_init_layout ⟨fun _ => 0, [], []⟩) fr1 3
      [⟨false, 1, 2, fun _ => 7⟩, ⟨true, 2, 100, fun _ => 8⟩, ⟨false, 3, 1, fun _ => 9⟩]
      [1, 1, 1] 0 0 (fun _ => 0) (by decide)
      (by
        intro m hm
        simp only [List.mem_cons, List.mem_singleton, List.not_mem_nil, or_false] at hm
        rcases hm with rfl | rfl | rfl
        · exact ⟨by decide, by decide, by decide, fun _ _ => by show 7 < 256; decide⟩
        · exact ⟨by decide, by decide, by decide, fun _ _ => by show 8 < 256; decide⟩
        · exact ⟨by decide, by decide, by decide, fun _ _ => by show 9 < 256; decide⟩)
      (init_queue _ 3 (by decide)).wf (init_queue _ 3 (by decide)).empty_head_tail.1
      (init_queue _ 3 (by decide)).empty_head_tail.2 h
      (by decide)

/-- C29 (zero-length bulk header): on a non-empty box with `head < slot_count` whose head
slot has bit 0 of the flags byte set and `total_len = 0`, `mailbox_recv_msg` returns 0
with `len_out = 0` and `data_out` untouched, and it writes the descriptor back: `head` is
`(head + 1) mod slot_count`, `used` is one less, `tail` and every other field are as
before, and so is every byte outside the descriptor. -/
theorem C29_zero_length_bulk (fuel : Nat) (fr : Fram) (idx s0 l0 : Nat) (out0 : Nat → Nat)
    (hidx : idx < 4)
    (hhead : (read_desc fr idx).head < mailbox_slot_count (read_desc fr idx))
    (hused : (read_desc fr idx).used ≠ 0)
    (hflag : head_slot fr idx 1 &&& MSG_FLAG_BULK ≠ 0)
    (hz : head_slot fr idx 2 + 256 * head_slot fr idx 3 = 0) :
    ∃ fr' out, mailbox_recv_msg fuel fr idx s0 l0 out0 = some (fr', out) ∧
      out.ret = 0 ∧ out.len_out = 0 ∧ out.data_out = out0 ∧
      read_desc fr' idx = { read_desc fr idx with
        head := ((read_desc fr idx).head + 1) % mailbox_slot_count (read_desc fr idx)
        used := (read_desc fr idx).used - 1 } ∧
      (read_desc fr' idx).used + 1 = (read_desc fr idx).used ∧
      (read_desc fr' idx).tail = (read_desc fr idx).tail ∧
      fr'.wlog = (mailbox_node_desc_addr idx, DESC_SIZE) :: fr.wlog ∧
      (∀ x, x < mailbox_node_desc_addr idx ∨ mailbox_node_desc_addr idx + DESC_SIZE ≤ x →
        fr'.mem x = fr.mem x) := by
  have hr := read_desc_range fr idx
  have hsc : mailbox_slot_count (read_desc fr idx) < 65536 := by
    unfold mailbox_slot_count
    simp only
    split
    · decide
    · exact Nat.mod_lt _ (by decide)
  have hstep := head_step _ _ hhead hsc
  have hd : read_desc (fram_write_bytes
        (fram_read_bytes (fram_read_bytes fr (mailbox_node_desc_addr idx) (fun _ => 0) DESC_SIZE).1
          (u32 ((read_desc fr idx).base
            + u32 ((read_desc fr idx).head * (read_desc fr idx).msg_size))) (fun _ => 0) 64).1
        (mailbox_node_desc_addr idx)
        (desc_bytes { read_desc fr idx with
          head := if u16 ((read_desc fr idx).head + 1) ≥ mailbox_slot_count (read_desc fr idx)
                  then 0 else u16 ((read_desc fr idx).head + 1)
          used := (read_desc fr idx).used - 1 }) DESC_SIZE) idx
      = { read_desc fr idx with
          head := ((read_desc fr idx).head + 1) % mailbox_slot_count (read_desc fr idx)
          used := (read_desc fr idx).used - 1 } := by
    rw [hstep]
    have hm := Nat.mod_lt ((read_desc fr idx).head + 1)
      (show 0 < mailbox_slot_count (read_desc fr idx) by omega)
    have hu := hr.used
    exact read_desc_write _ idx _ ⟨hr.base, hr.size, by simp only; omega, hr.tail,
      by simp only; omega, hr.msg_size, hr.reserved0, hr.reserved1⟩
  refine ⟨_, _, mailbox_recv_msg_zero_bulk fuel fr idx s0 l0 out0 hidx (by omega) hused hflag hz,
    rfl, rfl, rfl, hd, ?_, ?_, ?_, ?_⟩
  · rw [hd]
    show (read_desc fr idx).used - 1 + 1 = (read_desc fr idx).used
    omega
  · rw [hd]
  · rw [fram_write_bytes_wlog, fram_read_bytes_wlog, fram_read_bytes_wlog]
  · intro x hx
    rw [desc_write_frame _ _ _ _ hx, fram_read_bytes_mem, fram_read_bytes_mem]

/-- Witness for C29: box 2 of `zero_bulk_store`. -/
theorem C29_zero_length_bulk_witness :
    ∃ fr' out, mailbox_recv_msg 0 zero_bulk_store 2 0 0 (fun _ => 0) = some (fr', out) ∧
      out.ret = 0 ∧ out.len_out = 0 ∧ out.data_out = (fun _ => 0) ∧
      read_desc fr' 2 = { read_desc zero_bulk_store 2 with
        head := ((read_desc zero_bulk_store 2).head + 1)
          % mailbox_slot_count (read_desc zero_bulk_store 2)
        used := (read_desc zero_bulk_store 2).used - 1 } ∧
      (read_desc fr' 2).used + 1 = (read_desc zero_bulk_store 2).used ∧
      (read_desc fr' 2).tail = (read_desc zero_bulk_store 2).tail ∧
      fr'.wlog = (mailbox_node_desc_addr 2, DESC_SIZE) :: zero_bulk_store.wlog ∧
      (∀ x, x < mailbox_node_desc_addr 2 ∨ mailbox_node_desc_addr 2 + DESC_SIZE ≤ x →
        fr'.mem x = zero_bulk_store.mem x) :=
  C29_zero_length_bulk 0 zero_bulk_store 2 0 0 (fun _ => 0) (by decide) (by decide) (by decide)
    (by decide) (by decide)

/-- C30 (no request is dropped by the capacity check) fails on the code, in two runs.
In the first, node 1 holds the lock, the wait queue is `[2]` and the Request edge of
node 3 is pending: node 3 is neither the holder nor queued and `g_q_len = 1`.  The drain
calls `queue_push(3)`, which runs with interrupts enabled: it stores `g_queue[1] = 3`;
the reset pulse of node 2 is taken there and `queue_remove(2)` sets `g_q_len = 0` with
`g_queue[0] = 2` left in place; then `g_q_len++` gives 1.  The wait queue is `[2]`
again: node 3 is not in it.  In the second, the run of `race_pop_end` has left
`g_q_len = 255` with node 1 the holder; node 3, which is neither the holder nor in
`g_queue[0 .. 3)`, requests, and `queue_push(3)` returns at `g_q_len >= NUM_NODES`: the
drain leaves the queue as it was. -/
theorem C30_no_request_dropped_violated :
    (Reachable race_push_start ∧ ArbInv race_push_start ∧
      race_push_start.g_lock_holder = 1 ∧ wait_queue race_push_start = [2] ∧
      3 ∉ wait_queue race_push_start ∧
      race_push_start.g_req_event_mask &&& (1 <<< 2) ≠ 0 ∧
      race_push_start.g_q_len < NUM_NODES ∧
      (race_push_mid.g_queue 0 = 2 ∧ race_push_mid.g_queue 1 = 3 ∧
        race_push_mid.g_q_len = 0) ∧
      CodeStep race_push_start race_push_end ∧
      race_push_end.g_req_event_mask = 0 ∧ race_push_end.g_lock_holder = 1 ∧
      race_push_end.g_q_len = 1 ∧ wait_queue race_push_end = [2] ∧
      3 ∉ wait_queue race_push_end) ∧
    (CodeReachable race_pop_request ∧
      race_pop_request.g_lock_holder = 1 ∧
      race_pop_request.g_req_event_mask &&& (1 <<< 2) ≠ 0 ∧
      (race_pop_request.g_queue 0 = 2 ∧ race_pop_request.g_queue 1 = 2 ∧
        race_pop_request.g_queue 2 = 0) ∧
      race_pop_request.g_q_len = 255 ∧ ¬ race_pop_request.g_q_len < NUM_NODES ∧
      queue_push race_pop_request 3 = race_pop_request ∧
      CodeStep race_pop_request (arbiter_process_req_events race_pop_request) ∧
      (arbiter_process_req_events race_pop_request).g_req_event_mask = 0 ∧
      (arbiter_process_req_events race_pop_request).g_q_len = 255 ∧
      ((arbiter_process_req_events race_pop_request).g_queue 0 = 2 ∧
        (arbiter_process_req_events race_pop_request).g_queue 1 = 2 ∧
        (arbiter_process_req_events race_pop_request).g_queue 2 = 0)) :=
  ⟨⟨race_push_start_reachable, race_push_start_reachable.inv, by decide, by decide, by decide,
      by decide, by decide, ⟨by decide, by decide, by decide⟩,
      CodeStep.drain_port3 2 0x02, by decide, by decide, by decide, by decide, by decide⟩,
    ⟨race_pop_end_reachable.request 3, by decide, by decide,
      ⟨by decide, by decide, by decide⟩, by decide, by decide, rfl,
      CodeStep.whole ArbiterStep.drain, by decide, by decide,
      ⟨by decide, by decide, by decide⟩⟩⟩

end MicroSymphony
